import Mathlib

/-!
# Robot LIDAR simulation: occupancy grid, range sensor and behaviour manager

A shallow embedding of `OccupancyGrid.cpp`, `Lidar.cpp`, `Map.cpp`, `Robot.cpp`,
`BehaviorManager.cpp` and the motion step of `Simulation.cpp`, followed by theorems about
the embedded functions.

Conventions of the embedding:
* C++ `int` values are `Int`, without overflow;
* C++ `double` values are rationals (`ℚ`), with exact arithmetic in place of IEEE rounding,
  except in `Lidar.Rounded`, where every operation of the loop of `Lidar::read` is rounded;
* `uchar` pixels are `Nat` values (only 0, 127 and 255 are ever stored);
* a `cv::Mat` of one channel is the row-major list of its pixels.
-/

namespace RobotLidar

/-! ## Points -/

/-- The type `cv::Point`: a pair of C++ `int` coordinates. -/
structure Point where
  x : Int
  y : Int
deriving DecidableEq, Repr

namespace Point

/-- The operator `cv::Point / int`: each coordinate is divided by the C++ integer
division, which truncates toward zero. -/
def div (p : Point) (c : Int) : Point := ⟨p.x.tdiv c, p.y.tdiv c⟩

/-- The operator `cv::Point - cv::Point`. -/
def sub (p q : Point) : Point := ⟨p.x - q.x, p.y - q.y⟩

/-- The square of `cv::norm(p)`, which is `sqrt(x*x + y*y)` computed in `double`. -/
def normSq (p : Point) : Int := p.x * p.x + p.y * p.y

end Point

/-! ## OccupancyGrid -/

/-- Pixel value of an obstacle cell (black). -/
def OCCUPIED : Nat := 0

/-- Pixel value of a cell no ray has touched yet (grey). -/
def UNKNOWN : Nat := 127

/-- Pixel value of a cell a ray went through (white). -/
def FREE : Nat := 255

/-- The members of `OccupancyGrid` the mapping code uses. `grid` is the `cv::Mat` of
`gridH` rows and `gridW` columns, stored row after row. -/
structure OccupancyGrid where
  cellSize : Int
  gridW : Nat
  gridH : Nat
  grid : List Nat
deriving DecidableEq, Repr

namespace OccupancyGrid

/-- The storage of a `gridH x gridW` matrix holds exactly `gridW * gridH` pixels. -/
def WellFormed (g : OccupancyGrid) : Prop := g.grid.length = g.gridW * g.gridH

instance (g : OccupancyGrid) : Decidable g.WellFormed := by
  unfold WellFormed; infer_instance

/-- The read `grid.at<uchar>(y, x)`, for a column `x` and a row `y`. -/
def at_ (g : OccupancyGrid) (x y : Nat) : Nat := g.grid.getD (y * g.gridW + x) UNKNOWN

/-- The write `grid.at<uchar>(y, x) = v`. -/
def setAt (g : OccupancyGrid) (x y : Nat) (v : Nat) : OccupancyGrid :=
  { g with grid := g.grid.set (y * g.gridW + x) v }

/-- The test `x < 0 || x >= gridW || y < 0 || y >= gridH` of `update`. -/
def outside (g : OccupancyGrid) (p : Point) : Bool :=
  decide (p.x < 0) || decide (p.x ≥ (g.gridW : Int)) || decide (p.y < 0) ||
    decide (p.y ≥ (g.gridH : Int))

/-- The body of the inner `for` loop of `update` for the `i`-th position `cell` of a line
iterator of `count` positions: positions outside the grid are skipped; the last position
becomes an obstacle when `cv::norm(point - robotPos) < 98.0`; any other position becomes
free unless it is an obstacle already. The comparison of the norm is made on its square
(`98 * 98 = 9604`), which gives the same answer for integer points. -/
def markCell (g : OccupancyGrid) (point robotPos : Point) (count i : Nat) (cell : Point) :
    OccupancyGrid :=
  if g.outside cell then g
  else if i + 1 = count then
    if (point.sub robotPos).normSq < 9604 then g.setAt cell.x.toNat cell.y.toNat OCCUPIED
    else g
  else if g.at_ cell.x.toNat cell.y.toNat ≠ 0 then g.setAt cell.x.toNat cell.y.toNat FREE
  else g

/-- The inner `for (int i = 0; i < it.count; i++, ++it)` loop of `update`, run from index
`i` over the remaining positions of the line iterator. -/
def traceRay (point robotPos : Point) (count : Nat) :
    OccupancyGrid → Nat → List Point → OccupancyGrid
  | g, _, [] => g
  | g, i, cell :: rest =>
      traceRay point robotPos count (markCell g point robotPos count i cell) (i + 1) rest

/-- The body of the outer loop of `update` for one scan point. `lineIt gridW gridH a b`
stands for `cv::LineIterator it(grid, a, b)`, a library class: it gives the positions
`it.pos()` in the order the iterator yields them, `it.count` being their number. -/
def integratePoint (lineIt : Nat → Nat → Point → Point → List Point) (robotPos : Point)
    (g : OccupancyGrid) (point : Point) : OccupancyGrid :=
  let gridRobot := robotPos.div g.cellSize
  let gridHit := point.div g.cellSize
  if g.outside gridHit then g
  else
    let cells := lineIt g.gridW g.gridH gridRobot gridHit
    traceRay point robotPos cells.length g 0 cells

/-- The method `OccupancyGrid::update(scanPoints, robotPos)`. -/
def update (lineIt : Nat → Nat → Point → Point → List Point) (g : OccupancyGrid)
    (scanPoints : List Point) (robotPos : Point) : OccupancyGrid :=
  scanPoints.foldl (integratePoint lineIt robotPos) g

/-! ### Smoothing -/

/-- A binary image of the size of the grid: `true` is a non-zero mask pixel. It is
addressed by column and row; positions outside the image are never read. -/
abbrev Mask := Int → Int → Bool

/-- The offsets of the 3x3 rectangular structuring element around its anchor. -/
def kernelOffsets : List (Int × Int) :=
  [(-1, -1), (0, -1), (1, -1), (-1, 0), (0, 0), (1, 0), (-1, 1), (0, 1), (1, 1)]

/-- Whether column `x`, row `y` is a pixel of a `w x h` image. -/
def inImage (w h : Nat) (x y : Int) : Bool :=
  decide (0 ≤ x) && decide (x < (w : Int)) && decide (0 ≤ y) && decide (y < (h : Int))

/-- One pass of `cv::dilate` with the 3x3 rectangle: a pixel is set when some pixel of its
neighbourhood inside the image is set (the default border never contributes). -/
def dilate (w h : Nat) (m : Mask) : Mask := fun x y =>
  kernelOffsets.any fun d => inImage w h (x + d.1) (y + d.2) && m (x + d.1) (y + d.2)

/-- One pass of `cv::erode` with the 3x3 rectangle: a pixel stays set when every pixel of
its neighbourhood inside the image is set (the default border never contributes). -/
def erode (w h : Nat) (m : Mask) : Mask := fun x y =>
  kernelOffsets.all fun d => !inImage w h (x + d.1) (y + d.2) || m (x + d.1) (y + d.2)

/-- The call `cv::morphologyEx(mask, mask, cv::MORPH_CLOSE, kernel, anchor, iterations)`:
`iterations` dilations followed by `iterations` erosions. -/
def morphClose (w h : Nat) (iterations : Nat) (m : Mask) : Mask :=
  (erode w h)^[iterations] ((dilate w h)^[iterations] m)

/-- The mask `grid == 0`. -/
def obstacleMask (g : OccupancyGrid) : Mask := fun x y =>
  inImage g.gridW g.gridH x y && decide (g.at_ x.toNat y.toNat = 0)

/-- The call `grid.setTo(0, mask)`: every pixel whose mask pixel is set becomes 0. -/
def setToZero (g : OccupancyGrid) (m : Mask) : OccupancyGrid :=
  { g with grid := g.grid.mapIdx fun i v =>
      if (m ((i % g.gridW : Nat) : Int) ((i / g.gridW : Nat) : Int)) = true then 0 else v }

/-- The method `OccupancyGrid::smoothGrid(iterations)`. -/
def smoothGrid (g : OccupancyGrid) (iterations : Nat) : OccupancyGrid :=
  g.setToZero (morphClose g.gridW g.gridH iterations g.obstacleMask)

/-! ### Exploration test -/

/-- The two nested `for` loops of `isFullyExplored`: `unexploredCount` is incremented for
each row `y` and column `x` with `grid.at<uchar>(y, x) == 127`. -/
def unexploredCount (g : OccupancyGrid) : Nat :=
  (List.range g.gridH).foldl
    (fun count y =>
      (List.range g.gridW).foldl
        (fun count x => if g.at_ x y = 127 then count + 1 else count) count)
    0

/-- The method `OccupancyGrid::isFullyExplored()`. With `totalCells = 0` the C++ quotient
is `0.0 / 0`, a NaN, and every comparison with a NaN is false. Otherwise the quotient and
the literal `0.311` are taken exactly: two distinct fractions `count / total` and
`311 / 1000` differ by at least `1 / (1000 * total)`, far more than the rounding of a
`double` for any `int` total, so the rounded comparison agrees with the exact one. -/
def isFullyExplored (g : OccupancyGrid) : Bool :=
  let totalCells := g.gridW * g.gridH
  if totalCells = 0 then false
  else decide ((g.unexploredCount : ℚ) / (totalCells : ℚ) < 311 / 1000)

/-- The number of cells of the grid that are Unknown, as the specification counts them:
the pixels of the matrix equal to 127. -/
def unknownCells (g : OccupancyGrid) : Nat := g.grid.count UNKNOWN

/-- A grid of 10x10 cells of size 1, all Unknown except 7 Free cells. -/
def sevenFree : OccupancyGrid := ⟨1, 10, 10, List.replicate 7 FREE ++ List.replicate 93 UNKNOWN⟩

/-- A grid of 10x10 cells of size 1 with 93 cells that are not Unknown (90 Free and 3
Occupied) and 7 Unknown cells. -/
def ninetyThreeKnown : OccupancyGrid :=
  ⟨1, 10, 10, List.replicate 90 FREE ++ List.replicate 7 UNKNOWN ++ List.replicate 3 OCCUPIED⟩

/-- Every pixel that is an obstacle in `g` is an obstacle in `g2`, a grid of the same
dimensions. -/
def KeepsObstacles (g g2 : OccupancyGrid) : Prop :=
  g2.gridW = g.gridW ∧ g2.gridH = g.gridH ∧
    ∀ i, g.grid.getD i UNKNOWN = 0 → g2.grid.getD i UNKNOWN = 0

end OccupancyGrid

/-- One call on the grid: `update` or `smoothGrid`. -/
inductive GridCall where
  | update (scanPoints : List Point) (robotPos : Point)
  | smoothGrid (iterations : Nat)

/-- The grid after one call. -/
def GridCall.apply (lineIt : Nat → Nat → Point → Point → List Point) (g : OccupancyGrid) :
    GridCall → OccupancyGrid
  | .update scanPoints robotPos => g.update lineIt scanPoints robotPos
  | .smoothGrid iterations => g.smoothGrid iterations

/-- The grid after a sequence of calls, made from left to right. -/
def runGrid (lineIt : Nat → Nat → Point → Point → List Point) (g : OccupancyGrid)
    (calls : List GridCall) : OccupancyGrid :=
  calls.foldl (GridCall.apply lineIt) g

/-- A line iterator that yields the two end points only, used to run `update` on concrete
grids. -/
def endPointsOnly : Nat → Nat → Point → Point → List Point := fun _ _ a b => [a, b]

/-! ## Map -/

/-- The members of `Map` the sensor uses: the size of the image and, for each pixel at
column `x` and row `y`, whether `image.at<cv::Vec3b>(y, x)` is the black `(0, 0, 0)`. -/
structure Map where
  width : Int
  height : Int
  black : Int → Int → Bool

/-- The method `Map::isObstacle(x, y)`: outside the image everything is a wall; inside, a
black pixel is a wall. -/
def Map.isObstacle (m : Map) (x y : Int) : Bool :=
  if x < 0 ∨ x ≥ m.width ∨ y < 0 ∨ y ≥ m.height then true
  else if m.black x y then true
  else false

/-! ## Lidar -/

namespace Lidar

/-- The constant `num_rays` of `Lidar.hpp`. -/
def num_rays : Int := 360

/-- The constant `max_range` of `Lidar.hpp`. -/
def max_range : ℚ := 100

/-- The variables the loop of `Lidar::read` changes. -/
structure Ray where
  sideDistX : ℚ
  sideDistY : ℚ
  mapX : Int
  mapY : Int
  hit : Bool
  distance : ℚ
deriving DecidableEq

/-- The variables of `Lidar::read` that are fixed before its loop starts. -/
structure RayDir where
  deltaDistX : ℚ
  deltaDistY : ℚ
  stepX : Int
  stepY : Int
deriving DecidableEq

/-- The expression `(rayDir == 0) ? 1e30 : std::abs(1.0 / rayDir)`. -/
def deltaDist (rayDir : ℚ) : ℚ := if rayDir = 0 then 10 ^ 30 else |1 / rayDir|

/-- The fixed part of a ray cast in the direction `(rayDirX, rayDirY)`. -/
def rayDir (rayDirX rayDirY : ℚ) : RayDir :=
  { deltaDistX := deltaDist rayDirX
    deltaDistY := deltaDist rayDirY
    stepX := if rayDirX < 0 then -1 else 1
    stepY := if rayDirY < 0 then -1 else 1 }

/-- The state of `Lidar::read` when its loop is first reached, for a robot at `robotPos`
and a ray of direction `(rayDirX, rayDirY)`. -/
def rayStart (robotPos : Point) (rayDirX rayDirY : ℚ) : Ray :=
  let startX : ℚ := robotPos.x
  let startY : ℚ := robotPos.y
  let mapX : Int := robotPos.x
  let mapY : Int := robotPos.y
  { sideDistX :=
      if rayDirX < 0 then (startX - mapX) * deltaDist rayDirX
      else (mapX + 1 - startX) * deltaDist rayDirX
    sideDistY :=
      if rayDirY < 0 then (startY - mapY) * deltaDist rayDirY
      else (mapY + 1 - startY) * deltaDist rayDirY
    mapX := mapX
    mapY := mapY
    hit := false
    distance := 0 }

/-- First half of the loop body: the ray enters the next cell, across the nearer of the
next vertical and the next horizontal cell boundary. The sum and the difference are exact
here; `Rounded.advance` below is the same step with the rounding of both operations. -/
def advance (d : RayDir) (s : Ray) : Ray :=
  if s.sideDistX < s.sideDistY then
    { s with
      sideDistX := s.sideDistX + d.deltaDistX
      mapX := s.mapX + d.stepX
      distance := s.sideDistX + d.deltaDistX - d.deltaDistX }
  else
    { s with
      sideDistY := s.sideDistY + d.deltaDistY
      mapY := s.mapY + d.stepY
      distance := s.sideDistY + d.deltaDistY - d.deltaDistY }

/-- Second half of the loop body: the test of the cell just entered. -/
def checkCell (m : Map) (s : Ray) : Ray :=
  if s.mapX ≥ 0 ∧ s.mapX < m.width ∧ s.mapY ≥ 0 ∧ s.mapY < m.height then
    if m.isObstacle s.mapX s.mapY then { s with hit := true } else s
  else { s with hit := true, distance := max_range }

/-- The loop `while (!hit && distance < max_range)`, run for at most `fuel` iterations:
`none` when the loop is still running after them. -/
def ddaLoop (m : Map) (d : RayDir) : Nat → Ray → Option Ray
  | fuel, s =>
    if !s.hit && decide (s.distance < max_range) then
      match fuel with
      | 0 => none
      | n + 1 => ddaLoop m d n (checkCell m (advance d s))
    else some s

/-- The method `Lidar::read(rayID)` for a robot at `robotPos`, where `rayDirX` and
`rayDirY` are the values of `std::cos(rayAngle)` and `std::sin(rayAngle)` for the angle
`rayAngle = orientation + (rayID - num_rays / 2) * (M_PI / 180.0)` of the ray. -/
def read (m : Map) (robotPos : Point) (rayDirX rayDirY : ℚ) (fuel : Nat) : Option ℚ :=
  (ddaLoop m (rayDir rayDirX rayDirY) fuel (rayStart robotPos rayDirX rayDirY)).map
    fun s => if s.hit then s.distance else max_range

/-- The number of cells left between the current cell and the edge of the map the ray
moves toward, counted on both axes: a bound on the iterations the loop can still make. -/
def cellsToEdge (m : Map) (d : RayDir) (s : Ray) : Nat :=
  (if d.stepX = 1 then (m.width - s.mapX).toNat else (s.mapX + 1).toNat) +
    (if d.stepY = 1 then (m.height - s.mapY).toNat else (s.mapY + 1).toNat)

/-- A white map of 200x200 pixels with one black pixel, at column 91 and row 90. -/
def oneWallMap : Map := ⟨200, 200, fun x y => decide (x = 91 ∧ y = 90)⟩

/-- A map of 300x300 pixels without any wall. -/
def whiteMap : Map := ⟨300, 300, fun _ _ => false⟩

/-- The value of `std::cos(45 * (M_PI / 180.0))`, the double `0.7071067811865476`. -/
def cos45 : ℚ := 6369051672525773 / 9007199254740992

/-- The value of `std::sin(45 * (M_PI / 180.0))`, the double `0.7071067811865475`. -/
def sin45 : ℚ := 1592262918131443 / 2251799813685248

end Lidar

/-! ## Robot -/

/-- The values the field `orientation_angle` of `Robot` takes: 0.0 on construction and,
in `updateOrientation`, 0.0, `M_PI`, `M_PI / 2.0` and `-M_PI / 2.0`. No other value is
ever stored in that private field. -/
inductive Heading where
  | right  -- 0.0
  | left   -- M_PI
  | down   -- M_PI / 2.0
  | up     -- -M_PI / 2.0
deriving DecidableEq, Repr

namespace Heading

/-- The integer `c` for which `static_cast<int>(speed * std::cos(orientation))` is
`speed * c`: the double cosine of the four angles is 1, -1 or about 6e-17, and its product
with an `int` speed is truncated toward zero, so that 6e-17 counts as 0. -/
def cos : Heading → Int
  | right => 1
  | left => -1
  | down => 0
  | up => 0

/-- The integer `c` for which `static_cast<int>(speed * std::sin(orientation))` is
`speed * c`, the double sine of the four angles being 0, about 1.2e-16, 1 or -1. -/
def sin : Heading → Int
  | right => 0
  | left => 0
  | down => 1
  | up => -1

end Heading

/-- The members of `Robot` that the sensor and the behaviour manager read. -/
structure Robot where
  position : Point
  size : Int
  speed : Int
  orientation_angle : Heading
deriving DecidableEq, Repr

/-! ## BehaviorManager -/

/-- The enumeration `Behavior`. -/
inductive Behavior where
  | MANUAL
  | WALL_FOLLOW
  | IDLE
deriving DecidableEq, Repr

/-- What the behaviour manager writes to `std::cout`: the banner of three lines that
announces the end of the exploration, or the line that announces a change of behaviour
(with the name of the new one). -/
inductive Output where
  | explorationBanner
  | behaviorChange (name : String)
deriving DecidableEq, Repr

/-- The mutable members of `BehaviorManager`. -/
structure BehaviorManager where
  currentBehavior : Behavior
  wallFoundForFollowing : Bool
  maneuverState : Int
  stepCounter : Int
  explorationCompleted : Bool
deriving DecidableEq, Repr

/-- What one call of `execute` reads through the `Simulation` pointer: the occupancy
grid, the robot, and the 360 distances returned by `lidar.readAll()`. -/
structure World where
  occupancyGrid : OccupancyGrid
  robot : Robot
  distances : Fin 360 → ℚ

/-- The result of a call: the manager after it, the displacement written to `dx` and `dy`
(zero for `setByArucoId`, which has none), and the output written. -/
structure Outcome where
  bm : BehaviorManager
  dx : Int
  dy : Int
  out : List Output
deriving DecidableEq, Repr

namespace BehaviorManager

/-- The constructor `BehaviorManager(sim)`. -/
def init : BehaviorManager :=
  { currentBehavior := .IDLE
    wallFoundForFollowing := false
    maneuverState := 0
    stepCounter := 0
    explorationCompleted := false }

/-- The method `getBehaviorName()`. -/
def getBehaviorName (bm : BehaviorManager) : String :=
  match bm.currentBehavior with
  | .MANUAL => "MANUEL"
  | .WALL_FOLLOW => "WALL FOLLOWING"
  | .IDLE => "IDLE"

/-- The method `reset()`. -/
def reset (bm : BehaviorManager) : BehaviorManager :=
  { bm with wallFoundForFollowing := false, maneuverState := 0, stepCounter := 0 }

/-- The `switch` of `setByArucoId`: the behaviour an id stands for, `none` for the
`default` branch, which returns at once. -/
def behaviorOfId (arucoId : Int) : Option Behavior :=
  if arucoId = 0 then some .MANUAL
  else if arucoId = 1 then some .WALL_FOLLOW
  else none

/-- The method `setByArucoId(arucoId)`. -/
def setByArucoId (bm : BehaviorManager) (arucoId : Int) : Outcome :=
  match behaviorOfId arucoId with
  | none => ⟨bm, 0, 0, []⟩
  | some newBehavior =>
      if newBehavior ≠ bm.currentBehavior then
        let bm1 := { bm with currentBehavior := newBehavior }
        ⟨bm1.reset, 0, 0, [.behaviorChange bm1.getBehaviorName]⟩
      else ⟨bm, 0, 0, []⟩

/-- The method `executeManual(dx, dy, key)`, entered with `dx = dy = 0`. The key codes
are those of the characters z, Z, s, S, q, Q, d and D. -/
def executeManual (bm : BehaviorManager) (w : World) (key : Int) : Outcome :=
  let speed := w.robot.speed
  if key = 122 ∨ key = 90 then ⟨bm, 0, -speed, []⟩
  else if key = 115 ∨ key = 83 then ⟨bm, 0, speed, []⟩
  else if key = 113 ∨ key = 81 then ⟨bm, -speed, 0, []⟩
  else if key = 100 ∨ key = 68 then ⟨bm, speed, 0, []⟩
  else ⟨bm, 0, 0, []⟩

/-- The method `executeWallFollow(dx, dy)`, entered with `dx = dy = 0`. -/
def executeWallFollow (bm : BehaviorManager) (w : World) : Outcome :=
  if !bm.explorationCompleted && w.occupancyGrid.isFullyExplored then
    ⟨{ bm with explorationCompleted := true }, 0, 0, [.explorationBanner]⟩
  else if bm.explorationCompleted then ⟨bm, 0, 0, []⟩
  else
    let orientation := w.robot.orientation_angle
    let speed := w.robot.speed
    let front := w.distances 180
    let right := w.distances 270
    if !bm.wallFoundForFollowing then
      if front < 10 then
        ⟨{ bm with wallFoundForFollowing := true },
          speed * orientation.sin, -speed * orientation.cos, []⟩
      else ⟨bm, speed * orientation.cos, speed * orientation.sin, []⟩
    else if front < 7 then
      ⟨{ bm with maneuverState := 0, stepCounter := 0 },
        speed * orientation.sin, -speed * orientation.cos, []⟩
    else if bm.maneuverState = 0 then
      if right > 9 then
        ⟨{ bm with maneuverState := 1, stepCounter := 0 },
          speed * orientation.cos, speed * orientation.sin, []⟩
      else ⟨bm, speed * orientation.cos, speed * orientation.sin, []⟩
    else if bm.maneuverState = 1 then
      if bm.stepCounter + 1 ≥ 5 then
        ⟨{ bm with stepCounter := bm.stepCounter + 1, maneuverState := 2 },
          speed * orientation.cos, speed * orientation.sin, []⟩
      else
        ⟨{ bm with stepCounter := bm.stepCounter + 1 },
          speed * orientation.cos, speed * orientation.sin, []⟩
    else if bm.maneuverState = 2 then
      ⟨{ bm with maneuverState := 3, stepCounter := 0 },
        -speed * orientation.sin, speed * orientation.cos, []⟩
    else if bm.maneuverState = 3 then
      if bm.stepCounter + 1 ≥ 8 then
        ⟨{ bm with stepCounter := bm.stepCounter + 1, maneuverState := 0 },
          speed * orientation.cos, speed * orientation.sin, []⟩
      else
        ⟨{ bm with stepCounter := bm.stepCounter + 1 },
          speed * orientation.cos, speed * orientation.sin, []⟩
    else ⟨bm, 0, 0, []⟩

/-- The method `execute(dx, dy, key)`. -/
def execute (bm : BehaviorManager) (w : World) (key : Int) : Outcome :=
  match bm.currentBehavior with
  | .MANUAL => bm.executeManual w key
  | .WALL_FOLLOW => bm.executeWallFollow w
  | .IDLE => ⟨bm, 0, 0, []⟩

end BehaviorManager

/-- One call on the behaviour manager, with what it reads. -/
inductive Call where
  | setByArucoId (arucoId : Int)
  | execute (w : World) (key : Int)

/-- The outcome of one call. -/
def Call.run (bm : BehaviorManager) : Call → Outcome
  | .setByArucoId arucoId => bm.setByArucoId arucoId
  | .execute w key => bm.execute w key

/-- The manager after a sequence of calls, made from left to right. -/
def runCalls (bm : BehaviorManager) (calls : List Call) : BehaviorManager :=
  calls.foldl (fun b c => (c.run b).bm) bm

/-- The outcomes of the calls of a sequence, in order. -/
def outcomes : BehaviorManager → List Call → List Outcome
  | _, [] => []
  | bm, c :: rest => c.run bm :: outcomes (c.run bm).bm rest

/-- The manager after the first `n` of the `execute` calls that read, one after the other,
the worlds `ws 0`, `ws 1`, ... and the keys `keys 0`, `keys 1`, ... -/
def afterTicks (ws : Nat → World) (keys : Nat → Int) (bm : BehaviorManager) :
    Nat → BehaviorManager
  | 0 => bm
  | n + 1 => ((afterTicks ws keys bm n).execute (ws n) (keys n)).bm

/-- The outcome of the call number `n` (from 0) of that sequence. -/
def tickOutcome (ws : Nat → World) (keys : Nat → Int) (bm : BehaviorManager) (n : Nat) :
    Outcome :=
  (afterTicks ws keys bm n).execute (ws n) (keys n)

/-- The manager is following a wall: mode WALL_FOLLOW, a wall found, exploration not
marked complete. -/
def BehaviorManager.Following (bm : BehaviorManager) : Prop :=
  bm.currentBehavior = .WALL_FOLLOW ∧ bm.wallFoundForFollowing = true ∧
    bm.explorationCompleted = false

/-- The grid read in this world is not fully explored, so that a wall-following tick goes
on to read the sensors. -/
def World.Unexplored (w : World) : Prop := w.occupancyGrid.isFullyExplored = false

instance (bm : BehaviorManager) : Decidable bm.Following := by
  unfold BehaviorManager.Following; infer_instance

instance (w : World) : Decidable w.Unexplored := by
  unfold World.Unexplored; infer_instance

/-- The displacement of `o` is the straight move `speed * (cos h, sin h)` of the robot
of `w`. -/
def Outcome.Straight (o : Outcome) (w : World) : Prop :=
  o.dx = w.robot.speed * w.robot.orientation_angle.cos ∧
    o.dy = w.robot.speed * w.robot.orientation_angle.sin

/-- A world with a grid of one Unknown cell (not fully explored), a robot of speed 1 and
heading `h`, and a scan that reads `front` at index 180 and `side` everywhere else. -/
def sampleWorld (front side : ℚ) (h : Heading) : World :=
  { occupancyGrid := ⟨1, 1, 1, [UNKNOWN]⟩
    robot := ⟨⟨50, 50⟩, 11, 1, h⟩
    distances := fun i => if i = 180 then front else side }

/-- A manager that follows a wall in the corner phase `maneuverState` with the counter
`stepCounter`. -/
def followingIn (maneuverState stepCounter : Int) : BehaviorManager :=
  ⟨.WALL_FOLLOW, true, maneuverState, stepCounter, false⟩

/-- A world whose grid of one Free cell is fully explored. -/
def exploredWorld : World :=
  { occupancyGrid := ⟨1, 1, 1, [FREE]⟩
    robot := ⟨⟨50, 50⟩, 11, 1, .right⟩
    distances := fun _ => 20 }

/-- Whether an outcome wrote the banner of the end of the exploration. -/
def Outcome.announces (o : Outcome) : Bool := decide (Output.explorationBanner ∈ o.out)

/-! ## Construction of the grid -/

/-- The constructor `OccupancyGrid(w, h, cellS)`: `gridW = width / cellSize` and
`gridH = height / cellSize` with the C++ integer division, and a matrix of `gridH` rows and
`gridW` columns filled with 127. The members `width` and `height`, used only to draw, are
not kept. -/
def OccupancyGrid.init (w h cellS : Int) : OccupancyGrid :=
  { cellSize := cellS
    gridW := (w.tdiv cellS).toNat
    gridH := (h.tdiv cellS).toNat
    grid := List.replicate ((h.tdiv cellS).toNat * (w.tdiv cellS).toNat) UNKNOWN }

/-! ## Line iterator -/

namespace LineIterator

/-- The operator `++` of `cv::LineIterator` on the pair of its position and its error
term `err`, for a line whose longer extent is `dx` and shorter extent `dy` (so that
`minusDelta = -(dy + dy)` and `plusDelta = dx + dx`): the position always moves by
`stepMajor` (the fields `minusShift`, `minusStep`) and, when `err < 0`, also by `stepMinor`
(the fields `plusShift`, `plusStep`). -/
def next (dx dy : Int) (stepMajor stepMinor : Point) (s : Point × Int) : Point × Int :=
  if s.2 < 0 then
    (⟨s.1.x + stepMajor.x + stepMinor.x, s.1.y + stepMajor.y + stepMinor.y⟩,
      s.2 + -(dy + dy) + (dx + dx))
  else (⟨s.1.x + stepMajor.x, s.1.y + stepMajor.y⟩, s.2 + -(dy + dy))

/-- The positions `it.pos()` read by a loop `for (i = 0; i < it.count; i++, ++it)` over an
8-connected iterator that starts at `pt1` with `err = dx - (dy + dy)` and
`count = dx + 1`: the position of index `i` is reached by `i` increments. -/
def positions (dx dy : Int) (stepMajor stepMinor : Point) (pt1 : Point) : List Point :=
  (List.range (dx + 1).toNat).map fun i =>
    ((next dx dy stepMajor stepMinor)^[i] (pt1, dx - (dy + dy))).1

/-- The positions yielded by `cv::LineIterator it(img, pt1, pt2)` (8-connected, not forced
left to right) when both end points are inside the image, so that the line is not clipped:
the extents and directions are taken on each axis, and the axes are swapped when the line
is steeper than 45 degrees. -/
def cvLine (pt1 pt2 : Point) : List Point :=
  let dx0 := pt2.x - pt1.x
  let dy0 := pt2.y - pt1.y
  let delta_x : Int := if dx0 < 0 then -1 else 1
  let delta_y : Int := if dy0 < 0 then -1 else 1
  let dx := if dx0 < 0 then -dx0 else dx0
  let dy := if dy0 < 0 then -dy0 else dy0
  if dy > dx then positions dy dx ⟨0, delta_y⟩ ⟨delta_x, 0⟩ pt1
  else positions dx dy ⟨delta_x, 0⟩ ⟨0, delta_y⟩ pt1

end LineIterator

/-- The class `cv::LineIterator` as `update` uses it: `cvLine` when both end points are
inside the `w x h` image, and otherwise the positions `clipped w h pt1 pt2` of the line
clipped to the image, which are left open. -/
def lineIterator (clipped : Nat → Nat → Point → Point → List Point) :
    Nat → Nat → Point → Point → List Point := fun w h pt1 pt2 =>
  if OccupancyGrid.inImage w h pt1.x pt1.y && OccupancyGrid.inImage w h pt2.x pt2.y then
    LineIterator.cvLine pt1 pt2
  else clipped w h pt1 pt2

/-- A stand-in for the clipped lines, which the grids and points used as examples below
never need. -/
def noClippedLine : Nat → Nat → Point → Point → List Point := fun _ _ _ _ => []

/-! ## Simulation: motion of the robot -/

/-- The method `Robot::setPosition(newPos)`. -/
def Robot.setPosition (r : Robot) (newPos : Point) : Robot := { r with position := newPos }

/-- The method `Robot::updateOrientation(dx, dy)`. -/
def Robot.updateOrientation (r : Robot) (dx dy : Int) : Robot :=
  if dx > 0 then { r with orientation_angle := .right }
  else if dx < 0 then { r with orientation_angle := .left }
  else if dy > 0 then { r with orientation_angle := .down }
  else if dy < 0 then { r with orientation_angle := .up }
  else r

/-- The values a loop `for (int v = lo; v <= hi; ++v)` gives to `v`, in order. -/
def intRange (lo hi : Int) : List Int :=
  (List.range (hi - lo + 1).toNat).map fun (i : Nat) => lo + (i : Int)

namespace Simulation

/-- The method `Simulation::checkCollision(centerPos)`: the two nested loops over the
square around the centre return true at the first pixel of the disc of the robot that is
an obstacle of the map. -/
def checkCollision (m : Map) (robot : Robot) (centerPos : Point) : Bool :=
  let hit_radius := robot.size.tdiv 2
  let r2 := hit_radius * hit_radius
  (intRange (-hit_radius) hit_radius).any fun y =>
    (intRange (-hit_radius) hit_radius).any fun x =>
      decide (x * x + y * y ≤ r2) && m.isObstacle (centerPos.x + x) (centerPos.y + y)

/-- Step 4 of the loop body of `Simulation::run`: the displacement `(dx, dy)` proposed by
the behaviour manager is applied to the robot when it is not zero and the future position
is free of collision. -/
def applyMotion (m : Map) (robot : Robot) (dx dy : Int) : Robot :=
  if dx ≠ 0 ∨ dy ≠ 0 then
    let futurePos : Point := ⟨robot.position.x + dx, robot.position.y + dy⟩
    if !checkCollision m robot futurePos then
      (robot.setPosition futurePos).updateOrientation dx dy
    else robot
  else robot

/-- The robot after the motion steps of a sequence of ticks, given the displacement that
the behaviour manager proposes on each tick. -/
def runMotion (m : Map) (robot : Robot) (proposals : List (Int × Int)) : Robot :=
  proposals.foldl (fun r p => applyMotion m r p.1 p.2) robot

/-- A white map of 40x40 pixels with a black column at x = 30. -/
def wallMap : Map := ⟨40, 40, fun x _ => decide (x = 30)⟩

end Simulation

namespace Lidar

/-- One iteration of the loop of `read`: the ray enters the next cell, which is then
tested. -/
def iteration (m : Map) (d : RayDir) (s : Ray) : Ray := checkCell m (advance d s)

/-- The loop of `read` goes on from the state `s`: its guard `!hit && distance < max_range`
holds. -/
def Running (s : Ray) : Prop := s.hit = false ∧ s.distance < max_range

/-- The cell `(x, y)` is inside the map. -/
def inMap (m : Map) (x y : Int) : Prop := x ≥ 0 ∧ x < m.width ∧ y ≥ 0 ∧ y < m.height

instance (s : Ray) : Decidable (Running s) := by
  unfold Running; infer_instance

instance (m : Map) (x y : Int) : Decidable (inMap m x y) := by
  unfold inMap; infer_instance

end Lidar

/-- The invariant of the outer-corner machine: the phase is one of 0 to 3 and the counter
is 0 or 8 in Normal, 0 to 4 in Clearing, 5 in Turning and 0 to 7 in Stabilizing. -/
def BehaviorManager.CornerInvariant (bm : BehaviorManager) : Prop :=
  (bm.maneuverState = 0 ∧ (bm.stepCounter = 0 ∨ bm.stepCounter = 8)) ∨
  (bm.maneuverState = 1 ∧ 0 ≤ bm.stepCounter ∧ bm.stepCounter ≤ 4) ∨
  (bm.maneuverState = 2 ∧ bm.stepCounter = 5) ∨
  (bm.maneuverState = 3 ∧ 0 ≤ bm.stepCounter ∧ bm.stepCounter ≤ 7)

instance (bm : BehaviorManager) : Decidable bm.CornerInvariant := by
  unfold BehaviorManager.CornerInvariant; infer_instance

/-! ## Hit points -/

/-- The conversion `static_cast<int>(v)` of a double `v`: the fractional part is dropped,
which rounds toward zero. -/
def truncInt (v : ℚ) : Int := if 0 ≤ v then ⌊v⌋ else ⌈v⌉

/-- The point that the body of the loop of `Lidar::getHitPoints` builds for a robot at `pos`
and a ray whose reading is `dist`, where `rayDirX` and `rayDirY` are the values of
`std::cos(angle)` and `std::sin(angle)` for the angle of the ray. -/
def Lidar.hitPoint (pos : Point) (dist rayDirX rayDirY : ℚ) : Point :=
  ⟨pos.x + truncInt (dist * rayDirX), pos.y + truncInt (dist * rayDirY)⟩

/-! ## The writes of `update`, pixel by pixel -/

namespace OccupancyGrid

/-- What the writes of `update` do to the value `v` of one pixel, by the strongest write
the pixel received: level 0 is no write, level 1 the free-space write (255 unless the pixel
is 0), level 2 or more the obstacle write (0). -/
def applyLevel (level v : Nat) : Nat :=
  if level = 0 then v else if level = 1 then (if v ≠ 0 then FREE else v) else OCCUPIED

/-- The level of the write that the `i`-th position `cell` of a line of `count` positions
makes to the pixel of index `k` of a `w x h` grid; `near` is the outcome of the test
`dist < 98.0` for the hit point of the line. -/
def cellLevel (w h : Nat) (near : Bool) (count i : Nat) (cell : Point) (k : Nat) : Nat :=
  if decide (cell.x < 0) || decide (cell.x ≥ (w : Int)) || decide (cell.y < 0) ||
      decide (cell.y ≥ (h : Int)) then 0
  else if cell.y.toNat * w + cell.x.toNat = k then
    (if i + 1 = count then (if near then 2 else 0) else 1)
  else 0

/-- The strongest write that the positions `cells` of a line, read from index `i`, make to
the pixel of index `k`. -/
def rayLevel (w h : Nat) (near : Bool) (count : Nat) : Nat → List Point → Nat → Nat
  | _, [], _ => 0
  | i, cell :: rest, k =>
      max (cellLevel w h near count i cell k) (rayLevel w h near count (i + 1) rest k)

/-- The strongest write that one scan point makes to the pixel of index `k`. -/
def pointLevel (lineIt : Nat → Nat → Point → Point → List Point) (robotPos point : Point)
    (cellSize : Int) (w h : Nat) (k : Nat) : Nat :=
  if decide ((point.div cellSize).x < 0) || decide ((point.div cellSize).x ≥ (w : Int)) ||
      decide ((point.div cellSize).y < 0) || decide ((point.div cellSize).y ≥ (h : Int)) then 0
  else
    rayLevel w h (decide ((point.sub robotPos).normSq < 9604))
      (lineIt w h (robotPos.div cellSize) (point.div cellSize)).length 0
      (lineIt w h (robotPos.div cellSize) (point.div cellSize)) k

end OccupancyGrid

/-! ## Lidar: the loop of `read` in double precision

The definitions of `Lidar` above take the arithmetic of the doubles of `Lidar::read` to be
exact. The definitions of `Lidar.Rounded` below are the same code with the rounding of every
floating-point operation kept: `fl` maps the exact result of an operation to the double that
the operation returns. With `fl` the identity they are the definitions above. -/

namespace Lidar

/-- The exponent `e` with `2 ^ e ≤ q < 2 ^ (e + 1)` of a positive `q`, searched for through
at most `fuel` halvings or doublings. -/
def binade : Nat → ℚ → Int
  | 0, _ => 0
  | fuel + 1, q =>
      if 2 ≤ q then binade fuel (q / 2) + 1
      else if q < 1 then binade fuel (q * 2) - 1
      else 0

/-- The product `q * 2 ^ e`. -/
def scale2 (q : ℚ) (e : Int) : ℚ := if 0 ≤ e then q * 2 ^ e.toNat else q / 2 ^ (-e).toNat

/-- The integer nearest to `q`, the even one of the two when `q` is halfway between them. -/
def roundHalfEven (q : ℚ) : Int :=
  if q - ⌊q⌋ < 1 / 2 then ⌊q⌋
  else if 1 / 2 < q - ⌊q⌋ then ⌊q⌋ + 1
  else if ⌊q⌋ % 2 = 0 then ⌊q⌋
  else ⌊q⌋ + 1

/-- The double that an operation of exact result `q` returns: `q` rounded to 53 significant
bits, to the nearest value and to the even one on a tie (the default rounding of IEEE 754
binary64). Overflow and subnormal results, which need a magnitude above `2 ^ 1023` or below
`2 ^ -1022`, are not modelled. -/
def roundDouble (q : ℚ) : ℚ :=
  if q = 0 then 0
  else
    let e := binade 1100 |q| - 52
    let m : ℚ := roundHalfEven (scale2 |q| (-e))
    if 0 ≤ q then scale2 m e else -(scale2 m e)

namespace Rounded

/-- The expression `(rayDir == 0) ? 1e30 : std::abs(1.0 / rayDir)`: the literal and the
quotient are rounded, the absolute value is exact. -/
def deltaDist (fl : ℚ → ℚ) (rayDir : ℚ) : ℚ :=
  if rayDir = 0 then fl (10 ^ 30) else |fl (1 / rayDir)|

/-- The fixed part of a ray cast in the direction `(rayDirX, rayDirY)`. -/
def rayDir (fl : ℚ → ℚ) (rayDirX rayDirY : ℚ) : RayDir :=
  { deltaDistX := deltaDist fl rayDirX
    deltaDistY := deltaDist fl rayDirY
    stepX := if rayDirX < 0 then -1 else 1
    stepY := if rayDirY < 0 then -1 else 1 }

/-- The state of `Lidar::read` when its loop is first reached. The conversions of the
integer coordinates to doubles are exact; the sum, the difference and the product of each
`sideDist` are rounded. -/
def rayStart (fl : ℚ → ℚ) (robotPos : Point) (rayDirX rayDirY : ℚ) : Ray :=
  let startX : ℚ := robotPos.x
  let startY : ℚ := robotPos.y
  let mapX : Int := robotPos.x
  let mapY : Int := robotPos.y
  { sideDistX :=
      if rayDirX < 0 then fl (fl (startX - mapX) * deltaDist fl rayDirX)
      else fl (fl (fl (mapX + 1) - startX) * deltaDist fl rayDirX)
    sideDistY :=
      if rayDirY < 0 then fl (fl (startY - mapY) * deltaDist fl rayDirY)
      else fl (fl (fl (mapY + 1) - startY) * deltaDist fl rayDirY)
    mapX := mapX
    mapY := mapY
    hit := false
    distance := 0 }

/-- First half of the loop body: `sideDist += deltaDist` rounds the sum, and
`distance = sideDist - deltaDist` rounds the difference of the rounded sum and the
increment. -/
def advance (fl : ℚ → ℚ) (d : RayDir) (s : Ray) : Ray :=
  if s.sideDistX < s.sideDistY then
    { s with
      sideDistX := fl (s.sideDistX + d.deltaDistX)
      mapX := s.mapX + d.stepX
      distance := fl (fl (s.sideDistX + d.deltaDistX) - d.deltaDistX) }
  else
    { s with
      sideDistY := fl (s.sideDistY + d.deltaDistY)
      mapY := s.mapY + d.stepY
      distance := fl (fl (s.sideDistY + d.deltaDistY) - d.deltaDistY) }

/-- One iteration of the loop: the step and the test of the cell, which makes no
floating-point operation. -/
def iteration (fl : ℚ → ℚ) (m : Map) (d : RayDir) (s : Ray) : Ray :=
  checkCell m (advance fl d s)

/-- The loop `while (!hit && distance < max_range)`, run for at most `fuel` iterations. -/
def ddaLoop (fl : ℚ → ℚ) (m : Map) (d : RayDir) : Nat → Ray → Option Ray
  | fuel, s =>
    if !s.hit && decide (s.distance < max_range) then
      match fuel with
      | 0 => none
      | n + 1 => ddaLoop fl m d n (checkCell m (advance fl d s))
    else some s

/-- The method `Lidar::read(rayID)` with the rounding `fl` of its operations. -/
def read (fl : ℚ → ℚ) (m : Map) (robotPos : Point) (rayDirX rayDirY : ℚ) (fuel : Nat) :
    Option ℚ :=
  (ddaLoop fl m (rayDir fl rayDirX rayDirY) fuel (rayStart fl robotPos rayDirX rayDirY)).map
    fun s => if s.hit then s.distance else max_range

end Rounded

/-- A white map of 200x200 pixels with one black pixel, at column 22 and row 22. -/
def diagonalWallMap : Map := ⟨200, 200, fun x y => decide (x = 22 ∧ y = 22)⟩

end Lidar

/-! ## Theorems: occupancy grid -/

namespace OccupancyGrid

theorem getD_set_of_zero (l : List Nat) (i j v d : Nat) (h : l.getD i d = 0)
    (hv : v = 0 ∨ l.getD j d ≠ 0) : (l.set j v).getD i d = 0 := by
  by_cases hji : j = i
  · subst hji
    rcases hv with hv | hv
    · subst hv
      by_cases hlen : j < l.length
      · simp [List.getD_eq_getElem?_getD, List.getElem?_set, hlen]
      · rw [List.set_eq_of_length_le (Nat.le_of_not_lt hlen)]; exact h
    · exact absurd h hv
  · simpa [List.getD_eq_getElem?_getD, List.getElem?_set, hji] using h

theorem KeepsObstacles.refl (g : OccupancyGrid) : KeepsObstacles g g :=
  ⟨rfl, rfl, fun _ h => h⟩

theorem KeepsObstacles.trans {a b c : OccupancyGrid} (hab : KeepsObstacles a b)
    (hbc : KeepsObstacles b c) : KeepsObstacles a c :=
  ⟨hbc.1.trans hab.1, hbc.2.1.trans hab.2.1, fun i h => hbc.2.2 i (hab.2.2 i h)⟩

theorem setAt_keeps (g : OccupancyGrid) (x y v : Nat) (hv : v = 0 ∨ g.at_ x y ≠ 0) :
    KeepsObstacles g (g.setAt x y v) :=
  ⟨rfl, rfl, fun i h => getD_set_of_zero g.grid i (y * g.gridW + x) v UNKNOWN h hv⟩

theorem markCell_keeps (g : OccupancyGrid) (point robotPos : Point) (count i : Nat)
    (cell : Point) : KeepsObstacles g (markCell g point robotPos count i cell) := by
  unfold markCell
  split_ifs with h1 h2 h3 h4
  · exact KeepsObstacles.refl g
  · exact setAt_keeps g _ _ _ (Or.inl rfl)
  · exact KeepsObstacles.refl g
  · exact setAt_keeps g _ _ _ (Or.inr h4)
  · exact KeepsObstacles.refl g

theorem traceRay_keeps (point robotPos : Point) (count : Nat) (cells : List Point) :
    ∀ (g : OccupancyGrid) (i : Nat),
      KeepsObstacles g (traceRay point robotPos count g i cells) := by
  induction cells with
  | nil => intro g i; exact KeepsObstacles.refl g
  | cons cell rest ih =>
      intro g i
      exact (markCell_keeps g point robotPos count i cell).trans (ih _ (i + 1))

theorem integratePoint_keeps (lineIt : Nat → Nat → Point → Point → List Point)
    (robotPos : Point) (g : OccupancyGrid) (point : Point) :
    KeepsObstacles g (integratePoint lineIt robotPos g point) := by
  unfold integratePoint
  simp only
  split_ifs
  · exact KeepsObstacles.refl g
  · exact traceRay_keeps _ _ _ _ _ _

theorem update_keeps (lineIt : Nat → Nat → Point → Point → List Point)
    (scanPoints : List Point) (robotPos : Point) :
    ∀ g : OccupancyGrid, KeepsObstacles g (g.update lineIt scanPoints robotPos) := by
  induction scanPoints with
  | nil => intro g; exact KeepsObstacles.refl g
  | cons p rest ih =>
      intro g
      exact (integratePoint_keeps lineIt robotPos g p).trans (ih _)

theorem setToZero_keeps (g : OccupancyGrid) (m : Mask) : KeepsObstacles g (g.setToZero m) := by
  refine ⟨rfl, rfl, fun i h => ?_⟩
  simp only [setToZero, List.getD_eq_getElem?_getD, List.getElem?_mapIdx] at h ⊢
  cases hi : g.grid[i]? with
  | none => rw [hi] at h; simpa using h
  | some v =>
      rw [hi] at h
      simp only [Option.getD_some] at h
      subst h
      simp

theorem smoothGrid_keeps (g : OccupancyGrid) (iterations : Nat) :
    KeepsObstacles g (g.smoothGrid iterations) :=
  setToZero_keeps g _

end OccupancyGrid

theorem GridCall.apply_keeps (lineIt : Nat → Nat → Point → Point → List Point)
    (g : OccupancyGrid) (c : GridCall) : OccupancyGrid.KeepsObstacles g (c.apply lineIt g) := by
  cases c with
  | update scanPoints robotPos => exact OccupancyGrid.update_keeps lineIt scanPoints robotPos g
  | smoothGrid iterations => exact OccupancyGrid.smoothGrid_keeps g iterations

theorem runGrid_keeps (lineIt : Nat → Nat → Point → Point → List Point)
    (calls : List GridCall) :
    ∀ g : OccupancyGrid, OccupancyGrid.KeepsObstacles g (runGrid lineIt g calls) := by
  induction calls with
  | nil => intro g; exact OccupancyGrid.KeepsObstacles.refl g
  | cons c rest ih =>
      intro g
      exact (GridCall.apply_keeps lineIt g c).trans (ih _)

/-- C1. Monotonic occupancy: take any grid, any sequence of `update` and `smoothGrid`
calls (whatever positions the line iterator yields), and any cell. If the cell is
Occupied (0) after the calls `before`, it is Occupied after any further calls `later`. -/
theorem occupied_stays_occupied (lineIt : Nat → Nat → Point → Point → List Point)
    (g : OccupancyGrid) (before later : List GridCall) (x y : Nat)
    (h : (runGrid lineIt g before).at_ x y = OCCUPIED) :
    (runGrid lineIt g (before ++ later)).at_ x y = OCCUPIED := by
  have hk := runGrid_keeps lineIt later (runGrid lineIt g before)
  have happ : runGrid lineIt g (before ++ later)
      = runGrid lineIt (runGrid lineIt g before) later := by
    simp [runGrid, List.foldl_append]
  rw [happ]
  unfold OccupancyGrid.at_ at h ⊢
  rw [hk.1]
  exact hk.2.2 _ h

/-- Witness of C1: on a 2x1 grid, the cell (1,0) is marked Occupied by a first scan and is
still Occupied after a ray is traced through it and the grid is smoothed. -/
theorem occupied_stays_occupied_witness :
    (runGrid endPointsOnly ⟨1, 2, 1, [127, 127]⟩ [.update [⟨1, 0⟩] ⟨0, 0⟩]).at_ 1 0 = OCCUPIED ∧
    (runGrid endPointsOnly ⟨1, 2, 1, [127, 127]⟩
      ([.update [⟨1, 0⟩] ⟨0, 0⟩] ++ [.update [⟨0, 0⟩] ⟨1, 0⟩, .smoothGrid 1])).at_ 1 0
        = OCCUPIED :=
  ⟨by decide, occupied_stays_occupied endPointsOnly ⟨1, 2, 1, [127, 127]⟩
    [.update [⟨1, 0⟩] ⟨0, 0⟩] [.update [⟨0, 0⟩] ⟨1, 0⟩, .smoothGrid 1] 1 0 (by decide)⟩

/-- C5. `update` with an empty list of hit points returns the grid it was given, for every
grid and every robot position. -/
theorem update_nil (lineIt : Nat → Nat → Point → Point → List Point) (g : OccupancyGrid)
    (robotPos : Point) : g.update lineIt [] robotPos = g := rfl

/-! ### The exploration test counts the Unknown cells -/

theorem foldl_count (p : Nat → Prop) [DecidablePred p] : ∀ (xs : List Nat) (c0 : Nat),
    xs.foldl (fun c x => if p x then c + 1 else c) c0
      = c0 + xs.countP (fun x => decide (p x)) := by
  intro xs
  induction xs with
  | nil => intro c0; simp
  | cons a xs ih =>
      intro c0
      rw [List.foldl_cons, ih, List.countP_cons]
      by_cases h : p a
      · simp [h]; omega
      · simp [h]

theorem foldl_add (f : Nat → Nat) : ∀ (ys : List Nat) (c0 : Nat),
    ys.foldl (fun c y => c + f y) c0 = c0 + (ys.map f).sum := by
  intro ys
  induction ys with
  | nil => intro c0; simp
  | cons a ys ih => intro c0; rw [List.foldl_cons, ih]; simp; omega

/-- Reading a list at each of its indices and counting the hits counts its elements. -/
theorem row_count (v u : Nat) : ∀ d : List Nat,
    (List.range d.length).countP (fun x => decide (d.getD x u = v)) = d.count v := by
  intro d
  induction d with
  | nil => simp
  | cons a d ih =>
      rw [List.length_cons, List.range_succ_eq_map, List.countP_cons, List.countP_map,
        List.count_cons]
      have hshift : ((fun x => decide ((a :: d).getD x u = v)) ∘ Nat.succ)
          = fun x => decide (d.getD x u = v) := by
        funext x; simp
      rw [hshift, ih]
      simp

/-- Reading a row-major matrix of `rows` rows of `w` pixels row by row and column by
column counts each of its pixels once. -/
theorem grid_count (w u v : Nat) : ∀ (rows : Nat) (l : List Nat), l.length = w * rows →
    ((List.range rows).map fun y =>
      (List.range w).countP fun x => decide (l.getD (y * w + x) u = v)).sum = l.count v := by
  intro rows
  induction rows with
  | zero =>
      intro l hl
      have hnil : l = [] := List.eq_nil_of_length_eq_zero (by simpa using hl)
      simp [hnil]
  | succ n ih =>
      intro l hl
      have hw : w ≤ l.length := by rw [hl]; exact Nat.le_mul_of_pos_right w (Nat.succ_pos n)
      rw [List.range_succ_eq_map, List.map_cons, List.sum_cons, List.map_map]
      have hrow : ((List.range w).countP fun x => decide (l.getD (0 * w + x) u = v))
          = (l.take w).count v := by
        rw [← row_count v u (l.take w), List.length_take, Nat.min_eq_left hw]
        apply List.countP_congr
        intro x hx
        have hx2 : x < w := List.mem_range.mp hx
        simp [List.getD_eq_getElem?_getD, List.getElem?_take, hx2]
      have hrest : (List.map ((fun y => (List.range w).countP fun x =>
            decide (l.getD (y * w + x) u = v)) ∘ Nat.succ) (List.range n)).sum
          = (l.drop w).count v := by
        rw [← ih (l.drop w) (by rw [List.length_drop, hl, Nat.mul_succ]; omega)]
        congr 1
        apply List.map_congr_left
        intro y _
        simp only [Function.comp_apply]
        apply List.countP_congr
        intro x _
        have hidx : Nat.succ y * w + x = w + (y * w + x) := by rw [Nat.succ_mul]; omega
        simp [List.getD_eq_getElem?_getD, List.getElem?_drop, hidx]
      rw [hrow, hrest, ← List.count_append, List.take_append_drop]

namespace OccupancyGrid

/-- On a well-formed grid the counter of `isFullyExplored` ends at the number of Unknown
cells. -/
theorem unexploredCount_eq_unknownCells (g : OccupancyGrid) (hwf : g.WellFormed) :
    g.unexploredCount = g.unknownCells := by
  unfold unexploredCount unknownCells
  have hinner : ∀ (count y : Nat),
      (List.range g.gridW).foldl (fun count x => if g.at_ x y = 127 then count + 1 else count)
        count
      = count + (List.range g.gridW).countP
          (fun x => decide (g.grid.getD (y * g.gridW + x) UNKNOWN = 127)) := by
    intro count y
    exact foldl_count (fun x => g.at_ x y = 127) _ count
  simp only [hinner]
  rw [foldl_add, Nat.zero_add]
  exact grid_count g.gridW UNKNOWN 127 g.gridH g.grid hwf

/-- C4. On every non-empty (well-formed) grid, `isFullyExplored`, a function of the grid
alone that returns no new grid, is true exactly when the number of Unknown cells divided
by `gridW * gridH` is strictly below 0.311. So a 10x10 grid with 93 Unknown cells (7 Free
cells, say) gives false, and one with 7 Unknown cells (93 cells not Unknown) gives true. -/
theorem isFullyExplored_iff (g : OccupancyGrid) (hwf : g.WellFormed)
    (hne : 0 < g.gridW * g.gridH) :
    (g.isFullyExplored = true ↔
      (g.unknownCells : ℚ) / ((g.gridW * g.gridH : Nat) : ℚ) < 311 / 1000) ∧
    (g.gridW = 10 → g.gridH = 10 → g.unknownCells = 93 → g.isFullyExplored = false) ∧
    (g.gridW = 10 → g.gridH = 10 → g.unknownCells = 7 → g.isFullyExplored = true) := by
  have hiff : g.isFullyExplored = true ↔
      (g.unknownCells : ℚ) / ((g.gridW * g.gridH : Nat) : ℚ) < 311 / 1000 := by
    unfold isFullyExplored
    simp only [Nat.ne_of_gt hne, if_false, decide_eq_true_eq,
      unexploredCount_eq_unknownCells g hwf]
  refine ⟨hiff, ?_, ?_⟩
  · intro h1 h2 h3
    rw [Bool.eq_false_iff, Ne, hiff, h1, h2, h3]
    norm_num
  · intro h1 h2 h3
    rw [hiff, h1, h2, h3]
    norm_num

/-- Witness of C4: the two grids of the scenario. -/
theorem isFullyExplored_iff_witness :
    sevenFree.isFullyExplored = false ∧ ninetyThreeKnown.isFullyExplored = true :=
  ⟨(isFullyExplored_iff sevenFree (by decide) (by decide)).2.1 rfl rfl (by decide),
    (isFullyExplored_iff ninetyThreeKnown (by decide) (by decide)).2.2 rfl rfl (by decide)⟩

end OccupancyGrid

/-! ## Theorems: range sensor -/

namespace Lidar

theorem ddaLoop_of_hit (m : Map) (d : RayDir) (fuel : Nat) (s : Ray) (h : s.hit = true) :
    ddaLoop m d fuel s = some s := by
  cases fuel <;> simp [ddaLoop, h]

theorem checkCell_mapX (m : Map) (s : Ray) : (checkCell m s).mapX = s.mapX := by
  unfold checkCell; split_ifs <;> rfl

theorem checkCell_mapY (m : Map) (s : Ray) : (checkCell m s).mapY = s.mapY := by
  unfold checkCell; split_ifs <;> rfl

theorem checkCell_hit_of_outside (m : Map) (s : Ray)
    (h : ¬(s.mapX ≥ 0 ∧ s.mapX < m.width ∧ s.mapY ≥ 0 ∧ s.mapY < m.height)) :
    (checkCell m s).hit = true := by
  unfold checkCell; rw [if_neg h]

theorem cellsToEdge_checkCell (m : Map) (d : RayDir) (s : Ray) :
    cellsToEdge m d (checkCell m s) = cellsToEdge m d s := by
  unfold cellsToEdge; rw [checkCell_mapX, checkCell_mapY]

theorem cellsToEdge_advance (m : Map) (d : RayDir) (s : Ray)
    (hx : d.stepX = 1 ∨ d.stepX = -1) (hy : d.stepY = 1 ∨ d.stepY = -1)
    (hin : (advance d s).mapX ≥ 0 ∧ (advance d s).mapX < m.width ∧
      (advance d s).mapY ≥ 0 ∧ (advance d s).mapY < m.height) :
    cellsToEdge m d (advance d s) + 1 = cellsToEdge m d s := by
  unfold advance at hin ⊢
  unfold cellsToEdge
  split_ifs at hin ⊢ <;> simp only at hin ⊢ <;> omega

/-- The loop of `read` ends: with more fuel than there are cells between the current cell
and the edges of the map the ray moves toward, `ddaLoop` returns a state. -/
theorem ddaLoop_terminates (m : Map) (d : RayDir)
    (hx : d.stepX = 1 ∨ d.stepX = -1) (hy : d.stepY = 1 ∨ d.stepY = -1) :
    ∀ (fuel : Nat) (s : Ray), cellsToEdge m d s < fuel → ∃ r, ddaLoop m d fuel s = some r := by
  intro fuel
  induction fuel with
  | zero => intro s h; exact absurd h (Nat.not_lt_zero _)
  | succ n ih =>
      intro s h
      unfold ddaLoop
      split_ifs with hc
      · by_cases hin : (advance d s).mapX ≥ 0 ∧ (advance d s).mapX < m.width ∧
            (advance d s).mapY ≥ 0 ∧ (advance d s).mapY < m.height
        · apply ih
          rw [cellsToEdge_checkCell]
          have := cellsToEdge_advance m d s hx hy hin
          omega
        · exact ⟨_, ddaLoop_of_hit m d n _ (checkCell_hit_of_outside m _ hin)⟩
      · exact ⟨s, rfl⟩

theorem rayDir_stepX (rayDirX rayDirY : ℚ) :
    (rayDir rayDirX rayDirY).stepX = 1 ∨ (rayDir rayDirX rayDirY).stepX = -1 := by
  unfold rayDir; simp only; split_ifs <;> simp

theorem rayDir_stepY (rayDirX rayDirY : ℚ) :
    (rayDir rayDirX rayDirY).stepY = 1 ∨ (rayDir rayDirX rayDirY).stepY = -1 := by
  unfold rayDir; simp only; split_ifs <;> simp

theorem checkCell_of_free (m : Map) (s : Ray) (h : m.isObstacle s.mapX s.mapY = false) :
    checkCell m s = s := by
  unfold checkCell
  have hin : s.mapX ≥ 0 ∧ s.mapX < m.width ∧ s.mapY ≥ 0 ∧ s.mapY < m.height := by
    by_contra hout
    unfold Map.isObstacle at h
    rw [if_pos (by omega)] at h
    exact Bool.noConfusion h
  rw [if_pos hin, h]
  simp

theorem advance_hit (d : RayDir) (s : Ray) : (advance d s).hit = s.hit := by
  unfold advance; split_ifs <;> rfl

/-- While no entered cell is an obstacle, the loop of `read` ends without a hit. -/
theorem ddaLoop_no_hit (m : Map) (d : RayDir) :
    ∀ (fuel : Nat) (s r : Ray), s.hit = false →
      (∀ k, ((advance d)^[k] s).distance < max_range →
        m.isObstacle ((advance d)^[k + 1] s).mapX ((advance d)^[k + 1] s).mapY = false) →
      ddaLoop m d fuel s = some r → r.hit = false := by
  intro fuel
  induction fuel with
  | zero =>
      intro s r hs _ hr
      unfold ddaLoop at hr
      split_ifs at hr with hc
      · simp at hr
        rw [← hr]; exact hs
  | succ n ih =>
      intro s r hs hfree hr
      unfold ddaLoop at hr
      split_ifs at hr with hc
      · have hd : s.distance < max_range := by simpa [hs] using hc
        have h0 := hfree 0 hd
        simp only [Function.iterate_zero, Function.iterate_succ, Function.comp_apply,
          id_eq] at h0
        rw [checkCell_of_free m _ h0] at hr
        refine ih (advance d s) r ?_ ?_ hr
        · rw [advance_hit]; exact hs
        · intro k hk
          have := hfree (k + 1) (by simpa [Function.iterate_succ_apply] using hk)
          simpa [Function.iterate_succ_apply] using this
      · simp at hr
        rw [← hr]; exact hs

theorem deltaDist_nonneg (rayDir : ℚ) : 0 ≤ deltaDist rayDir := by
  unfold deltaDist
  split_ifs
  · positivity
  · exact abs_nonneg _

/-- The distance recorded by the traversal never decreases, and never exceeds the two
accumulators. -/
theorem advance_distance_mono (d : RayDir) (hdx : 0 ≤ d.deltaDistX) (hdy : 0 ≤ d.deltaDistY)
    (s : Ray) (h : s.distance ≤ s.sideDistX ∧ s.distance ≤ s.sideDistY) :
    s.distance ≤ (advance d s).distance ∧
      (advance d s).distance ≤ (advance d s).sideDistX ∧
      (advance d s).distance ≤ (advance d s).sideDistY := by
  unfold advance
  split_ifs with hlt
  · simp only
    refine ⟨by linarith [h.1], by linarith, by linarith⟩
  · simp only
    refine ⟨by linarith [h.2], by linarith, by linarith⟩

theorem iterate_distance_mono (d : RayDir) (hdx : 0 ≤ d.deltaDistX) (hdy : 0 ≤ d.deltaDistY) :
    ∀ (k : Nat) (s : Ray), s.distance ≤ s.sideDistX ∧ s.distance ≤ s.sideDistY →
      s.distance ≤ ((advance d)^[k] s).distance := by
  intro k
  induction k with
  | zero => intro s _; simp
  | succ n ih =>
      intro s h
      have h1 := advance_distance_mono d hdx hdy s h
      rw [Function.iterate_succ_apply]
      exact le_trans h1.1 (ih _ h1.2)

theorem iterate_ordered (d : RayDir) (hdx : 0 ≤ d.deltaDistX) (hdy : 0 ≤ d.deltaDistY) :
    ∀ (k : Nat) (s : Ray), s.distance ≤ s.sideDistX ∧ s.distance ≤ s.sideDistY →
      ((advance d)^[k] s).distance ≤ ((advance d)^[k] s).sideDistX ∧
        ((advance d)^[k] s).distance ≤ ((advance d)^[k] s).sideDistY := by
  intro k
  induction k with
  | zero => intro s h; simpa using h
  | succ n ih =>
      intro s h
      rw [Function.iterate_succ_apply]
      exact ih _ (advance_distance_mono d hdx hdy s h).2

/-- The ray cast straight ahead (direction `(1, 0)`) from the middle of `whiteMap` enters
no obstacle as long as its loop runs. -/
theorem whiteMap_free_path : ∀ k,
    ((advance (rayDir 1 0))^[k] (rayStart ⟨150, 150⟩ 1 0)).distance < max_range →
    whiteMap.isObstacle
      ((advance (rayDir 1 0))^[k + 1] (rayStart ⟨150, 150⟩ 1 0)).mapX
      ((advance (rayDir 1 0))^[k + 1] (rayStart ⟨150, 150⟩ 1 0)).mapY = false := by
  have hsmall : ∀ k, k < 101 →
      ((advance (rayDir 1 0))^[k] (rayStart ⟨150, 150⟩ 1 0)).distance < max_range →
      whiteMap.isObstacle
        ((advance (rayDir 1 0))^[k + 1] (rayStart ⟨150, 150⟩ 1 0)).mapX
        ((advance (rayDir 1 0))^[k + 1] (rayStart ⟨150, 150⟩ 1 0)).mapY = false := by
    decide!
  intro k hk
  by_cases hlt : k < 101
  · exact hsmall k hlt hk
  · exfalso
    have h100 : ((advance (rayDir 1 0))^[100] (rayStart ⟨150, 150⟩ 1 0)).distance = 100 := by
      decide!
    have hord := iterate_ordered (rayDir 1 0) (deltaDist_nonneg _) (deltaDist_nonneg _) 100
      (rayStart ⟨150, 150⟩ 1 0) (by decide!)
    have hmono := iterate_distance_mono (rayDir 1 0) (deltaDist_nonneg _) (deltaDist_nonneg _)
      (k - 100) _ hord
    rw [← Function.iterate_add_apply, h100] at hmono
    have hk2 : k - 100 + 100 = k := by omega
    rw [hk2] at hmono
    unfold max_range at hk
    linarith

/-- C2 (failing input). On a white 200x200 map whose only black pixel is (91, 90), the
ray of bearing 45 degrees cast from (20, 20) enters that pixel in its 141st iteration, the
last one the loop makes, and `read` returns the distance `71 / cos45`, about 100.41, which
is above `max_range`. -/
theorem read_hit_beyond_max_range :
    read oneWallMap ⟨20, 20⟩ cos45 sin45 141 = some (71 / cos45) ∧
      max_range < 71 / cos45 := by
  decide!

/-- C3. If no cell the traversal enters is reported as an obstacle by the map, as long as
the loop runs (each iteration starts with a distance below `max_range` and enters one
cell), then `read` returns exactly `max_range`, whatever fuel it is given beyond a bound.
The cells entered are those of the iterates of `advance` from the start of the ray. -/
theorem read_eq_max_range_of_free_path (m : Map) (robotPos : Point) (rayDirX rayDirY : ℚ)
    (hfree : ∀ k,
      ((advance (rayDir rayDirX rayDirY))^[k] (rayStart robotPos rayDirX rayDirY)).distance
        < max_range →
      m.isObstacle
        ((advance (rayDir rayDirX rayDirY))^[k + 1] (rayStart robotPos rayDirX rayDirY)).mapX
        ((advance (rayDir rayDirX rayDirY))^[k + 1] (rayStart robotPos rayDirX rayDirY)).mapY
        = false) :
    ∃ n, ∀ fuel, n ≤ fuel → read m robotPos rayDirX rayDirY fuel = some max_range := by
  refine ⟨cellsToEdge m (rayDir rayDirX rayDirY) (rayStart robotPos rayDirX rayDirY) + 1, ?_⟩
  intro fuel hfuel
  obtain ⟨r, hr⟩ := ddaLoop_terminates m _ (rayDir_stepX rayDirX rayDirY)
    (rayDir_stepY rayDirX rayDirY) fuel (rayStart robotPos rayDirX rayDirY) (by omega)
  have hhit := ddaLoop_no_hit m _ fuel _ r rfl hfree hr
  simp [read, hr, hhit]

/-- Witness of C3: the ray cast straight ahead from the middle of a map without walls. -/
theorem read_eq_max_range_of_free_path_witness :
    ∃ n, ∀ fuel, n ≤ fuel → read whiteMap ⟨150, 150⟩ 1 0 fuel = some max_range :=
  read_eq_max_range_of_free_path whiteMap ⟨150, 150⟩ 1 0 whiteMap_free_path

end Lidar

/-! ## Theorems: behaviour manager -/

namespace BehaviorManager

/-- C6. For every state and every id of 0 or 1 whose mode is not the current one, after
`setByArucoId(id)` the corner phase is 0 (Normal), the counter is 0, no wall is found, and
`explorationCompleted` has the value it had before the call. -/
theorem setByArucoId_resets (bm : BehaviorManager) (arucoId : Int)
    (hid : (arucoId = 0 ∧ bm.currentBehavior ≠ .MANUAL) ∨
      (arucoId = 1 ∧ bm.currentBehavior ≠ .WALL_FOLLOW)) :
    (bm.setByArucoId arucoId).bm.maneuverState = 0 ∧
    (bm.setByArucoId arucoId).bm.stepCounter = 0 ∧
    (bm.setByArucoId arucoId).bm.wallFoundForFollowing = false ∧
    (bm.setByArucoId arucoId).bm.explorationCompleted = bm.explorationCompleted := by
  rcases hid with ⟨h0, hne⟩ | ⟨h1, hne⟩
  · subst h0
    have hne2 : Behavior.MANUAL ≠ bm.currentBehavior := fun h => hne h.symm
    simp [setByArucoId, behaviorOfId, reset, hne2]
  · subst h1
    have hne2 : Behavior.WALL_FOLLOW ≠ bm.currentBehavior := fun h => hne h.symm
    simp [setByArucoId, behaviorOfId, reset, hne2]

/-- Witness of C6: a manager that completed its exploration while following a wall in the
Turning phase is switched to MANUAL by the id 0. -/
theorem setByArucoId_resets_witness :
    ((⟨.WALL_FOLLOW, true, 2, 5, true⟩ : BehaviorManager).setByArucoId 0).bm.maneuverState = 0 ∧
    ((⟨.WALL_FOLLOW, true, 2, 5, true⟩ : BehaviorManager).setByArucoId 0).bm.stepCounter = 0 ∧
    ((⟨.WALL_FOLLOW, true, 2, 5, true⟩ : BehaviorManager).setByArucoId 0).bm.wallFoundForFollowing
      = false ∧
    ((⟨.WALL_FOLLOW, true, 2, 5, true⟩ : BehaviorManager).setByArucoId 0).bm.explorationCompleted
      = true :=
  setByArucoId_resets ⟨.WALL_FOLLOW, true, 2, 5, true⟩ 0 (Or.inl ⟨rfl, by decide⟩)

/-- C7. `setByArucoId` leaves the manager in MANUAL for the id 0 and in WALL_FOLLOW for
the id 1; for any other id, negative ones included, it returns the state it was given and
writes nothing; and whatever the id, the mode is IDLE after the call only if it was IDLE
before and the whole state is unchanged. -/
theorem setByArucoId_mapping (bm : BehaviorManager) (arucoId : Int) :
    (bm.setByArucoId 0).bm.currentBehavior = .MANUAL ∧
    (bm.setByArucoId 1).bm.currentBehavior = .WALL_FOLLOW ∧
    (arucoId ≠ 0 → arucoId ≠ 1 → bm.setByArucoId arucoId = ⟨bm, 0, 0, []⟩) ∧
    ((bm.setByArucoId arucoId).bm.currentBehavior = .IDLE →
      bm.currentBehavior = .IDLE ∧ (bm.setByArucoId arucoId).bm = bm) := by
  refine ⟨?_, ?_, ?_, ?_⟩
  · cases h : bm.currentBehavior <;> simp [setByArucoId, behaviorOfId, reset, h]
  · cases h : bm.currentBehavior <;> simp [setByArucoId, behaviorOfId, reset, h]
  · intro h0 h1
    simp [setByArucoId, behaviorOfId, h0, h1]
  · intro h
    by_cases h0 : arucoId = 0
    · subst h0
      cases hb : bm.currentBehavior <;>
        simp [setByArucoId, behaviorOfId, reset, hb] at h ⊢
    · by_cases h1 : arucoId = 1
      · subst h1
        cases hb : bm.currentBehavior <;>
          simp [setByArucoId, behaviorOfId, reset, hb] at h ⊢
      · simp [setByArucoId, behaviorOfId, h0, h1] at h ⊢
        exact h

/-- A manager that follows a wall is determined by its corner phase and its counter. -/
theorem eq_followingIn (bm : BehaviorManager) (hf : bm.Following) :
    bm = followingIn bm.maneuverState bm.stepCounter := by
  obtain ⟨h1, h2, h3⟩ := hf
  cases bm
  simp only at h1 h2 h3
  simp [followingIn, h1, h2, h3]

/-- Inner corner: a wall closer than 7 ahead. -/
theorem execute_inner_corner (m c : Int) (w : World) (key : Int) (hu : w.Unexplored)
    (hfront : w.distances 180 < 7) :
    (followingIn m c).execute w key =
      ⟨followingIn 0 0, w.robot.speed * w.robot.orientation_angle.sin,
        -w.robot.speed * w.robot.orientation_angle.cos, []⟩ := by
  unfold World.Unexplored at hu
  simp [execute, executeWallFollow, followingIn, hu, hfront]

/-- Normal phase, wall lost on the right. -/
theorem execute_normal_lost (c : Int) (w : World) (key : Int) (hu : w.Unexplored)
    (hfront : 7 ≤ w.distances 180) (hlost : 9 < w.distances 270) :
    (followingIn 0 c).execute w key =
      ⟨followingIn 1 0, w.robot.speed * w.robot.orientation_angle.cos,
        w.robot.speed * w.robot.orientation_angle.sin, []⟩ := by
  unfold World.Unexplored at hu
  simp [execute, executeWallFollow, followingIn, hu, not_lt.mpr hfront, hlost]

/-- Clearing phase. -/
theorem execute_clearing (c : Int) (w : World) (key : Int) (hu : w.Unexplored)
    (hfront : 7 ≤ w.distances 180) :
    (followingIn 1 c).execute w key =
      ⟨followingIn (if c + 1 ≥ 5 then 2 else 1) (c + 1),
        w.robot.speed * w.robot.orientation_angle.cos,
        w.robot.speed * w.robot.orientation_angle.sin, []⟩ := by
  unfold World.Unexplored at hu
  by_cases h5 : c + 1 ≥ 5 <;>
    simp [execute, executeWallFollow, followingIn, hu, not_lt.mpr hfront, h5]

/-- Turning phase. -/
theorem execute_turning (c : Int) (w : World) (key : Int) (hu : w.Unexplored)
    (hfront : 7 ≤ w.distances 180) :
    (followingIn 2 c).execute w key =
      ⟨followingIn 3 0, -w.robot.speed * w.robot.orientation_angle.sin,
        w.robot.speed * w.robot.orientation_angle.cos, []⟩ := by
  unfold World.Unexplored at hu
  simp [execute, executeWallFollow, followingIn, hu, not_lt.mpr hfront]

/-- Stabilizing phase. -/
theorem execute_stabilizing (c : Int) (w : World) (key : Int) (hu : w.Unexplored)
    (hfront : 7 ≤ w.distances 180) :
    (followingIn 3 c).execute w key =
      ⟨followingIn (if c + 1 ≥ 8 then 0 else 3) (c + 1),
        w.robot.speed * w.robot.orientation_angle.cos,
        w.robot.speed * w.robot.orientation_angle.sin, []⟩ := by
  unfold World.Unexplored at hu
  by_cases h8 : c + 1 ≥ 8 <;>
    simp [execute, executeWallFollow, followingIn, hu, not_lt.mpr hfront, h8]

end BehaviorManager

/-- C8 as stated fails. A manager that follows a wall, in Normal with counter 0, reads a
scan with 20 ahead (at least 7) and 20 to the right (above 9) over an unexplored grid on
every tick. After the first tick the counter is 0, not 1, and after 4 more ticks the phase
is still Clearing (1), not Turning (2). -/
theorem outer_corner_counter_not_one :
    (followingIn 0 0).Following ∧ (sampleWorld 20 20 .right).Unexplored ∧
    7 ≤ (sampleWorld 20 20 .right).distances 180 ∧
    9 < (sampleWorld 20 20 .right).distances 270 ∧
    (afterTicks (fun _ => sampleWorld 20 20 .right) (fun _ => 0) (followingIn 0 0) 1)
      = followingIn 1 0 ∧
    (afterTicks (fun _ => sampleWorld 20 20 .right) (fun _ => 0) (followingIn 0 0) 1).stepCounter
      ≠ 1 ∧
    (afterTicks (fun _ => sampleWorld 20 20 .right) (fun _ => 0) (followingIn 0 0) 5)
      = followingIn 1 4 ∧
    (afterTicks (fun _ => sampleWorld 20 20 .right) (fun _ => 0) (followingIn 0 0) 5).maneuverState
      ≠ 2 := by
  decide!

/-- C8, amended. A manager that follows a wall starts in Normal with counter 0; on each of
15 ticks the grid is not fully explored and the forward distance is at least 7, and on the
first tick the lateral distance is above 9. Then the first tick leaves the manager in
Clearing with counter 0; the 5 following ticks are straight moves, the phase is still
Clearing after 4 of them and is Turning after the fifth; one further tick leaves the
manager in Stabilizing with counter 0; and after 8 further ticks the phase is Normal. -/
theorem outer_corner_scenario (ws : Nat → World) (keys : Nat → Int) (bm : BehaviorManager)
    (hf : bm.Following) (hs : bm.maneuverState = 0) (hc : bm.stepCounter = 0)
    (hclear : ∀ n, n < 15 → (ws n).Unexplored ∧ 7 ≤ (ws n).distances 180)
    (hlost : 9 < (ws 0).distances 270) :
    (afterTicks ws keys bm 1).maneuverState = 1 ∧
    (afterTicks ws keys bm 1).stepCounter = 0 ∧
    (∀ n, 1 ≤ n → n ≤ 5 → (tickOutcome ws keys bm n).Straight (ws n)) ∧
    (afterTicks ws keys bm 5).maneuverState = 1 ∧
    (afterTicks ws keys bm 6).maneuverState = 2 ∧
    (afterTicks ws keys bm 7).maneuverState = 3 ∧
    (afterTicks ws keys bm 7).stepCounter = 0 ∧
    (afterTicks ws keys bm 15).maneuverState = 0 := by
  have hbm : bm = followingIn 0 0 := by
    rw [BehaviorManager.eq_followingIn bm hf, hs, hc]
  subst hbm
  have step : ∀ n, afterTicks ws keys (followingIn 0 0) (n + 1)
      = ((afterTicks ws keys (followingIn 0 0) n).execute (ws n) (keys n)).bm := fun _ => rfl
  have h1 : afterTicks ws keys (followingIn 0 0) 1 = followingIn 1 0 := by
    rw [step 0]
    show (((followingIn 0 0).execute (ws 0) (keys 0))).bm = _
    rw [BehaviorManager.execute_normal_lost 0 _ _ (hclear 0 (by omega)).1
      (hclear 0 (by omega)).2 hlost]
  have clearing : ∀ n c, n < 15 → afterTicks ws keys (followingIn 0 0) n = followingIn 1 c →
      afterTicks ws keys (followingIn 0 0) (n + 1)
        = followingIn (if c + 1 ≥ 5 then 2 else 1) (c + 1) ∧
      (tickOutcome ws keys (followingIn 0 0) n).Straight (ws n) := by
    intro n c hn h
    unfold tickOutcome
    rw [step n, h, BehaviorManager.execute_clearing c _ _ (hclear n hn).1 (hclear n hn).2]
    exact ⟨rfl, rfl, rfl⟩
  have stabilizing : ∀ n c, n < 15 →
      afterTicks ws keys (followingIn 0 0) n = followingIn 3 c →
      afterTicks ws keys (followingIn 0 0) (n + 1)
        = followingIn (if c + 1 ≥ 8 then 0 else 3) (c + 1) := by
    intro n c hn h
    rw [step n, h, BehaviorManager.execute_stabilizing c _ _ (hclear n hn).1 (hclear n hn).2]
  have h2 := clearing 1 0 (by omega) h1
  have h3 := clearing 2 1 (by omega) h2.1
  have h4 := clearing 3 2 (by omega) h3.1
  have h5 := clearing 4 3 (by omega) h4.1
  have h6 := clearing 5 4 (by omega) h5.1
  have h7 : afterTicks ws keys (followingIn 0 0) 7 = followingIn 3 0 := by
    rw [step 6, h6.1]
    show ((followingIn 2 5).execute (ws 6) (keys 6)).bm = _
    rw [BehaviorManager.execute_turning 5 _ _ (hclear 6 (by omega)).1 (hclear 6 (by omega)).2]
  have h8 := stabilizing 7 0 (by omega) h7
  have h9 := stabilizing 8 1 (by omega) h8
  have h10 := stabilizing 9 2 (by omega) h9
  have h11 := stabilizing 10 3 (by omega) h10
  have h12 := stabilizing 11 4 (by omega) h11
  have h13 := stabilizing 12 5 (by omega) h12
  have h14 := stabilizing 13 6 (by omega) h13
  have h15 := stabilizing 14 7 (by omega) h14
  refine ⟨by rw [h1]; rfl, by rw [h1]; rfl, ?_, by rw [h5.1]; rfl, by rw [h6.1]; rfl,
    by rw [h7]; rfl, by rw [h7]; rfl, by rw [h15]; rfl⟩
  intro n hn1 hn5
  have hcases : n = 1 ∨ n = 2 ∨ n = 3 ∨ n = 4 ∨ n = 5 := by omega
  rcases hcases with h | h | h | h | h <;> subst h
  · exact h2.2
  · exact h3.2
  · exact h4.2
  · exact h5.2
  · exact h6.2

/-- Witness of the amended C8: the scan reads 20 ahead and 20 to the right on every
tick. -/
theorem outer_corner_scenario_witness :
    (afterTicks (fun _ => sampleWorld 20 20 .down) (fun _ => 0) (followingIn 0 0) 1).maneuverState
      = 1 ∧
    (afterTicks (fun _ => sampleWorld 20 20 .down) (fun _ => 0) (followingIn 0 0) 1).stepCounter
      = 0 ∧
    (∀ n, 1 ≤ n → n ≤ 5 →
      (tickOutcome (fun _ => sampleWorld 20 20 .down) (fun _ => 0) (followingIn 0 0) n).Straight
        (sampleWorld 20 20 .down)) ∧
    (afterTicks (fun _ => sampleWorld 20 20 .down) (fun _ => 0) (followingIn 0 0) 5).maneuverState
      = 1 ∧
    (afterTicks (fun _ => sampleWorld 20 20 .down) (fun _ => 0) (followingIn 0 0) 6).maneuverState
      = 2 ∧
    (afterTicks (fun _ => sampleWorld 20 20 .down) (fun _ => 0) (followingIn 0 0) 7).maneuverState
      = 3 ∧
    (afterTicks (fun _ => sampleWorld 20 20 .down) (fun _ => 0) (followingIn 0 0) 7).stepCounter
      = 0 ∧
    (afterTicks (fun _ => sampleWorld 20 20 .down) (fun _ => 0) (followingIn 0 0) 15).maneuverState
      = 0 :=
  outer_corner_scenario (fun _ => sampleWorld 20 20 .down) (fun _ => 0) (followingIn 0 0)
    (by decide) rfl rfl
    (fun _ _ => (by decide! : (sampleWorld 20 20 .down).Unexplored ∧
      7 ≤ (sampleWorld 20 20 .down).distances 180))
    (by decide!)

/-- C9. Inner-corner priority: a manager that follows a wall, in any corner phase and with
any counter, reads an unexplored grid and a scan whose forward distance (index 180) is
strictly below 7, whatever the lateral distance. The tick returns the left turn
`speed * (sin h, -cos h)` for the heading `h` of the robot and leaves the phase and the
counter at 0. -/
theorem inner_corner_priority (bm : BehaviorManager) (w : World) (key : Int)
    (hf : bm.Following) (hu : w.Unexplored) (hfront : w.distances 180 < 7) :
    (bm.execute w key).dx = w.robot.speed * w.robot.orientation_angle.sin ∧
    (bm.execute w key).dy = w.robot.speed * -w.robot.orientation_angle.cos ∧
    (bm.execute w key).bm.maneuverState = 0 ∧
    (bm.execute w key).bm.stepCounter = 0 := by
  rw [BehaviorManager.eq_followingIn bm hf,
    BehaviorManager.execute_inner_corner _ _ w key hu hfront]
  refine ⟨rfl, ?_, rfl, rfl⟩
  simp

/-- Witness of C9: a forward distance of 5 while in Clearing with counter 3, the robot
heading down. -/
theorem inner_corner_priority_witness :
    ((followingIn 1 3).execute (sampleWorld 5 20 .down) 0).dx = 1 ∧
    ((followingIn 1 3).execute (sampleWorld 5 20 .down) 0).dy = 0 ∧
    ((followingIn 1 3).execute (sampleWorld 5 20 .down) 0).bm.maneuverState = 0 ∧
    ((followingIn 1 3).execute (sampleWorld 5 20 .down) 0).bm.stepCounter = 0 :=
  inner_corner_priority (followingIn 1 3) (sampleWorld 5 20 .down) 0
    (by decide) (by decide!) (by decide!)

/-! ### The end of the exploration is announced once -/

theorem setByArucoId_completed (bm : BehaviorManager) (arucoId : Int) :
    (bm.setByArucoId arucoId).bm.explorationCompleted = bm.explorationCompleted ∧
      Output.explorationBanner ∉ (bm.setByArucoId arucoId).out := by
  unfold BehaviorManager.setByArucoId
  cases BehaviorManager.behaviorOfId arucoId with
  | none => simp
  | some b =>
      simp only
      split_ifs <;> simp [BehaviorManager.reset]

theorem executeManual_completed (bm : BehaviorManager) (w : World) (key : Int) :
    (bm.executeManual w key).bm = bm ∧ (bm.executeManual w key).out = [] := by
  unfold BehaviorManager.executeManual
  simp only
  split_ifs <;> exact ⟨rfl, rfl⟩

/-- A wall-following tick that finds the flag clear and the grid fully explored sets the
flag, writes the banner and returns (0, 0). -/
theorem executeWallFollow_completes (bm : BehaviorManager) (w : World)
    (hdone : bm.explorationCompleted = false) (hfull : w.occupancyGrid.isFullyExplored = true) :
    bm.executeWallFollow w
      = ⟨{ bm with explorationCompleted := true }, 0, 0, [.explorationBanner]⟩ := by
  simp [BehaviorManager.executeWallFollow, hdone, hfull]

/-- Any other wall-following tick keeps the flag and writes nothing. -/
theorem executeWallFollow_silent (bm : BehaviorManager) (w : World)
    (h : bm.explorationCompleted = true ∨ w.occupancyGrid.isFullyExplored = false) :
    (bm.executeWallFollow w).bm.explorationCompleted = bm.explorationCompleted ∧
      (bm.executeWallFollow w).out = [] := by
  unfold BehaviorManager.executeWallFollow
  have hfirst : (!bm.explorationCompleted && w.occupancyGrid.isFullyExplored) = false := by
    rcases h with h | h <;> simp [h]
  simp only [hfirst, Bool.false_eq_true, if_false]
  split_ifs <;> exact ⟨rfl, rfl⟩

/-- What one call does to the flag `explorationCompleted` and to the banner. -/
theorem Call.run_banner (b : BehaviorManager) (c : Call) :
    (Output.explorationBanner ∈ (c.run b).out ↔
      b.explorationCompleted = false ∧ (c.run b).bm.explorationCompleted = true) ∧
    (Output.explorationBanner ∈ (c.run b).out →
      (∃ w key, c = .execute w key ∧ w.occupancyGrid.isFullyExplored = true) ∧
      b.currentBehavior = .WALL_FOLLOW ∧ (c.run b).dx = 0 ∧ (c.run b).dy = 0 ∧
      (c.run b).out = [.explorationBanner]) ∧
    (b.explorationCompleted = true → (c.run b).bm.explorationCompleted = true) := by
  cases c with
  | setByArucoId arucoId =>
      have h := setByArucoId_completed b arucoId
      simp only [Call.run]
      refine ⟨⟨fun hin => absurd hin h.2, fun hc => ?_⟩, fun hin => absurd hin h.2,
        fun hc => by rw [h.1]; exact hc⟩
      rw [h.1, hc.1] at hc
      exact absurd hc.2 (by decide)
  | execute w key =>
      simp only [Call.run, BehaviorManager.execute]
      cases hb : b.currentBehavior with
      | MANUAL =>
          have h := executeManual_completed b w key
          simp only
          rw [h.1, h.2]
          refine ⟨⟨fun hin => by simp at hin, fun hc => ?_⟩, fun hin => by simp at hin,
            fun hc => hc⟩
          rw [hc.1] at hc
          exact absurd hc.2 (by decide)
      | IDLE =>
          simp only
          refine ⟨⟨fun hin => by simp at hin, fun hc => ?_⟩, fun hin => by simp at hin,
            fun hc => hc⟩
          rw [hc.1] at hc
          exact absurd hc.2 (by decide)
      | WALL_FOLLOW =>
          simp only
          by_cases hgo : b.explorationCompleted = false ∧ w.occupancyGrid.isFullyExplored = true
          · rw [executeWallFollow_completes b w hgo.1 hgo.2]
            refine ⟨⟨fun _ => ⟨hgo.1, rfl⟩, fun _ => by simp⟩,
              fun _ => ⟨⟨w, key, rfl, hgo.2⟩, trivial, rfl, rfl, rfl⟩, fun _ => rfl⟩
          · have hor : b.explorationCompleted = true ∨ w.occupancyGrid.isFullyExplored = false := by
              by_cases hd : b.explorationCompleted = true
              · exact Or.inl hd
              · right
                have hd2 : b.explorationCompleted = false := by simpa using hd
                by_contra hfull
                exact hgo ⟨hd2, by simpa using hfull⟩
            have h := executeWallFollow_silent b w hor
            rw [h.1, h.2]
            refine ⟨⟨fun hin => by simp at hin, fun hc => ?_⟩, fun hin => by simp at hin,
              fun hc => hc⟩
            rw [hc.1] at hc
            exact absurd hc.2 (by decide)

/-- The flag `explorationCompleted`, once set, is set after any further calls. -/
theorem runCalls_completed (calls : List Call) : ∀ b : BehaviorManager,
    b.explorationCompleted = true → (runCalls b calls).explorationCompleted = true := by
  induction calls with
  | nil => intro b h; exact h
  | cons c rest ih =>
      intro b h
      exact ih _ ((Call.run_banner b c).2.2 h)

theorem runCalls_append (b : BehaviorManager) (pre post : List Call) :
    runCalls b (pre ++ post) = runCalls (runCalls b pre) post := by
  simp [runCalls, List.foldl_append]

/-- From any state, a sequence of calls writes the banner at most once, and never when the
flag is set at the start. -/
theorem outcomes_announce_le (calls : List Call) : ∀ b : BehaviorManager,
    (outcomes b calls).countP Outcome.announces
      ≤ if b.explorationCompleted = true then 0 else 1 := by
  induction calls with
  | nil => intro b; simp [outcomes]
  | cons c rest ih =>
      intro b
      have hrun := Call.run_banner b c
      have hrest := ih (c.run b).bm
      rw [outcomes, List.countP_cons]
      by_cases hd : b.explorationCompleted = true
      · have hpost := hrun.2.2 hd
        have hno : Outcome.announces (c.run b) = false := by
          unfold Outcome.announces
          rw [decide_eq_false_iff_not, hrun.1]
          intro hc
          rw [hd] at hc
          exact absurd hc.1 (by decide)
        rw [if_pos hpost] at hrest
        simp only [hno, if_pos hd]
        simpa using hrest
      · rw [if_neg hd]
        by_cases ha : Outcome.announces (c.run b) = true
        · have hin : Output.explorationBanner ∈ (c.run b).out := by
            simpa [Outcome.announces] using ha
          have hpost := (hrun.1.mp hin).2
          rw [if_pos hpost] at hrest
          simp only [ha, if_true]
          omega
        · have hle : (outcomes (c.run b).bm rest).countP Outcome.announces ≤ 1 := by
            refine le_trans hrest ?_
            split_ifs <;> omega
          simp only [ha]
          simpa using hle

/-- C10. Take any calls of `setByArucoId` and `execute` made on a freshly constructed
manager, with any grids, scans and keys, and any one call `c` among them. The call `c`
writes the banner of the end of the exploration exactly when `explorationCompleted` is
false before it and true after it; it is then an `execute` call made in WALL_FOLLOW mode
on a fully explored grid, and it returns (0, 0); once the flag is set it is set after
every later call; and the whole sequence writes the banner at most once. -/
theorem completion_announced_once (pre : List Call) (c : Call) (later : List Call) :
    (Output.explorationBanner ∈ (c.run (runCalls .init pre)).out ↔
      (runCalls .init pre).explorationCompleted = false ∧
        (c.run (runCalls .init pre)).bm.explorationCompleted = true) ∧
    (Output.explorationBanner ∈ (c.run (runCalls .init pre)).out →
      (∃ w key, c = .execute w key ∧ w.occupancyGrid.isFullyExplored = true) ∧
      (runCalls .init pre).currentBehavior = .WALL_FOLLOW ∧
      (c.run (runCalls .init pre)).dx = 0 ∧ (c.run (runCalls .init pre)).dy = 0) ∧
    ((c.run (runCalls .init pre)).bm.explorationCompleted = true →
      (runCalls .init (pre ++ c :: later)).explorationCompleted = true) ∧
    (outcomes .init (pre ++ c :: later)).countP Outcome.announces ≤ 1 := by
  have hrun := Call.run_banner (runCalls .init pre) c
  refine ⟨hrun.1, fun hin => ?_, fun hset => ?_, ?_⟩
  · obtain ⟨h1, h2, h3, h4, _⟩ := hrun.2.1 hin
    exact ⟨h1, h2, h3, h4⟩
  · rw [runCalls_append]
    exact runCalls_completed later _ hset
  · refine le_trans (outcomes_announce_le _ _) ?_
    split_ifs <;> omega

/-- An instance of C10 in which the banner is written: the manager is put in WALL_FOLLOW
mode, explores, and is then switched to MANUAL and back over the same explored grid. The
banner is written by the second call and by no other. -/
theorem completion_announced_once_witness :
    Output.explorationBanner ∈
      ((Call.execute exploredWorld 0).run (runCalls .init [.setByArucoId 1])).out ∧
    (outcomes .init ([.setByArucoId 1] ++ Call.execute exploredWorld 0 ::
      [.execute exploredWorld 0, .setByArucoId 0, .setByArucoId 1,
        .execute exploredWorld 0])).countP Outcome.announces = 1 :=
  ⟨by decide!, Nat.le_antisymm
    (completion_announced_once [.setByArucoId 1] (.execute exploredWorld 0)
      [.execute exploredWorld 0, .setByArucoId 0, .setByArucoId 1,
        .execute exploredWorld 0]).2.2.2
    (by decide!)⟩

/-! ### Frozen, searching and manual ticks -/

/-- C11. Frozen after completion: in WALL_FOLLOW mode with `explorationCompleted` already
true, whatever the grid, the scan and the key, `execute` returns (0, 0), writes nothing and
returns the manager it was given: no field of the state changes. -/
theorem frozen_after_completion (bm : BehaviorManager) (w : World) (key : Int)
    (hmode : bm.currentBehavior = .WALL_FOLLOW) (hdone : bm.explorationCompleted = true) :
    (bm.execute w key).dx = 0 ∧ (bm.execute w key).dy = 0 ∧ (bm.execute w key).bm = bm ∧
      (bm.execute w key).out = [] := by
  simp [BehaviorManager.execute, BehaviorManager.executeWallFollow, hmode, hdone]

/-- Witness of C11: a manager frozen in the Turning phase, over a fully explored grid and
over an unexplored one with a wall 5 ahead. -/
theorem frozen_after_completion_witness :
    ((⟨.WALL_FOLLOW, true, 2, 5, true⟩ : BehaviorManager).execute (sampleWorld 5 20 .left) 122).dx
      = 0 ∧
    ((⟨.WALL_FOLLOW, true, 2, 5, true⟩ : BehaviorManager).execute (sampleWorld 5 20 .left) 122).dy
      = 0 ∧
    ((⟨.WALL_FOLLOW, true, 2, 5, true⟩ : BehaviorManager).execute (sampleWorld 5 20 .left) 122).bm
      = ⟨.WALL_FOLLOW, true, 2, 5, true⟩ ∧
    ((⟨.WALL_FOLLOW, true, 2, 5, true⟩ : BehaviorManager).execute (sampleWorld 5 20 .left) 122).out
      = [] :=
  frozen_after_completion ⟨.WALL_FOLLOW, true, 2, 5, true⟩ (sampleWorld 5 20 .left) 122 rfl rfl

/-- C12. Search phase: in WALL_FOLLOW mode, with `explorationCompleted` false, the grid not
fully explored and no wall found yet, for the heading `h` of the robot (one of the four
cardinal headings): a forward distance (index 180) strictly below 10 sets
`wallFoundForFollowing` and returns `speed * (sin h, -cos h)`; a forward distance of 10 or
more returns `speed * (cos h, sin h)` and leaves `wallFoundForFollowing` false. In both
cases `maneuverState` and `stepCounter` are unchanged. -/
theorem search_phase (bm : BehaviorManager) (w : World) (key : Int)
    (hmode : bm.currentBehavior = .WALL_FOLLOW) (hdone : bm.explorationCompleted = false)
    (hu : w.Unexplored) (hwall : bm.wallFoundForFollowing = false) :
    (w.distances 180 < 10 →
      (bm.execute w key).bm.wallFoundForFollowing = true ∧
      (bm.execute w key).dx = w.robot.speed * w.robot.orientation_angle.sin ∧
      (bm.execute w key).dy = w.robot.speed * -w.robot.orientation_angle.cos) ∧
    (10 ≤ w.distances 180 →
      (bm.execute w key).bm.wallFoundForFollowing = false ∧
      (bm.execute w key).dx = w.robot.speed * w.robot.orientation_angle.cos ∧
      (bm.execute w key).dy = w.robot.speed * w.robot.orientation_angle.sin) ∧
    (bm.execute w key).bm.maneuverState = bm.maneuverState ∧
    (bm.execute w key).bm.stepCounter = bm.stepCounter := by
  unfold World.Unexplored at hu
  by_cases hfront : w.distances 180 < 10
  · simp [BehaviorManager.execute, BehaviorManager.executeWallFollow, hmode, hdone, hu, hwall,
      hfront]
  · have hge : 10 ≤ w.distances 180 := not_lt.mp hfront
    simp [BehaviorManager.execute, BehaviorManager.executeWallFollow, hmode, hdone, hu, hwall,
      hfront, hge]

/-- Witness of C12: a robot of speed 1 heading down, first with a wall 8 ahead (left turn
(1, 0), wall found), then with 10 ahead (straight move (0, 1), no wall found). -/
theorem search_phase_witness :
    ((⟨.WALL_FOLLOW, false, 0, 0, false⟩ : BehaviorManager).execute (sampleWorld 8 20 .down) 0)
      = ⟨⟨.WALL_FOLLOW, true, 0, 0, false⟩, 1, 0, []⟩ ∧
    ((⟨.WALL_FOLLOW, false, 0, 0, false⟩ : BehaviorManager).execute (sampleWorld 10 20 .down) 0).dx
      = 0 ∧
    ((⟨.WALL_FOLLOW, false, 0, 0, false⟩ : BehaviorManager).execute (sampleWorld 10 20 .down) 0).dy
      = 1 ∧
    ((⟨.WALL_FOLLOW, false, 0, 0, false⟩ :
      BehaviorManager).execute (sampleWorld 10 20 .down) 0).bm.wallFoundForFollowing = false :=
  ⟨by decide!,
    ((search_phase ⟨.WALL_FOLLOW, false, 0, 0, false⟩ (sampleWorld 10 20 .down) 0 rfl rfl
      (by decide!) rfl).2.1 (by decide!)).2.1,
    ((search_phase ⟨.WALL_FOLLOW, false, 0, 0, false⟩ (sampleWorld 10 20 .down) 0 rfl rfl
      (by decide!) rfl).2.1 (by decide!)).2.2,
    ((search_phase ⟨.WALL_FOLLOW, false, 0, 0, false⟩ (sampleWorld 10 20 .down) 0 rfl rfl
      (by decide!) rfl).2.1 (by decide!)).1⟩

/-- C13. Manual mode: for a robot of speed `s` and any key code, `execute` in MANUAL mode
returns (0, -s) for z or Z (codes 122, 90), (0, s) for s or S (115, 83), (-s, 0) for q or
Q (113, 81), (s, 0) for d or D (100, 68) and (0, 0) for any other code, -1 included; it
always returns the manager it was given and writes nothing. -/
theorem manual_mode (bm : BehaviorManager) (w : World) (key : Int)
    (hmode : bm.currentBehavior = .MANUAL) :
    ([Char.toNat 'z', Char.toNat 'Z', Char.toNat 's', Char.toNat 'S', Char.toNat 'q',
      Char.toNat 'Q', Char.toNat 'd', Char.toNat 'D'] = [122, 90, 115, 83, 113, 81, 100, 68]) ∧
    (key = 122 ∨ key = 90 → bm.execute w key = ⟨bm, 0, -w.robot.speed, []⟩) ∧
    (key = 115 ∨ key = 83 → bm.execute w key = ⟨bm, 0, w.robot.speed, []⟩) ∧
    (key = 113 ∨ key = 81 → bm.execute w key = ⟨bm, -w.robot.speed, 0, []⟩) ∧
    (key = 100 ∨ key = 68 → bm.execute w key = ⟨bm, w.robot.speed, 0, []⟩) ∧
    (key ∉ [122, 90, 115, 83, 113, 81, 100, 68] → bm.execute w key = ⟨bm, 0, 0, []⟩) ∧
    (bm.execute w key).bm = bm ∧ (bm.execute w key).out = [] := by
  refine ⟨by decide, ?_, ?_, ?_, ?_, ?_, ?_⟩
  · rintro (h | h) <;> subst h <;>
      simp [BehaviorManager.execute, BehaviorManager.executeManual, hmode]
  · rintro (h | h) <;> subst h <;>
      simp [BehaviorManager.execute, BehaviorManager.executeManual, hmode]
  · rintro (h | h) <;> subst h <;>
      simp [BehaviorManager.execute, BehaviorManager.executeManual, hmode]
  · rintro (h | h) <;> subst h <;>
      simp [BehaviorManager.execute, BehaviorManager.executeManual, hmode]
  · intro h
    simp only [List.mem_cons, List.mem_singleton, List.not_mem_nil, or_false, not_or] at h
    obtain ⟨h1, h2, h3, h4, h5, h6, h7, h8⟩ := h
    simp [BehaviorManager.execute, BehaviorManager.executeManual, hmode, h1, h2, h3, h4, h5,
      h6, h7, h8]
  · have h := executeManual_completed bm w key
    simp only [BehaviorManager.execute, hmode]
    exact h

/-- Witness of C13: a robot of speed 3 in MANUAL mode, in the middle of a corner manoeuvre
left by an earlier wall following, with the key z and with no key (-1). -/
theorem manual_mode_witness :
    ((⟨.MANUAL, true, 1, 3, false⟩ : BehaviorManager).execute
      ⟨⟨1, 1, 1, [UNKNOWN]⟩, ⟨⟨50, 50⟩, 11, 3, .right⟩, fun _ => 20⟩ 122)
      = ⟨⟨.MANUAL, true, 1, 3, false⟩, 0, -3, []⟩ ∧
    ((⟨.MANUAL, true, 1, 3, false⟩ : BehaviorManager).execute
      ⟨⟨1, 1, 1, [UNKNOWN]⟩, ⟨⟨50, 50⟩, 11, 3, .right⟩, fun _ => 20⟩ (-1))
      = ⟨⟨.MANUAL, true, 1, 3, false⟩, 0, 0, []⟩ :=
  ⟨(manual_mode ⟨.MANUAL, true, 1, 3, false⟩
      ⟨⟨1, 1, 1, [UNKNOWN]⟩, ⟨⟨50, 50⟩, 11, 3, .right⟩, fun _ => 20⟩ 122 rfl).2.1 (Or.inl rfl),
    (manual_mode ⟨.MANUAL, true, 1, 3, false⟩
      ⟨⟨1, 1, 1, [UNKNOWN]⟩, ⟨⟨50, 50⟩, 11, 3, .right⟩, fun _ => 20⟩ (-1) rfl).2.2.2.2.2.1
      (by decide)⟩

/-! ### Construction and smoothing of the grid -/

/-- C15 as stated fails. A world 25 wide and 10 high with cells of size 10 gets a grid of
2 columns, whereas `ceil(25 / 10)` is 3. -/
theorem init_columns_not_ceil :
    (OccupancyGrid.init 25 10 10).gridW = 2 ∧ ⌈(25 : ℚ) / 10⌉ = 3 ∧
      ((OccupancyGrid.init 25 10 10).gridW : Int) ≠ ⌈(25 : ℚ) / 10⌉ := by
  have hceil : ⌈(25 : ℚ) / 10⌉ = 3 := by
    rw [Int.ceil_eq_iff]; norm_num
  refine ⟨by decide, hceil, ?_⟩
  rw [hceil]
  decide

theorem toNat_tdiv_eq_floor (w c : Int) (hw : 1 ≤ w) (hc : 1 ≤ c) :
    ((w.tdiv c).toNat : Int) = ⌊(w : ℚ) / (c : ℚ)⌋ := by
  rw [Int.tdiv_eq_ediv (by omega) (by omega)]
  have h0 : 0 ≤ w / c := Int.ediv_nonneg (by omega) (by omega)
  rw [Int.toNat_of_nonneg h0]
  obtain ⟨n, rfl⟩ := Int.eq_ofNat_of_zero_le (show 0 ≤ c by omega)
  rw [← Rat.floor_intCast_div_natCast]
  simp

/-- C15, amended. For every world width `w >= 1`, world height `h >= 1` and cell size
`c >= 1`, the grid built by the constructor has `floor(w / c)` columns and `floor(h / c)`
rows, its matrix holds one pixel per cell, and every cell is initially Unknown (127). -/
theorem init_size (w h c : Int) (hw : 1 ≤ w) (hh : 1 ≤ h) (hc : 1 ≤ c) :
    ((OccupancyGrid.init w h c).gridW : Int) = ⌊(w : ℚ) / (c : ℚ)⌋ ∧
    ((OccupancyGrid.init w h c).gridH : Int) = ⌊(h : ℚ) / (c : ℚ)⌋ ∧
    (OccupancyGrid.init w h c).WellFormed ∧
    (∀ v ∈ (OccupancyGrid.init w h c).grid, v = UNKNOWN) ∧
    (∀ x y, (OccupancyGrid.init w h c).at_ x y = UNKNOWN) := by
  refine ⟨toNat_tdiv_eq_floor w c hw hc, toNat_tdiv_eq_floor h c hh hc, ?_, ?_, ?_⟩
  · simp [OccupancyGrid.WellFormed, OccupancyGrid.init, Nat.mul_comm]
  · intro v hv
    simp only [OccupancyGrid.init] at hv
    exact List.eq_of_mem_replicate hv
  · intro x y
    simp only [OccupancyGrid.at_, OccupancyGrid.init, List.getD_eq_getElem?_getD,
      List.getElem?_replicate]
    split_ifs <;> rfl

/-- Witness of the amended C15: a world of 25x10 with cells of size 10 has 2 columns and 1
row of Unknown cells. -/
theorem init_size_witness :
    OccupancyGrid.init 25 10 10 = ⟨10, 2, 1, [UNKNOWN, UNKNOWN]⟩ ∧
    ((OccupancyGrid.init 25 10 10).gridW : Int) = ⌊((25 : Int) : ℚ) / ((10 : Int) : ℚ)⌋ :=
  ⟨by decide, (init_size 25 10 10 (by decide) (by decide) (by decide)).1⟩

namespace OccupancyGrid

theorem getD_setToZero (g : OccupancyGrid) (m : Mask) (i : Nat) :
    (g.setToZero m).grid.getD i UNKNOWN
      = if i < g.grid.length ∧ m ((i % g.gridW : Nat) : Int) ((i / g.gridW : Nat) : Int) = true
        then 0 else g.grid.getD i UNKNOWN := by
  simp only [setToZero, List.getD_eq_getElem?_getD, List.getElem?_mapIdx]
  by_cases hi : i < g.grid.length
  · rw [List.getElem?_eq_getElem hi]
    by_cases hm : m ((i % g.gridW : Nat) : Int) ((i / g.gridW : Nat) : Int) = true
    · rw [if_pos ⟨hi, hm⟩]
      simp only [Option.map_some', Option.getD_some]
      rw [if_pos hm]
    · rw [if_neg (fun h => hm h.2)]
      simp only [Option.map_some', Option.getD_some]
      rw [if_neg hm]
  · rw [List.getElem?_eq_none (Nat.le_of_not_lt hi), if_neg (fun h => hi h.1)]
    rfl

/-- C16. Smoothing only adds obstacles: for every grid, every iteration count and every
cell, after `smoothGrid` a cell that was Occupied is still Occupied; a cell whose value
differs from its value before the call is Occupied; and a cell of the grid that the closed
mask does not cover keeps its value. The size of the grid does not change. -/
theorem smoothGrid_only_adds (g : OccupancyGrid) (iterations x y : Nat) :
    (g.at_ x y = OCCUPIED → (g.smoothGrid iterations).at_ x y = OCCUPIED) ∧
    ((g.smoothGrid iterations).at_ x y ≠ g.at_ x y →
      (g.smoothGrid iterations).at_ x y = OCCUPIED) ∧
    (x < g.gridW → morphClose g.gridW g.gridH iterations g.obstacleMask x y = false →
      (g.smoothGrid iterations).at_ x y = g.at_ x y) ∧
    (g.smoothGrid iterations).gridW = g.gridW ∧ (g.smoothGrid iterations).gridH = g.gridH ∧
    (g.smoothGrid iterations).grid.length = g.grid.length := by
  have hget := getD_setToZero g (morphClose g.gridW g.gridH iterations g.obstacleMask)
    (y * g.gridW + x)
  have hat : (g.smoothGrid iterations).at_ x y
      = (g.setToZero (morphClose g.gridW g.gridH iterations g.obstacleMask)).grid.getD
          (y * g.gridW + x) UNKNOWN := rfl
  refine ⟨?_, ?_, ?_, rfl, rfl, ?_⟩
  · intro h
    rw [hat, hget]
    split_ifs
    · rfl
    · exact h
  · intro h
    rw [hat, hget] at h ⊢
    split_ifs at h ⊢ with hc
    · rfl
    · exact absurd rfl h
  · intro hx hmask
    rw [hat, hget]
    have hmod : (y * g.gridW + x) % g.gridW = x := by
      rw [Nat.add_comm, Nat.add_mul_mod_self_right, Nat.mod_eq_of_lt hx]
    have hdiv : (y * g.gridW + x) / g.gridW = y := by
      rw [Nat.add_comm, Nat.add_mul_div_right _ _ (by omega), Nat.div_eq_of_lt hx,
        Nat.zero_add]
    rw [hmod, hdiv, hmask]
    simp [at_]
  · simp [smoothGrid, setToZero]

end OccupancyGrid

/-! ## Theorems: line iterator -/

namespace LineIterator

/-- After `i` increments the iterator has made `i` steps along the longer extent and `m`
steps along the shorter one, where `m` is `i * dy / dx` rounded: the error term stays
between `-2 dy` and `2 dx - 2 dy`. -/
theorem iterate_next (dx dy : Int) (stepMajor stepMinor pt1 : Point) (h0 : 0 ≤ dy)
    (h1 : dy ≤ dx) : ∀ i : Nat, ∃ m : Int,
      ((next dx dy stepMajor stepMinor)^[i] (pt1, dx - (dy + dy))).1
        = ⟨pt1.x + i * stepMajor.x + m * stepMinor.x,
            pt1.y + i * stepMajor.y + m * stepMinor.y⟩ ∧
      ((next dx dy stepMajor stepMinor)^[i] (pt1, dx - (dy + dy))).2
        = dx * (1 + 2 * m) - 2 * dy * (i + 1) ∧
      -(2 * dy) ≤ ((next dx dy stepMajor stepMinor)^[i] (pt1, dx - (dy + dy))).2 ∧
      ((next dx dy stepMajor stepMinor)^[i] (pt1, dx - (dy + dy))).2 ≤ 2 * dx - 2 * dy ∧
      0 ≤ m ∧ m ≤ i := by
  intro i
  induction i with
  | zero =>
      refine ⟨0, ?_, ?_, ?_, ?_, le_refl _, by simp⟩
      · simp
      · simp only [Function.iterate_zero, id_eq]; push_cast; ring
      · simp only [Function.iterate_zero, id_eq]; omega
      · simp only [Function.iterate_zero, id_eq]; omega
  | succ n ih =>
      obtain ⟨m, hp, he, hlo, hhi, hm0, hmn⟩ := ih
      rw [Function.iterate_succ_apply']
      generalize (next dx dy stepMajor stepMinor)^[n] (pt1, dx - (dy + dy)) = s at hp he hlo hhi
      obtain ⟨p, e⟩ := s
      simp only at hp he hlo hhi
      subst hp
      unfold next
      by_cases hneg : e < 0
      · refine ⟨m + 1, ?_, ?_, ?_, ?_, by omega, by push_cast; omega⟩
        · simp only [hneg, if_true, Point.mk.injEq]
          constructor <;> (push_cast; ring)
        · simp only [hneg, if_true]; rw [he]; push_cast; ring
        · simp only [hneg, if_true]; omega
        · simp only [hneg, if_true]; omega
      · refine ⟨m, ?_, ?_, ?_, ?_, hm0, by push_cast; omega⟩
        · simp only [hneg, if_false, Point.mk.injEq]
          constructor <;> (push_cast; ring)
        · simp only [hneg, if_false]; rw [he]; push_cast; ring
        · simp only [hneg, if_false]; omega
        · simp only [hneg, if_false]; omega

/-- The position reached after `dx` increments is `dx` steps along the longer extent and
`dy` steps along the shorter one away from the start. -/
theorem iterate_next_last (dx dy : Int) (stepMajor stepMinor pt1 : Point) (h0 : 0 ≤ dy)
    (h1 : dy ≤ dx) :
    ((next dx dy stepMajor stepMinor)^[dx.toNat] (pt1, dx - (dy + dy))).1
      = ⟨pt1.x + dx * stepMajor.x + dy * stepMinor.x,
          pt1.y + dx * stepMajor.y + dy * stepMinor.y⟩ := by
  obtain ⟨m, hp, he, hlo, hhi, hm0, hmn⟩ :=
    iterate_next dx dy stepMajor stepMinor pt1 h0 h1 dx.toNat
  have hdx : ((dx.toNat : Nat) : Int) = dx := Int.toNat_of_nonneg (by omega)
  rw [hdx] at hp he hmn
  have hm : m = dy := by
    rcases Int.lt_or_le 0 dx with hpos | hzero
    · rw [he] at hlo hhi
      apply le_antisymm
      · by_contra hgt
        have h2 : dx * 1 ≤ dx * (2 * m - 1 - 2 * dy) :=
          mul_le_mul_of_nonneg_left (by omega) (le_of_lt hpos)
        nlinarith
      · by_contra hlt
        have h2 : dx * 1 ≤ dx * (2 * dy - 2 * m - 1) :=
          mul_le_mul_of_nonneg_left (by omega) (le_of_lt hpos)
        nlinarith
    · omega
  rw [hp, hm]

end LineIterator

namespace LineIterator

/-- The positions of an iterator are those of its first `dx` indices followed by its end
point, which none of the earlier positions equals. -/
theorem positions_eq_append (dx dy : Int) (stepMajor stepMinor pt1 : Point) (h0 : 0 ≤ dy)
    (h1 : dy ≤ dx)
    (hsteps : (stepMajor.x ≠ 0 ∧ stepMinor.x = 0) ∨ (stepMajor.y ≠ 0 ∧ stepMinor.y = 0)) :
    ∃ before : List Point,
      positions dx dy stepMajor stepMinor pt1
        = before ++ [⟨pt1.x + dx * stepMajor.x + dy * stepMinor.x,
            pt1.y + dx * stepMajor.y + dy * stepMinor.y⟩] ∧
      (⟨pt1.x + dx * stepMajor.x + dy * stepMinor.x,
          pt1.y + dx * stepMajor.y + dy * stepMinor.y⟩ : Point) ∉ before ∧
      before.length = dx.toNat := by
  refine ⟨(List.range dx.toNat).map fun i =>
    ((next dx dy stepMajor stepMinor)^[i] (pt1, dx - (dy + dy))).1, ?_, ?_, by simp⟩
  · unfold positions
    have hcount : (dx + 1).toNat = dx.toNat + 1 := by omega
    rw [hcount, List.range_succ, List.map_append, List.map_singleton,
      iterate_next_last dx dy stepMajor stepMinor pt1 h0 h1]
  · intro hmem
    obtain ⟨i, hi, hq⟩ := List.mem_map.mp hmem
    have hi2 : i < dx.toNat := List.mem_range.mp hi
    obtain ⟨m, hp, _, _, _, _, _⟩ := iterate_next dx dy stepMajor stepMinor pt1 h0 h1 i
    rw [hp] at hq
    have hx := congrArg Point.x hq
    have hy := congrArg Point.y hq
    simp only at hx hy
    have hlt : (i : Int) < dx := by omega
    rcases hsteps with ⟨hM, hN⟩ | ⟨hM, hN⟩
    · rw [hN] at hx
      have hmul : (i : Int) * stepMajor.x = dx * stepMajor.x := by linarith
      have := mul_right_cancel₀ hM hmul
      omega
    · rw [hN] at hy
      have hmul : (i : Int) * stepMajor.y = dx * stepMajor.y := by linarith
      have := mul_right_cancel₀ hM hmul
      omega

/-- The same with the end point and the number of earlier positions named. -/
theorem positions_ends (dx dy : Int) (stepMajor stepMinor pt1 pt2 : Point) (n : Nat)
    (h0 : 0 ≤ dy) (h1 : dy ≤ dx)
    (hsteps : (stepMajor.x ≠ 0 ∧ stepMinor.x = 0) ∨ (stepMajor.y ≠ 0 ∧ stepMinor.y = 0))
    (hx : pt2.x = pt1.x + dx * stepMajor.x + dy * stepMinor.x)
    (hy : pt2.y = pt1.y + dx * stepMajor.y + dy * stepMinor.y)
    (hn : n = dx.toNat) :
    ∃ before : List Point, positions dx dy stepMajor stepMinor pt1 = before ++ [pt2] ∧
      pt2 ∉ before ∧ before.length = n := by
  obtain ⟨before, h, hnot, hlen⟩ := positions_eq_append dx dy stepMajor stepMinor pt1 h0 h1 hsteps
  have hpt : pt2 = ⟨pt1.x + dx * stepMajor.x + dy * stepMinor.x,
      pt1.y + dx * stepMajor.y + dy * stepMinor.y⟩ := by
    cases pt2
    simp only [Point.mk.injEq]
    exact ⟨hx, hy⟩
  rw [← hpt] at h hnot
  exact ⟨before, h, hnot, by rw [hlen, hn]⟩

/-- An unclipped line ends at `pt2`, visits `pt2` only there, and yields one position more
than the longer of its two extents. -/
theorem cvLine_eq_append (pt1 pt2 : Point) :
    ∃ before : List Point, cvLine pt1 pt2 = before ++ [pt2] ∧ pt2 ∉ before ∧
      before.length = max (pt2.x - pt1.x).natAbs (pt2.y - pt1.y).natAbs := by
  unfold cvLine
  simp only
  by_cases hx : pt2.x - pt1.x < 0 <;> by_cases hy : pt2.y - pt1.y < 0 <;>
    simp only [hx, hy, if_true, if_false] <;>
    split_ifs with hvert <;>
    apply positions_ends <;>
    first
    | omega
    | (simp only []; omega)
    | exact Or.inl (And.intro (by decide) rfl)
    | exact Or.inr (And.intro (by decide) rfl)

end LineIterator

/-! ## Theorems: tracing one ray -/

namespace OccupancyGrid

theorem outside_eq_false_iff (g : OccupancyGrid) (p : Point) :
    g.outside p = false ↔ 0 ≤ p.x ∧ p.x < (g.gridW : Int) ∧ 0 ≤ p.y ∧ p.y < (g.gridH : Int) := by
  unfold outside
  simp only [Bool.or_eq_false_iff, decide_eq_false_iff_not, not_lt, ge_iff_le, not_le]
  constructor
  · rintro ⟨⟨⟨h1, h2⟩, h3⟩, h4⟩; exact ⟨h1, h2, h3, h4⟩
  · rintro ⟨h1, h2, h3, h4⟩; exact ⟨⟨⟨h1, h2⟩, h3⟩, h4⟩

theorem inImage_of_not_outside (g : OccupancyGrid) (p : Point) (h : g.outside p = false) :
    inImage g.gridW g.gridH p.x p.y = true := by
  obtain ⟨h1, h2, h3, h4⟩ := (outside_eq_false_iff g p).mp h
  simp [inImage, h1, h2, h3, h4]

/-- Between two cells of the grid the line iterator is the unclipped line. -/
theorem lineIterator_inside (clipped : Nat → Nat → Point → Point → List Point)
    (g : OccupancyGrid) (a b : Point) (ha : g.outside a = false) (hb : g.outside b = false) :
    lineIterator clipped g.gridW g.gridH a b = LineIterator.cvLine a b := by
  unfold lineIterator
  simp only [inImage_of_not_outside g a ha, inImage_of_not_outside g b hb, Bool.and_self,
    if_true]

/-- The size of the grid and of its matrix are the same after one cell is marked. -/
theorem markCell_size (g : OccupancyGrid) (point robotPos : Point) (count i : Nat)
    (cell : Point) :
    (markCell g point robotPos count i cell).gridW = g.gridW ∧
    (markCell g point robotPos count i cell).gridH = g.gridH ∧
    (markCell g point robotPos count i cell).grid.length = g.grid.length := by
  unfold markCell
  split_ifs <;> simp [setAt]

theorem traceRay_size (point robotPos : Point) (count : Nat) (cells : List Point) :
    ∀ (g : OccupancyGrid) (i : Nat),
      (traceRay point robotPos count g i cells).gridW = g.gridW ∧
      (traceRay point robotPos count g i cells).gridH = g.gridH ∧
      (traceRay point robotPos count g i cells).grid.length = g.grid.length := by
  induction cells with
  | nil => intro g i; exact ⟨rfl, rfl, rfl⟩
  | cons cell rest ih =>
      intro g i
      have h1 := markCell_size g point robotPos count i cell
      have h2 := ih (markCell g point robotPos count i cell) (i + 1)
      exact ⟨h2.1.trans h1.1, h2.2.1.trans h1.2.1, h2.2.2.trans h1.2.2⟩

theorem traceRay_append (point robotPos : Point) (count : Nat) (xs ys : List Point) :
    ∀ (g : OccupancyGrid) (i : Nat),
      traceRay point robotPos count g i (xs ++ ys)
        = traceRay point robotPos count (traceRay point robotPos count g i xs)
            (i + xs.length) ys := by
  induction xs with
  | nil => intro g i; rfl
  | cons x rest ih =>
      intro g i
      rw [List.cons_append]
      show traceRay point robotPos count (markCell g point robotPos count i x) (i + 1)
          (rest ++ ys)
        = traceRay point robotPos count
            (traceRay point robotPos count (markCell g point robotPos count i x) (i + 1) rest)
            (i + (rest.length + 1)) ys
      rw [ih]
      congr 1
      omega

/-- The column and the row of a pixel are recovered from its index in the matrix. -/
theorem index_mod_div (w x y : Nat) (hx : x < w) :
    (y * w + x) % w = x ∧ (y * w + x) / w = y := by
  constructor
  · rw [Nat.add_comm, Nat.add_mul_mod_self_right, Nat.mod_eq_of_lt hx]
  · rw [Nat.add_comm, Nat.add_mul_div_right _ _ (by omega), Nat.div_eq_of_lt hx, Nat.zero_add]

/-- Writing one cell of the grid leaves any other cell of the grid as it was. -/
theorem at_setAt_of_ne (g : OccupancyGrid) (x y tx ty v : Nat) (hx : x < g.gridW)
    (htx : tx < g.gridW) (hne : ¬(x = tx ∧ y = ty)) :
    (g.setAt x y v).at_ tx ty = g.at_ tx ty := by
  unfold at_ setAt
  simp only [List.getD_eq_getElem?_getD]
  have hidx : y * g.gridW + x ≠ ty * g.gridW + tx := by
    intro h
    have h1 := index_mod_div g.gridW x y hx
    have h2 := index_mod_div g.gridW tx ty htx
    rw [h] at h1
    exact hne ⟨h1.1.symm.trans h2.1, h1.2.symm.trans h2.2⟩
  rw [List.getElem?_set]
  simp [hidx]

/-- Writing a cell of a well-formed grid is read back. -/
theorem at_setAt_self (g : OccupancyGrid) (x y v : Nat) (hx : x < g.gridW) (hy : y < g.gridH)
    (hlen : g.grid.length = g.gridW * g.gridH) : (g.setAt x y v).at_ x y = v := by
  unfold at_ setAt
  have hidx : y * g.gridW + x < g.grid.length := by
    rw [hlen]
    calc y * g.gridW + x < y * g.gridW + g.gridW := by omega
      _ = (y + 1) * g.gridW := by ring
      _ ≤ g.gridH * g.gridW := Nat.mul_le_mul_right _ hy
      _ = g.gridW * g.gridH := Nat.mul_comm _ _
  simp [List.getD_eq_getElem?_getD, List.getElem?_set, hidx]

/-- A cell that is not the last of its line leaves a different cell of the grid as it
was. -/
theorem markCell_other (g : OccupancyGrid) (point robotPos : Point) (count i : Nat)
    (cell target : Point) (hne : cell ≠ target) (ht : g.outside target = false) :
    (markCell g point robotPos count i cell).at_ target.x.toNat target.y.toNat
      = g.at_ target.x.toNat target.y.toNat := by
  obtain ⟨t1, t2, t3, t4⟩ := (outside_eq_false_iff g target).mp ht
  have hset : ∀ v, g.outside cell = false →
      (g.setAt cell.x.toNat cell.y.toNat v).at_ target.x.toNat target.y.toNat
        = g.at_ target.x.toNat target.y.toNat := by
    intro v hc
    obtain ⟨c1, c2, c3, c4⟩ := (outside_eq_false_iff g cell).mp hc
    apply at_setAt_of_ne g _ _ _ _ v (by omega) (by omega)
    rintro ⟨h1, h2⟩
    apply hne
    cases cell; cases target
    simp only [Point.mk.injEq] at *
    constructor <;> omega
  unfold markCell
  split_ifs with h1 h2 h3 h4
  · rfl
  · exact hset _ (by simpa using h1)
  · rfl
  · exact hset _ (by simpa using h1)
  · rfl

theorem traceRay_other (point robotPos : Point) (count : Nat) (target : Point)
    (cells : List Point) (hnot : target ∉ cells) :
    ∀ (g : OccupancyGrid) (i : Nat), g.outside target = false →
      (traceRay point robotPos count g i cells).at_ target.x.toNat target.y.toNat
        = g.at_ target.x.toNat target.y.toNat := by
  induction cells with
  | nil => intro g i _; rfl
  | cons cell rest ih =>
      intro g i ht
      have hne : cell ≠ target := fun h => hnot (h ▸ List.mem_cons_self _ _)
      have hrest : target ∉ rest := fun h => hnot (List.mem_cons_of_mem _ h)
      have hsize := markCell_size g point robotPos count i cell
      have ht2 : (markCell g point robotPos count i cell).outside target = false := by
        rw [outside_eq_false_iff, hsize.1, hsize.2.1]
        exact (outside_eq_false_iff g target).mp ht
      simp only [traceRay]
      rw [ih hrest _ _ ht2, markCell_other g point robotPos count i cell target hne ht]

/-- The grid after a ray is traced along positions that end with `target`, a cell of the
grid that occurs only there: `target` is Occupied when the hit is closer than 98, and is
as it was otherwise. -/
theorem traceRay_last (point robotPos : Point) (before : List Point) (target : Point)
    (g : OccupancyGrid) (hnot : target ∉ before) (ht : g.outside target = false)
    (hwf : g.WellFormed) :
    ((point.sub robotPos).normSq < 9604 →
      (traceRay point robotPos (before ++ [target]).length g 0 (before ++ [target])).at_
        target.x.toNat target.y.toNat = OCCUPIED) ∧
    (9604 ≤ (point.sub robotPos).normSq →
      (traceRay point robotPos (before ++ [target]).length g 0 (before ++ [target])).at_
        target.x.toNat target.y.toNat = g.at_ target.x.toNat target.y.toNat) := by
  rw [traceRay_append]
  have hsize := traceRay_size point robotPos (before ++ [target]).length before g 0
  have hkeep := traceRay_other point robotPos (before ++ [target]).length target before hnot
    g 0 ht
  generalize traceRay point robotPos (before ++ [target]).length g 0 before = g1
    at hsize hkeep
  have ht1 : g1.outside target = false := by
    rw [outside_eq_false_iff, hsize.1, hsize.2.1]
    exact (outside_eq_false_iff g target).mp ht
  obtain ⟨t1, t2, t3, t4⟩ := (outside_eq_false_iff g1 target).mp ht1
  have hend : 0 + before.length + 1 = (before ++ [target]).length := by simp
  simp only [traceRay, markCell, ht1, Bool.false_eq_true, if_false, hend, if_true]
  constructor
  · intro hnear
    rw [if_pos hnear]
    exact at_setAt_self g1 _ _ _ (by omega) (by omega)
      (by rw [hsize.2.2, hsize.1, hsize.2.1]; exact hwf)
  · intro hfar
    rw [if_neg (not_lt.mpr hfar)]
    exact hkeep

end OccupancyGrid

/-- C14 (failing input). A world 100 wide and 10 high with cells of size 10 has a grid of
10x1 cells. The robot at (95, 5) gets from a ray that left the map at `max_range` the hit
point (-5, 5), whose cell by the floor of `-5 / 10` is (-1, 0), outside the grid. The
C++ division truncates `-5 / 10` to 0, so the hit is taken to be in the cell (0, 0), the ray
is traced and the cells (9, 0) down to (1, 0) become Free. -/
theorem update_negative_hit_changes_grid
    (clipped : Nat → Nat → Point → Point → List Point) :
    ⌊((-5 : Int) : ℚ) / ((10 : Int) : ℚ)⌋ = -1 ∧
    (Point.div ⟨-5, 5⟩ 10) = ⟨0, 0⟩ ∧
    ((OccupancyGrid.init 100 10 10).update (lineIterator clipped) [⟨-5, 5⟩] ⟨95, 5⟩).grid
      = [UNKNOWN, FREE, FREE, FREE, FREE, FREE, FREE, FREE, FREE, FREE] ∧
    (OccupancyGrid.init 100 10 10).grid
      = [UNKNOWN, UNKNOWN, UNKNOWN, UNKNOWN, UNKNOWN, UNKNOWN, UNKNOWN, UNKNOWN, UNKNOWN,
          UNKNOWN] := by
  refine ⟨?_, by decide, ?_, by decide⟩
  · rw [Int.floor_eq_iff]; norm_num
  · have hline : lineIterator clipped 10 1 ⟨9, 0⟩ ⟨0, 0⟩ = LineIterator.cvLine ⟨9, 0⟩ ⟨0, 0⟩ := by
      unfold lineIterator
      rw [if_pos (by decide)]
    have hinit : OccupancyGrid.init 100 10 10 = ⟨10, 10, 1, List.replicate 10 UNKNOWN⟩ := by
      decide
    have hrobot : Point.div ⟨95, 5⟩ 10 = ⟨9, 0⟩ := by decide
    have hhit : Point.div ⟨-5, 5⟩ 10 = ⟨0, 0⟩ := by decide
    rw [hinit]
    simp only [OccupancyGrid.update, List.foldl_cons, List.foldl_nil,
      OccupancyGrid.integratePoint, hrobot, hhit, hline]
    decide

/-- C20. Final-cell rule: take a well-formed grid, a robot position whose cell is inside
the grid and one hit point whose cell is inside the grid. The line iterator is then not
clipped and its last position is the cell of the hit. After `update` with that point, this
cell is Occupied when the squared distance between the hit point and the robot position is
below 9604, that is when their distance is strictly below 98; when the distance is 98 or
more the cell has the value it had before. -/
theorem final_cell_rule (clipped : Nat → Nat → Point → Point → List Point)
    (g : OccupancyGrid) (robotPos point : Point) (hwf : g.WellFormed)
    (hrobot : g.outside (robotPos.div g.cellSize) = false)
    (hhit : g.outside (point.div g.cellSize) = false) :
    (lineIterator clipped g.gridW g.gridH (robotPos.div g.cellSize)
      (point.div g.cellSize)).getLast? = some (point.div g.cellSize) ∧
    ((point.sub robotPos).normSq < 9604 →
      (g.update (lineIterator clipped) [point] robotPos).at_
        (point.div g.cellSize).x.toNat (point.div g.cellSize).y.toNat = OCCUPIED) ∧
    (9604 ≤ (point.sub robotPos).normSq →
      (g.update (lineIterator clipped) [point] robotPos).at_
        (point.div g.cellSize).x.toNat (point.div g.cellSize).y.toNat
        = g.at_ (point.div g.cellSize).x.toNat (point.div g.cellSize).y.toNat) := by
  have hline := OccupancyGrid.lineIterator_inside clipped g _ _ hrobot hhit
  obtain ⟨before, hcells, hnot, _⟩ :=
    LineIterator.cvLine_eq_append (robotPos.div g.cellSize) (point.div g.cellSize)
  have hupd : g.update (lineIterator clipped) [point] robotPos
      = OccupancyGrid.traceRay point robotPos (before ++ [point.div g.cellSize]).length g 0
          (before ++ [point.div g.cellSize]) := by
    simp only [OccupancyGrid.update, List.foldl_cons, List.foldl_nil,
      OccupancyGrid.integratePoint, hhit, Bool.false_eq_true, if_false, hline, hcells]
  rw [hupd, hline, hcells]
  exact ⟨by simp, OccupancyGrid.traceRay_last point robotPos before _ g hnot hhit hwf⟩

/-- Witness of C20: on a grid of 10x10 cells of size 1 the robot at (2, 3) gets the hit
point (7, 5), at a squared distance of 29: the cell (7, 5) becomes Occupied. -/
theorem final_cell_rule_witness :
    ((OccupancyGrid.init 10 10 1).update (lineIterator noClippedLine) [⟨7, 5⟩] ⟨2, 3⟩).at_ 7 5
      = OCCUPIED :=
  (final_cell_rule noClippedLine (OccupancyGrid.init 10 10 1) ⟨2, 3⟩ ⟨7, 5⟩ (by decide)
    (by decide) (by decide)).2.1 (by decide)

/-! ## Theorems: motion of the robot -/

theorem mem_intRange (lo hi x : Int) : x ∈ intRange lo hi ↔ lo ≤ x ∧ x ≤ hi := by
  unfold intRange
  simp only [List.mem_map, List.mem_range]
  constructor
  · rintro ⟨i, hi1, rfl⟩
    omega
  · rintro ⟨h1, h2⟩
    exact ⟨(x - lo).toNat, by omega, by omega⟩

theorem Robot.updateOrientation_fields (r : Robot) (dx dy : Int) :
    (r.updateOrientation dx dy).position = r.position ∧
    (r.updateOrientation dx dy).size = r.size ∧
    (r.updateOrientation dx dy).speed = r.speed := by
  unfold Robot.updateOrientation
  split_ifs <;> exact ⟨rfl, rfl, rfl⟩

namespace Simulation

/-- The test `checkCollision` only reads the size of the robot. -/
theorem checkCollision_congr (m : Map) (r1 r2 : Robot) (c : Point) (h : r1.size = r2.size) :
    checkCollision m r1 c = checkCollision m r2 c := by
  unfold checkCollision
  rw [h]

/-- No collision at `c` means that no pixel of the disc of the robot centred at `c` is an
obstacle of the map or outside the map. -/
theorem checkCollision_eq_false_iff (m : Map) (robot : Robot) (c : Point) :
    checkCollision m robot c = false ↔
      ∀ x y : Int, -(robot.size.tdiv 2) ≤ x → x ≤ robot.size.tdiv 2 →
        -(robot.size.tdiv 2) ≤ y → y ≤ robot.size.tdiv 2 →
        x * x + y * y ≤ robot.size.tdiv 2 * robot.size.tdiv 2 →
        m.isObstacle (c.x + x) (c.y + y) = false := by
  unfold checkCollision
  simp only [List.any_eq_false, mem_intRange, Bool.and_eq_true, decide_eq_true_eq, not_and,
    Bool.not_eq_true]
  constructor
  · intro h x y hx1 hx2 hy1 hy2 hd
    exact h y ⟨hy1, hy2⟩ x ⟨hx1, hx2⟩ hd
  · intro h y hy x hx hd
    exact h x y hx.1 hx.2 hy.1 hy.2 hd

theorem applyMotion_eq (m : Map) (robot : Robot) (dx dy : Int) :
    applyMotion m robot dx dy
      = if (dx ≠ 0 ∨ dy ≠ 0) ∧
          checkCollision m robot ⟨robot.position.x + dx, robot.position.y + dy⟩ = false
        then (robot.setPosition ⟨robot.position.x + dx, robot.position.y + dy⟩).updateOrientation
          dx dy
        else robot := by
  unfold applyMotion
  by_cases h1 : dx ≠ 0 ∨ dy ≠ 0
  · by_cases h2 : checkCollision m robot ⟨robot.position.x + dx, robot.position.y + dy⟩ = false
    · simp only [h1, h2, if_true, Bool.not_false, and_self]
    · have h3 : checkCollision m robot ⟨robot.position.x + dx, robot.position.y + dy⟩ = true := by
        simpa using h2
      simp [h1, h3]
  · simp only [h1, if_false, false_and]

theorem applyMotion_size (m : Map) (robot : Robot) (dx dy : Int) :
    (applyMotion m robot dx dy).size = robot.size := by
  rw [applyMotion_eq]
  split_ifs
  · exact (Robot.updateOrientation_fields _ dx dy).2.1
  · rfl

/-- One motion step keeps the robot free of collision. -/
theorem applyMotion_safe (m : Map) (robot : Robot) (dx dy : Int)
    (h : checkCollision m robot robot.position = false) :
    checkCollision m (applyMotion m robot dx dy) (applyMotion m robot dx dy).position
      = false := by
  rw [checkCollision_congr m _ robot _ (applyMotion_size m robot dx dy), applyMotion_eq]
  split_ifs with h1
  · rw [(Robot.updateOrientation_fields _ dx dy).1]
    exact h1.2
  · exact h

theorem runMotion_size (m : Map) (proposals : List (Int × Int)) :
    ∀ robot : Robot, (runMotion m robot proposals).size = robot.size := by
  induction proposals with
  | nil => intro robot; rfl
  | cons p rest ih =>
      intro robot
      show (runMotion m (applyMotion m robot p.1 p.2) rest).size = robot.size
      rw [ih, applyMotion_size]

theorem runMotion_safe (m : Map) (proposals : List (Int × Int)) :
    ∀ robot : Robot, checkCollision m robot robot.position = false →
      checkCollision m (runMotion m robot proposals) (runMotion m robot proposals).position
        = false := by
  induction proposals with
  | nil => intro robot h; exact h
  | cons p rest ih =>
      intro robot h
      exact ih _ (applyMotion_safe m robot p.1 p.2 h)

/-- C17. Motion arbitration: with a proposal `(dx, dy)` that is not zero, when
`checkCollision` is false at `position + (dx, dy)` the robot is moved there and its
orientation is updated from `(dx, dy)`; when it is true the robot is unchanged; so the
position becomes `position + (dx, dy)` exactly when there is no collision. Hence, from a
position where `checkCollision` is false, after any sequence of ticks with any proposals
`checkCollision` is false at the position of the robot: no pixel of its disc is an
obstacle or outside the map. -/
theorem motion_arbitration (m : Map) (robot : Robot) (dx dy : Int) (hmove : dx ≠ 0 ∨ dy ≠ 0) :
    (checkCollision m robot ⟨robot.position.x + dx, robot.position.y + dy⟩ = false →
      applyMotion m robot dx dy
        = (robot.setPosition ⟨robot.position.x + dx, robot.position.y + dy⟩).updateOrientation
            dx dy) ∧
    (checkCollision m robot ⟨robot.position.x + dx, robot.position.y + dy⟩ = true →
      applyMotion m robot dx dy = robot) ∧
    ((applyMotion m robot dx dy).position = ⟨robot.position.x + dx, robot.position.y + dy⟩ ↔
      checkCollision m robot ⟨robot.position.x + dx, robot.position.y + dy⟩ = false) ∧
    (checkCollision m robot robot.position = false →
      ∀ proposals : List (Int × Int),
        checkCollision m (runMotion m robot proposals) (runMotion m robot proposals).position
          = false ∧
        ∀ x y : Int, -(robot.size.tdiv 2) ≤ x → x ≤ robot.size.tdiv 2 →
          -(robot.size.tdiv 2) ≤ y → y ≤ robot.size.tdiv 2 →
          x * x + y * y ≤ robot.size.tdiv 2 * robot.size.tdiv 2 →
          m.isObstacle ((runMotion m robot proposals).position.x + x)
            ((runMotion m robot proposals).position.y + y) = false) := by
  have hfree : checkCollision m robot ⟨robot.position.x + dx, robot.position.y + dy⟩ = false →
      applyMotion m robot dx dy
        = (robot.setPosition ⟨robot.position.x + dx, robot.position.y + dy⟩).updateOrientation
            dx dy := by
    intro h
    rw [applyMotion_eq, if_pos ⟨hmove, h⟩]
  have hblocked : checkCollision m robot ⟨robot.position.x + dx, robot.position.y + dy⟩ = true →
      applyMotion m robot dx dy = robot := by
    intro h
    rw [applyMotion_eq, if_neg (by simp [h])]
  refine ⟨hfree, hblocked, ⟨fun hpos => ?_, fun h => ?_⟩, fun hstart proposals => ?_⟩
  · by_contra hcol
    rw [hblocked (by simpa using hcol)] at hpos
    have hx := congrArg Point.x hpos
    have hy := congrArg Point.y hpos
    simp only at hx hy
    omega
  · rw [hfree h, (Robot.updateOrientation_fields _ dx dy).1]
    rfl
  · have hsafe := runMotion_safe m proposals robot hstart
    refine ⟨hsafe, ?_⟩
    have hsize := runMotion_size m proposals robot
    have hall := (checkCollision_eq_false_iff m _ _).mp hsafe
    rw [hsize] at hall
    exact hall

/-- Witness of C17: a robot of size 11 at (23, 20) on a map with a wall at x = 30. A move
of 1 to the right is applied, a further move of 1 would bring the disc onto the wall and is
rejected, and the robot is free of collision after both ticks. -/
theorem motion_arbitration_witness :
    applyMotion wallMap ⟨⟨23, 20⟩, 11, 1, .down⟩ 1 0 = ⟨⟨24, 20⟩, 11, 1, .right⟩ ∧
    applyMotion wallMap ⟨⟨24, 20⟩, 11, 1, .right⟩ 1 0 = ⟨⟨24, 20⟩, 11, 1, .right⟩ ∧
    checkCollision wallMap (runMotion wallMap ⟨⟨23, 20⟩, 11, 1, .down⟩ [(1, 0), (1, 0)])
      (runMotion wallMap ⟨⟨23, 20⟩, 11, 1, .down⟩ [(1, 0), (1, 0)]).position = false :=
  ⟨(motion_arbitration wallMap ⟨⟨23, 20⟩, 11, 1, .down⟩ 1 0 (Or.inl (by decide))).1 (by decide),
    (motion_arbitration wallMap ⟨⟨24, 20⟩, 11, 1, .right⟩ 1 0 (Or.inl (by decide))).2.1
      (by decide),
    ((motion_arbitration wallMap ⟨⟨23, 20⟩, 11, 1, .down⟩ 1 0 (Or.inl (by decide))).2.2.2
      (by decide) [(1, 0), (1, 0)]).1⟩

end Simulation

/-! ## Theorems: the steps of the ray -/

namespace Lidar

/-- While the guard holds, `k` iterations of the loop are `k` applications of
`iteration`. -/
theorem ddaLoop_iterate (m : Map) (d : RayDir) : ∀ (k fuel : Nat) (s : Ray),
    (∀ j, j < k → Running ((iteration m d)^[j] s)) →
    ddaLoop m d (fuel + k) s = ddaLoop m d fuel ((iteration m d)^[k] s) := by
  intro k
  induction k with
  | zero => intro fuel s _; rfl
  | succ n ih =>
      intro fuel s hrun
      have h0 := hrun 0 (Nat.succ_pos n)
      simp only [Function.iterate_zero, id_eq] at h0
      have hguard : (!s.hit && decide (s.distance < max_range)) = true := by
        simp [h0.1, h0.2]
      rw [show fuel + (n + 1) = (fuel + n) + 1 by omega]
      conv_lhs => unfold ddaLoop
      rw [if_pos hguard]
      simp only
      rw [Function.iterate_succ_apply]
      apply ih
      intro j hj
      have := hrun (j + 1) (by omega)
      rwa [Function.iterate_succ_apply] at this

/-! ### The step in double precision -/

namespace Rounded

theorem rounded_advance_id (d : RayDir) (s : Ray) : advance (fun q => q) d s = Lidar.advance d s := rfl

theorem rounded_rayDir_id (rayDirX rayDirY : ℚ) :
    rayDir (fun q => q) rayDirX rayDirY = Lidar.rayDir rayDirX rayDirY := rfl

theorem rounded_rayStart_id (robotPos : Point) (rayDirX rayDirY : ℚ) :
    rayStart (fun q => q) robotPos rayDirX rayDirY = Lidar.rayStart robotPos rayDirX rayDirY :=
  rfl

theorem rounded_ddaLoop_id (m : Map) (d : RayDir) : ∀ (fuel : Nat) (s : Ray),
    ddaLoop (fun q => q) m d fuel s = Lidar.ddaLoop m d fuel s := by
  intro fuel
  induction fuel with
  | zero => intro s; unfold ddaLoop Lidar.ddaLoop; rfl
  | succ n ih =>
      intro s
      unfold ddaLoop Lidar.ddaLoop
      split_ifs
      · exact ih _
      · rfl

theorem rounded_read_id (m : Map) (robotPos : Point) (rayDirX rayDirY : ℚ) (fuel : Nat) :
    read (fun q => q) m robotPos rayDirX rayDirY fuel
      = Lidar.read m robotPos rayDirX rayDirY fuel := by
  unfold read Lidar.read
  rw [rounded_ddaLoop_id, rounded_rayDir_id, rounded_rayStart_id]

theorem rounded_ddaLoop_of_hit (fl : ℚ → ℚ) (m : Map) (d : RayDir) (fuel : Nat) (s : Ray)
    (h : s.hit = true) : ddaLoop fl m d fuel s = some s := by
  cases fuel <;> simp [ddaLoop, h]

/-- While the guard holds, `k` iterations of the loop are `k` applications of
`iteration`. -/
theorem rounded_ddaLoop_iterate (fl : ℚ → ℚ) (m : Map) (d : RayDir) : ∀ (k fuel : Nat) (s : Ray),
    (∀ j, j < k → Running ((iteration fl m d)^[j] s)) →
    ddaLoop fl m d (fuel + k) s = ddaLoop fl m d fuel ((iteration fl m d)^[k] s) := by
  intro k
  induction k with
  | zero => intro fuel s _; rfl
  | succ n ih =>
      intro fuel s hrun
      have h0 := hrun 0 (Nat.succ_pos n)
      simp only [Function.iterate_zero, id_eq] at h0
      have hguard : (!s.hit && decide (s.distance < max_range)) = true := by
        simp [h0.1, h0.2]
      rw [show fuel + (n + 1) = (fuel + n) + 1 by omega]
      conv_lhs => unfold ddaLoop
      rw [if_pos hguard]
      simp only
      rw [Function.iterate_succ_apply]
      apply ih
      intro j hj
      have := hrun (j + 1) (by omega)
      rwa [Function.iterate_succ_apply] at this

/-- An iteration that enters a wall inside the map ends the loop with the distance of the
step. -/
theorem rounded_ddaLoop_hit (fl : ℚ → ℚ) (m : Map) (d : RayDir) (fuel : Nat) (s : Ray)
    (hrun : Running s) (hin : inMap m (advance fl d s).mapX (advance fl d s).mapY)
    (hwall : m.isObstacle (advance fl d s).mapX (advance fl d s).mapY = true) :
    ddaLoop fl m d (fuel + 1) s = some { advance fl d s with hit := true } := by
  have hguard : (!s.hit && decide (s.distance < max_range)) = true := by
    simp [hrun.1, hrun.2]
  unfold ddaLoop
  rw [if_pos hguard]
  simp only
  have hin2 : (advance fl d s).mapX ≥ 0 ∧ (advance fl d s).mapX < m.width ∧
      (advance fl d s).mapY ≥ 0 ∧ (advance fl d s).mapY < m.height := hin
  have hcell : checkCell m (advance fl d s) = { advance fl d s with hit := true } := by
    unfold checkCell
    rw [if_pos hin2, if_pos hwall]
  rw [hcell]
  exact rounded_ddaLoop_of_hit fl m d fuel _ rfl

/-- The step of the traversal on the X axis. -/
theorem rounded_advance_of_lt (fl : ℚ → ℚ) (d : RayDir) (s : Ray) (h : s.sideDistX < s.sideDistY) :
    advance fl d s = { s with
      sideDistX := fl (s.sideDistX + d.deltaDistX)
      mapX := s.mapX + d.stepX
      distance := fl (fl (s.sideDistX + d.deltaDistX) - d.deltaDistX) } := by
  unfold advance
  rw [if_pos h]

/-- The step of the traversal on the Y axis, taken also on a tie. -/
theorem rounded_advance_of_le (fl : ℚ → ℚ) (d : RayDir) (s : Ray) (h : s.sideDistY ≤ s.sideDistX) :
    advance fl d s = { s with
      sideDistY := fl (s.sideDistY + d.deltaDistY)
      mapY := s.mapY + d.stepY
      distance := fl (fl (s.sideDistY + d.deltaDistY) - d.deltaDistY) } := by
  unfold advance
  rw [if_neg (not_lt.mpr h)]

/-- The distance of a step is the accumulator before its increment when the increment is
exact and the accumulator is a double. -/
theorem rounded_advance_distance_of_exact (fl : ℚ → ℚ) (d : RayDir) (s : Ray) :
    (s.sideDistX < s.sideDistY → fl (s.sideDistX + d.deltaDistX) = s.sideDistX + d.deltaDistX →
      fl s.sideDistX = s.sideDistX →
      (advance fl d s).distance = min s.sideDistX s.sideDistY) ∧
    (s.sideDistY ≤ s.sideDistX → fl (s.sideDistY + d.deltaDistY) = s.sideDistY + d.deltaDistY →
      fl s.sideDistY = s.sideDistY →
      (advance fl d s).distance = min s.sideDistX s.sideDistY) := by
  constructor
  · intro h hsum hacc
    rw [rounded_advance_of_lt fl d s h, min_eq_left (le_of_lt h)]
    simp only
    rw [hsum, add_sub_cancel_right, hacc]
  · intro h hsum hacc
    rw [rounded_advance_of_le fl d s h, min_eq_right h]
    simp only
    rw [hsum, add_sub_cancel_right, hacc]

theorem rounded_rayDir_steps (fl : ℚ → ℚ) (rayDirX rayDirY : ℚ) :
    ((rayDir fl rayDirX rayDirY).stepX = 1 ∨ (rayDir fl rayDirX rayDirY).stepX = -1) ∧
    ((rayDir fl rayDirX rayDirY).stepY = 1 ∨ (rayDir fl rayDirX rayDirY).stepY = -1) := by
  unfold rayDir
  simp only
  constructor <;> split_ifs <;> simp

end Rounded

/-- C18 (counterexample). In double precision the distance of a step is not always the
accumulator before its increment. On the map of 200x200 pixels whose only wall is the pixel
(22, 22), the ray at 45 degrees from (20, 20) enters (21, 20), (21, 21) and (22, 21); the
guard then holds and the accumulators are `sideDistX = 4.24...` and
`sideDistY = 6369051672525773 * 2^-51`, the smaller one. The fourth iteration advances the Y
axis into the wall (22, 22): the sum `sideDistY + deltaDistY` is rounded up, the difference
is a tie that rounds to even, and the distance recorded, which `read` returns, is
`6369051672525774 * 2^-51`, one unit in the last place above the accumulator. -/
theorem dda_distance_not_accumulator :
    ((Rounded.iteration roundDouble diagonalWallMap (Rounded.rayDir roundDouble cos45 sin45))^[3]
      (Rounded.rayStart roundDouble ⟨20, 20⟩ cos45 sin45)).mapX = 22 ∧
    ((Rounded.iteration roundDouble diagonalWallMap (Rounded.rayDir roundDouble cos45 sin45))^[3]
      (Rounded.rayStart roundDouble ⟨20, 20⟩ cos45 sin45)).mapY = 21 ∧
    Running ((Rounded.iteration roundDouble diagonalWallMap
      (Rounded.rayDir roundDouble cos45 sin45))^[3]
      (Rounded.rayStart roundDouble ⟨20, 20⟩ cos45 sin45)) ∧
    min
      ((Rounded.iteration roundDouble diagonalWallMap
        (Rounded.rayDir roundDouble cos45 sin45))^[3]
        (Rounded.rayStart roundDouble ⟨20, 20⟩ cos45 sin45)).sideDistX
      ((Rounded.iteration roundDouble diagonalWallMap
        (Rounded.rayDir roundDouble cos45 sin45))^[3]
        (Rounded.rayStart roundDouble ⟨20, 20⟩ cos45 sin45)).sideDistY
      = 6369051672525773 / 2 ^ 51 ∧
    (Rounded.advance roundDouble (Rounded.rayDir roundDouble cos45 sin45)
      ((Rounded.iteration roundDouble diagonalWallMap
        (Rounded.rayDir roundDouble cos45 sin45))^[3]
        (Rounded.rayStart roundDouble ⟨20, 20⟩ cos45 sin45))).mapX = 22 ∧
    (Rounded.advance roundDouble (Rounded.rayDir roundDouble cos45 sin45)
      ((Rounded.iteration roundDouble diagonalWallMap
        (Rounded.rayDir roundDouble cos45 sin45))^[3]
        (Rounded.rayStart roundDouble ⟨20, 20⟩ cos45 sin45))).mapY = 22 ∧
    diagonalWallMap.isObstacle 22 22 = true ∧
    (Rounded.advance roundDouble (Rounded.rayDir roundDouble cos45 sin45)
      ((Rounded.iteration roundDouble diagonalWallMap
        (Rounded.rayDir roundDouble cos45 sin45))^[3]
        (Rounded.rayStart roundDouble ⟨20, 20⟩ cos45 sin45))).distance
      = 6369051672525774 / 2 ^ 51 ∧
    Rounded.read roundDouble diagonalWallMap ⟨20, 20⟩ cos45 sin45 4
      = some (6369051672525774 / 2 ^ 51) ∧
    (6369051672525774 / 2 ^ 51 : ℚ) ≠ 6369051672525773 / 2 ^ 51 := by
  refine ⟨by decide!, by decide!, by decide!, by decide!, by decide!, by decide!, by decide!,
    by decide!, by decide!, by decide!⟩

/-- C18, amended. The step of the DDA with the rounding `fl` of every floating-point
operation, for every `fl`. The steps of a ray are +1 or -1 on each axis. An iteration of the
loop of `read` from any state `s` advances the X axis when `sideDistX < sideDistY` and the Y
axis otherwise (so on a tie): only the accumulator and the cell coordinate of that axis
change, the coordinate by the step of the axis, and the distance recorded is the rounded
difference between the incremented accumulator and the increment. That distance is the value
the accumulator had before its increment, the minimum of `sideDistX` and `sideDistY`, when
the increment is exact and the accumulator is unchanged by rounding, so always in exact
arithmetic. The test of the cell changes neither the cell nor the accumulators. When
iteration `k + 1` of `read` runs and enters a wall inside the map, `read` returns the
distance recorded by that step. -/
theorem dda_step (fl : ℚ → ℚ) (m : Map) (robotPos : Point) (rayDirX rayDirY : ℚ) (s : Ray)
    (k fuel : Nat) :
    ((Rounded.rayDir fl rayDirX rayDirY).stepX = 1 ∨
      (Rounded.rayDir fl rayDirX rayDirY).stepX = -1) ∧
    ((Rounded.rayDir fl rayDirX rayDirY).stepY = 1 ∨
      (Rounded.rayDir fl rayDirX rayDirY).stepY = -1) ∧
    (s.sideDistX < s.sideDistY →
      Rounded.advance fl (Rounded.rayDir fl rayDirX rayDirY) s = { s with
        sideDistX := fl (s.sideDistX + (Rounded.rayDir fl rayDirX rayDirY).deltaDistX)
        mapX := s.mapX + (Rounded.rayDir fl rayDirX rayDirY).stepX
        distance := fl (fl (s.sideDistX + (Rounded.rayDir fl rayDirX rayDirY).deltaDistX)
          - (Rounded.rayDir fl rayDirX rayDirY).deltaDistX) }) ∧
    (s.sideDistY ≤ s.sideDistX →
      Rounded.advance fl (Rounded.rayDir fl rayDirX rayDirY) s = { s with
        sideDistY := fl (s.sideDistY + (Rounded.rayDir fl rayDirX rayDirY).deltaDistY)
        mapY := s.mapY + (Rounded.rayDir fl rayDirX rayDirY).stepY
        distance := fl (fl (s.sideDistY + (Rounded.rayDir fl rayDirX rayDirY).deltaDistY)
          - (Rounded.rayDir fl rayDirX rayDirY).deltaDistY) }) ∧
    (s.sideDistX < s.sideDistY →
      fl (s.sideDistX + (Rounded.rayDir fl rayDirX rayDirY).deltaDistX)
        = s.sideDistX + (Rounded.rayDir fl rayDirX rayDirY).deltaDistX →
      fl s.sideDistX = s.sideDistX →
      (Rounded.advance fl (Rounded.rayDir fl rayDirX rayDirY) s).distance
        = min s.sideDistX s.sideDistY) ∧
    (s.sideDistY ≤ s.sideDistX →
      fl (s.sideDistY + (Rounded.rayDir fl rayDirX rayDirY).deltaDistY)
        = s.sideDistY + (Rounded.rayDir fl rayDirX rayDirY).deltaDistY →
      fl s.sideDistY = s.sideDistY →
      (Rounded.advance fl (Rounded.rayDir fl rayDirX rayDirY) s).distance
        = min s.sideDistX s.sideDistY) ∧
    (Rounded.advance (fun q => q) (Rounded.rayDir (fun q => q) rayDirX rayDirY) s
        = advance (rayDir rayDirX rayDirY) s ∧
      (advance (rayDir rayDirX rayDirY) s).distance = min s.sideDistX s.sideDistY ∧
      Rounded.read (fun q => q) m robotPos rayDirX rayDirY fuel
        = read m robotPos rayDirX rayDirY fuel) ∧
    ((Rounded.iteration fl m (Rounded.rayDir fl rayDirX rayDirY) s).mapX
        = (Rounded.advance fl (Rounded.rayDir fl rayDirX rayDirY) s).mapX ∧
      (Rounded.iteration fl m (Rounded.rayDir fl rayDirX rayDirY) s).mapY
        = (Rounded.advance fl (Rounded.rayDir fl rayDirX rayDirY) s).mapY ∧
      (Rounded.iteration fl m (Rounded.rayDir fl rayDirX rayDirY) s).sideDistX
        = (Rounded.advance fl (Rounded.rayDir fl rayDirX rayDirY) s).sideDistX ∧
      (Rounded.iteration fl m (Rounded.rayDir fl rayDirX rayDirY) s).sideDistY
        = (Rounded.advance fl (Rounded.rayDir fl rayDirX rayDirY) s).sideDistY) ∧
    ((∀ j, j ≤ k →
        Running ((Rounded.iteration fl m (Rounded.rayDir fl rayDirX rayDirY))^[j]
          (Rounded.rayStart fl robotPos rayDirX rayDirY))) →
      inMap m
        (Rounded.advance fl (Rounded.rayDir fl rayDirX rayDirY)
          ((Rounded.iteration fl m (Rounded.rayDir fl rayDirX rayDirY))^[k]
            (Rounded.rayStart fl robotPos rayDirX rayDirY))).mapX
        (Rounded.advance fl (Rounded.rayDir fl rayDirX rayDirY)
          ((Rounded.iteration fl m (Rounded.rayDir fl rayDirX rayDirY))^[k]
            (Rounded.rayStart fl robotPos rayDirX rayDirY))).mapY →
      m.isObstacle
        (Rounded.advance fl (Rounded.rayDir fl rayDirX rayDirY)
          ((Rounded.iteration fl m (Rounded.rayDir fl rayDirX rayDirY))^[k]
            (Rounded.rayStart fl robotPos rayDirX rayDirY))).mapX
        (Rounded.advance fl (Rounded.rayDir fl rayDirX rayDirY)
          ((Rounded.iteration fl m (Rounded.rayDir fl rayDirX rayDirY))^[k]
            (Rounded.rayStart fl robotPos rayDirX rayDirY))).mapY
        = true →
      Rounded.read fl m robotPos rayDirX rayDirY (fuel + k + 1)
        = some (Rounded.advance fl (Rounded.rayDir fl rayDirX rayDirY)
            ((Rounded.iteration fl m (Rounded.rayDir fl rayDirX rayDirY))^[k]
              (Rounded.rayStart fl robotPos rayDirX rayDirY))).distance) := by
  have hexact := (Rounded.rounded_advance_distance_of_exact (fun q => q)
    (Rounded.rayDir (fun q => q) rayDirX rayDirY) s)
  refine ⟨(Rounded.rounded_rayDir_steps fl rayDirX rayDirY).1,
    (Rounded.rounded_rayDir_steps fl rayDirX rayDirY).2,
    Rounded.rounded_advance_of_lt fl _ s, Rounded.rounded_advance_of_le fl _ s,
    (Rounded.rounded_advance_distance_of_exact fl _ s).1,
    (Rounded.rounded_advance_distance_of_exact fl _ s).2, ⟨rfl, ?_, ?_⟩, ?_, ?_⟩
  · rcases lt_or_le s.sideDistX s.sideDistY with h | h
    · exact hexact.1 h rfl rfl
    · exact hexact.2 h rfl rfl
  · exact Rounded.rounded_read_id m robotPos rayDirX rayDirY fuel
  · unfold Rounded.iteration checkCell
    split_ifs <;> exact ⟨rfl, rfl, rfl, rfl⟩
  · intro hrun hin hwall
    unfold Rounded.read
    rw [show fuel + k + 1 = (fuel + 1) + k by omega,
      Rounded.rounded_ddaLoop_iterate fl m _ k (fuel + 1) _ (fun j hj => hrun j (le_of_lt hj)),
      Rounded.rounded_ddaLoop_hit fl m _ fuel _ (hrun k (le_refl k)) hin hwall]
    simp only [Option.map_some', if_true]

/-- Witness of C18, amended. With exact arithmetic, on the map whose only wall is the pixel
(91, 90), the ray cast straight ahead from (88, 90) enters the wall in its third iteration
and `read` returns 3, the smaller of the accumulators 3 and 10^30. In double precision, on
the map whose only wall is the pixel (22, 22), the ray at 45 degrees from (20, 20) enters
the wall in its fourth iteration and `read` returns the distance recorded by that step. -/
theorem dda_step_witness :
    Rounded.read (fun q => q) oneWallMap ⟨88, 90⟩ 1 0 3 = some 3 ∧
    Rounded.read roundDouble diagonalWallMap ⟨20, 20⟩ cos45 sin45 4
      = some (6369051672525774 / 2 ^ 51) := by
  have h1 := (dda_step (fun q => q) oneWallMap ⟨88, 90⟩ 1 0
    (Rounded.rayStart (fun q => q) ⟨88, 90⟩ 1 0) 2 0).2.2.2.2.2.2.2.2
    (by decide!) (by decide!) (by decide!)
  have h2 := (dda_step roundDouble diagonalWallMap ⟨20, 20⟩ cos45 sin45
    (Rounded.rayStart roundDouble ⟨20, 20⟩ cos45 sin45) 3 0).2.2.2.2.2.2.2.2
    (by decide!) (by decide!) (by decide!)
  have d1 : (Rounded.advance (fun q => q) (Rounded.rayDir (fun q => q) 1 0)
      ((Rounded.iteration (fun q => q) oneWallMap (Rounded.rayDir (fun q => q) 1 0))^[2]
        (Rounded.rayStart (fun q => q) ⟨88, 90⟩ 1 0))).distance = 3 := by decide!
  have d2 : (Rounded.advance roundDouble (Rounded.rayDir roundDouble cos45 sin45)
      ((Rounded.iteration roundDouble diagonalWallMap
        (Rounded.rayDir roundDouble cos45 sin45))^[3]
        (Rounded.rayStart roundDouble ⟨20, 20⟩ cos45 sin45))).distance
      = 6369051672525774 / 2 ^ 51 := by decide!
  rw [d1] at h1
  rw [d2] at h2
  exact ⟨h1, h2⟩

end Lidar

/-! ## Theorems: a ray that leaves the map -/

namespace Lidar

/-- If the traversal from `s` enters `k` free cells and then a cell outside the map, the
loop ends in a state for which `read` returns `max_range`: either the range ran out on the
way, without a hit, or the ray left the map and its distance was set to `max_range`. -/
theorem ddaLoop_exit (m : Map) (d : RayDir) : ∀ (k fuel : Nat) (s r : Ray), s.hit = false →
    (∀ j, j < k →
      m.isObstacle ((advance d)^[j + 1] s).mapX ((advance d)^[j + 1] s).mapY = false) →
    ¬inMap m ((advance d)^[k + 1] s).mapX ((advance d)^[k + 1] s).mapY →
    ddaLoop m d fuel s = some r →
    (if r.hit then r.distance else max_range) = max_range := by
  intro k
  induction k with
  | zero =>
      intro fuel s r hs _ hexit hr
      unfold ddaLoop at hr
      split_ifs at hr with hguard
      · cases fuel with
        | zero => simp at hr
        | succ n =>
            simp only at hr
            simp only [Function.iterate_succ, Function.iterate_zero, Function.comp_apply,
              id_eq] at hexit
            have hexit2 : ¬((advance d s).mapX ≥ 0 ∧ (advance d s).mapX < m.width ∧
                (advance d s).mapY ≥ 0 ∧ (advance d s).mapY < m.height) := hexit
            have hcell : checkCell m (advance d s)
                = { advance d s with hit := true, distance := max_range } := by
              unfold checkCell
              rw [if_neg hexit2]
            rw [hcell, ddaLoop_of_hit m d n _ rfl] at hr
            simp only [Option.some.injEq] at hr
            rw [← hr]
            rfl
      · simp only [Option.some.injEq] at hr
        rw [← hr, hs]
        rfl
  | succ k ih =>
      intro fuel s r hs hfree hexit hr
      unfold ddaLoop at hr
      split_ifs at hr with hguard
      · cases fuel with
        | zero => simp at hr
        | succ n =>
            simp only at hr
            have h0 := hfree 0 (Nat.succ_pos k)
            simp only [Function.iterate_succ, Function.iterate_zero, Function.comp_apply,
              id_eq, Nat.zero_add] at h0
            rw [checkCell_of_free m _ h0] at hr
            refine ih n (advance d s) r ?_ ?_ ?_ hr
            · rw [advance_hit]; exact hs
            · intro j hj
              have := hfree (j + 1) (by omega)
              rwa [Function.iterate_succ_apply] at this
            · rwa [Function.iterate_succ_apply] at hexit
      · simp only [Option.some.injEq] at hr
        rw [← hr, hs]
        rfl

/-- C19. For every robot position and every ray direction: if the first cell entered by
the traversal that is an obstacle or lies outside the map lies outside the map (the `k`
cells entered before it are free cells of the map), then `read` returns exactly
`max_range`, whatever fuel it is given beyond a bound and whatever distance the ray had
covered when it left the map. -/
theorem read_eq_max_range_of_exit (m : Map) (robotPos : Point) (rayDirX rayDirY : ℚ) (k : Nat)
    (hfree : ∀ j, j < k →
      m.isObstacle
        ((advance (rayDir rayDirX rayDirY))^[j + 1] (rayStart robotPos rayDirX rayDirY)).mapX
        ((advance (rayDir rayDirX rayDirY))^[j + 1] (rayStart robotPos rayDirX rayDirY)).mapY
        = false)
    (hexit : ¬inMap m
      ((advance (rayDir rayDirX rayDirY))^[k + 1] (rayStart robotPos rayDirX rayDirY)).mapX
      ((advance (rayDir rayDirX rayDirY))^[k + 1] (rayStart robotPos rayDirX rayDirY)).mapY) :
    ∃ n, ∀ fuel, n ≤ fuel → read m robotPos rayDirX rayDirY fuel = some max_range := by
  refine ⟨cellsToEdge m (rayDir rayDirX rayDirY) (rayStart robotPos rayDirX rayDirY) + 1, ?_⟩
  intro fuel hfuel
  obtain ⟨r, hr⟩ := ddaLoop_terminates m _ (rayDir_stepX rayDirX rayDirY)
    (rayDir_stepY rayDirX rayDirY) fuel (rayStart robotPos rayDirX rayDirY) (by omega)
  have hres := ddaLoop_exit m _ k fuel _ r rfl hfree hexit hr
  simp only [read, hr, Option.map_some']
  rw [hres]

/-- Witness of C19: on the map without walls of 300x300 pixels the ray cast to the left
from (3, 150) enters the cells (2, 150), (1, 150) and (0, 150), then leaves the map at the
distance 3, and `read` returns 100. -/
theorem read_eq_max_range_of_exit_witness :
    ((advance (rayDir (-1) 0))^[4] (rayStart ⟨3, 150⟩ (-1) 0)).distance = 3 ∧
    (∃ n, ∀ fuel, n ≤ fuel → read whiteMap ⟨3, 150⟩ (-1) 0 fuel = some max_range) ∧
    read whiteMap ⟨3, 150⟩ (-1) 0 4 = some 100 :=
  ⟨by decide!,
    read_eq_max_range_of_exit whiteMap ⟨3, 150⟩ (-1) 0 3 (by decide!) (by decide!),
    by decide!⟩

end Lidar

/-! ## Further instances -/

/-- A hit point whose cell, computed by `update` with the truncating division, is outside
the grid leaves the grid as it was. -/
theorem OccupancyGrid.update_skips_outside_hit
    (lineIt : Nat → Nat → Point → Point → List Point) (g : OccupancyGrid)
    (robotPos point : Point) (h : g.outside (point.div g.cellSize) = true) :
    g.update lineIt [point] robotPos = g := by
  simp [OccupancyGrid.update, OccupancyGrid.integratePoint, h]

/-- An instance of C16 in which smoothing adds an obstacle: on a grid of 3x1 cells whose
ends are Occupied and whose middle is Free, one closing fills the middle cell, the only
cell whose value changes. -/
theorem smoothGrid_only_adds_witness :
    (⟨1, 3, 1, [OCCUPIED, FREE, OCCUPIED]⟩ : OccupancyGrid).smoothGrid 1
      = ⟨1, 3, 1, [OCCUPIED, OCCUPIED, OCCUPIED]⟩ ∧
    ((⟨1, 3, 1, [OCCUPIED, FREE, OCCUPIED]⟩ : OccupancyGrid).smoothGrid 1).at_ 1 0 = OCCUPIED :=
  ⟨by decide,
    (OccupancyGrid.smoothGrid_only_adds ⟨1, 3, 1, [OCCUPIED, FREE, OCCUPIED]⟩ 1 1 0).2.1
      (by decide)⟩

/-! ## Theorems: the phases of the outer-corner machine -/

/-- C23. Clearing lasts exactly 5 ticks. A manager that follows a wall is in Normal, with
any counter; on each of 6 ticks the grid is not fully explored and the forward distance is
at least 7, and on the first tick the lateral distance (index 270) is strictly above 9.
Then the first tick moves straight and enters Clearing with `stepCounter` 0; each of the 5
following ticks, whatever its lateral distance, moves straight and adds 1 to
`stepCounter`; the phase is Clearing before each of them, so still after the 4th, and is
Turning after the 5th. -/
theorem clearing_lasts_five (ws : Nat → World) (keys : Nat → Int) (bm : BehaviorManager)
    (hf : bm.Following) (hs : bm.maneuverState = 0)
    (hclear : ∀ n, n < 6 → (ws n).Unexplored ∧ 7 ≤ (ws n).distances 180)
    (hlost : 9 < (ws 0).distances 270) :
    (tickOutcome ws keys bm 0).Straight (ws 0) ∧
    afterTicks ws keys bm 1 = followingIn 1 0 ∧
    (∀ n, 1 ≤ n → n ≤ 5 →
      (afterTicks ws keys bm n).maneuverState = 1 ∧
      (tickOutcome ws keys bm n).Straight (ws n) ∧
      (afterTicks ws keys bm (n + 1)).stepCounter = (afterTicks ws keys bm n).stepCounter + 1) ∧
    (afterTicks ws keys bm 5).maneuverState = 1 ∧
    (afterTicks ws keys bm 5).stepCounter = 4 ∧
    (afterTicks ws keys bm 6).maneuverState = 2 := by
  have hbm : bm = followingIn 0 bm.stepCounter := by
    have h := BehaviorManager.eq_followingIn bm hf
    rw [hs] at h
    exact h
  generalize bm.stepCounter = c0 at hbm
  subst hbm
  have step : ∀ n, afterTicks ws keys (followingIn 0 c0) (n + 1)
      = ((afterTicks ws keys (followingIn 0 c0) n).execute (ws n) (keys n)).bm := fun _ => rfl
  have h0 : (followingIn 0 c0).execute (ws 0) (keys 0)
      = ⟨followingIn 1 0, (ws 0).robot.speed * (ws 0).robot.orientation_angle.cos,
          (ws 0).robot.speed * (ws 0).robot.orientation_angle.sin, []⟩ :=
    BehaviorManager.execute_normal_lost c0 _ _ (hclear 0 (by omega)).1 (hclear 0 (by omega)).2
      hlost
  have h1 : afterTicks ws keys (followingIn 0 c0) 1 = followingIn 1 0 := by
    rw [step 0]
    show ((followingIn 0 c0).execute (ws 0) (keys 0)).bm = _
    rw [h0]
  have clearing : ∀ n c, n < 6 → afterTicks ws keys (followingIn 0 c0) n = followingIn 1 c →
      afterTicks ws keys (followingIn 0 c0) (n + 1)
        = followingIn (if c + 1 ≥ 5 then 2 else 1) (c + 1) ∧
      (tickOutcome ws keys (followingIn 0 c0) n).Straight (ws n) := by
    intro n c hn h
    unfold tickOutcome
    rw [step n, h, BehaviorManager.execute_clearing c _ _ (hclear n hn).1 (hclear n hn).2]
    exact ⟨rfl, rfl, rfl⟩
  have h2 := clearing 1 0 (by omega) h1
  have h3 := clearing 2 1 (by omega) h2.1
  have h4 := clearing 3 2 (by omega) h3.1
  have h5 := clearing 4 3 (by omega) h4.1
  have h6 := clearing 5 4 (by omega) h5.1
  refine ⟨?_, h1, ?_, by rw [h5.1]; rfl, by rw [h5.1]; rfl, by rw [h6.1]; rfl⟩
  · show ((followingIn 0 c0).execute (ws 0) (keys 0)).Straight (ws 0)
    rw [h0]
    exact ⟨rfl, rfl⟩
  · intro n hn1 hn5
    have hcases : n = 1 ∨ n = 2 ∨ n = 3 ∨ n = 4 ∨ n = 5 := by omega
    rcases hcases with h | h | h | h | h <;> subst h
    · exact ⟨by rw [h1]; rfl, h2.2, by rw [h2.1, h1]; rfl⟩
    · exact ⟨by rw [h2.1]; rfl, h3.2, by rw [h3.1, h2.1]; rfl⟩
    · exact ⟨by rw [h3.1]; rfl, h4.2, by rw [h4.1, h3.1]; rfl⟩
    · exact ⟨by rw [h4.1]; rfl, h5.2, by rw [h5.1, h4.1]; rfl⟩
    · exact ⟨by rw [h5.1]; rfl, h6.2, by rw [h6.1, h5.1]; rfl⟩

/-- Witness of C23: the scan reads 20 ahead on every tick, 12 to the right on the first
tick and 3 (a wall close by) afterwards; the manager starts in Normal with the counter 8
left by an earlier manoeuvre. -/
theorem clearing_lasts_five_witness :
    afterTicks (fun n => sampleWorld 20 (if n = 0 then 12 else 3) .up) (fun _ => 0)
      (followingIn 0 8) 1 = followingIn 1 0 ∧
    (afterTicks (fun n => sampleWorld 20 (if n = 0 then 12 else 3) .up) (fun _ => 0)
      (followingIn 0 8) 5).maneuverState = 1 ∧
    (afterTicks (fun n => sampleWorld 20 (if n = 0 then 12 else 3) .up) (fun _ => 0)
      (followingIn 0 8) 6).maneuverState = 2 :=
  have h := clearing_lasts_five (fun n => sampleWorld 20 (if n = 0 then 12 else 3) .up)
    (fun _ => 0) (followingIn 0 8) (by decide) rfl
    (by
      intro n hn
      have hcases : n = 0 ∨ n = 1 ∨ n = 2 ∨ n = 3 ∨ n = 4 ∨ n = 5 := by omega
      rcases hcases with h | h | h | h | h | h <;> subst h <;> decide!)
    (by decide!)
  ⟨h.2.1, h.2.2.2.1, h.2.2.2.2.2⟩

/-- C24. Turning takes exactly one tick. A manager that follows a wall is in Turning
(`maneuverState` 2), with any counter; the grid is not fully explored and the forward
distance is at least 7. Whatever the lateral distance, `execute` returns the right turn
`speed * (-sin h, cos h)` for the heading `h` of the robot and leaves the manager in
Stabilizing (`maneuverState` 3) with `stepCounter` 0. -/
theorem turning_takes_one_tick (bm : BehaviorManager) (w : World) (key : Int)
    (hf : bm.Following) (hs : bm.maneuverState = 2) (hu : w.Unexplored)
    (hfront : 7 ≤ w.distances 180) :
    (bm.execute w key).dx = w.robot.speed * -w.robot.orientation_angle.sin ∧
    (bm.execute w key).dy = w.robot.speed * w.robot.orientation_angle.cos ∧
    (bm.execute w key).bm = followingIn 3 0 ∧
    (bm.execute w key).bm.maneuverState = 3 ∧ (bm.execute w key).bm.stepCounter = 0 := by
  rw [BehaviorManager.eq_followingIn bm hf, hs,
    BehaviorManager.execute_turning _ w key hu hfront]
  refine ⟨?_, rfl, rfl, rfl, rfl⟩
  simp

/-- Witness of C24: a robot of speed 1 heading right turns right, that is down the image:
the displacement is (0, 1). -/
theorem turning_takes_one_tick_witness :
    (followingIn 2 5).execute (sampleWorld 20 20 .right) 0 = ⟨followingIn 3 0, 0, 1, []⟩ := by
  have h := turning_takes_one_tick (followingIn 2 5) (sampleWorld 20 20 .right) 0
    (by decide) rfl (by decide!) (by decide!)
  have hout : ((followingIn 2 5).execute (sampleWorld 20 20 .right) 0).out = [] := by decide!
  cases hex : (followingIn 2 5).execute (sampleWorld 20 20 .right) 0 with
  | mk b x y o =>
      rw [hex] at h hout
      simp only at h hout
      rw [h.1, h.2.1, h.2.2.1, hout]
      rfl

/-- C25. Stabilizing lasts exactly 8 ticks. A manager that follows a wall is in
Stabilizing with `stepCounter` 0; on each of 8 ticks the grid is not fully explored and the
forward distance is at least 7, whatever the lateral distance. Then every tick returns the
straight move `speed * (cos h, sin h)`, the phase is Stabilizing before each of the 8
ticks, so still after the 7th, and is Normal after the 8th. -/
theorem stabilizing_lasts_eight (ws : Nat → World) (keys : Nat → Int) (bm : BehaviorManager)
    (hf : bm.Following) (hs : bm.maneuverState = 3) (hc : bm.stepCounter = 0)
    (hclear : ∀ n, n < 8 → (ws n).Unexplored ∧ 7 ≤ (ws n).distances 180) :
    (∀ n, n < 8 →
      (afterTicks ws keys bm n).maneuverState = 3 ∧
      (afterTicks ws keys bm n).stepCounter = n ∧
      (tickOutcome ws keys bm n).Straight (ws n)) ∧
    (afterTicks ws keys bm 7).maneuverState = 3 ∧
    (afterTicks ws keys bm 8).maneuverState = 0 := by
  have hbm : bm = followingIn 3 0 := by
    rw [BehaviorManager.eq_followingIn bm hf, hs, hc]
  subst hbm
  have step : ∀ n, afterTicks ws keys (followingIn 3 0) (n + 1)
      = ((afterTicks ws keys (followingIn 3 0) n).execute (ws n) (keys n)).bm := fun _ => rfl
  have stabilizing : ∀ n c, n < 8 →
      afterTicks ws keys (followingIn 3 0) n = followingIn 3 c →
      afterTicks ws keys (followingIn 3 0) (n + 1)
        = followingIn (if c + 1 ≥ 8 then 0 else 3) (c + 1) ∧
      (tickOutcome ws keys (followingIn 3 0) n).Straight (ws n) := by
    intro n c hn h
    unfold tickOutcome
    rw [step n, h, BehaviorManager.execute_stabilizing c _ _ (hclear n hn).1 (hclear n hn).2]
    exact ⟨rfl, rfl, rfl⟩
  have h0 : afterTicks ws keys (followingIn 3 0) 0 = followingIn 3 0 := rfl
  have h1 := stabilizing 0 0 (by omega) h0
  have h2 := stabilizing 1 1 (by omega) h1.1
  have h3 := stabilizing 2 2 (by omega) h2.1
  have h4 := stabilizing 3 3 (by omega) h3.1
  have h5 := stabilizing 4 4 (by omega) h4.1
  have h6 := stabilizing 5 5 (by omega) h5.1
  have h7 := stabilizing 6 6 (by omega) h6.1
  have h8 := stabilizing 7 7 (by omega) h7.1
  refine ⟨?_, by rw [h7.1]; rfl, by rw [h8.1]; rfl⟩
  intro n hn
  have hcases : n = 0 ∨ n = 1 ∨ n = 2 ∨ n = 3 ∨ n = 4 ∨ n = 5 ∨ n = 6 ∨ n = 7 := by omega
  rcases hcases with h | h | h | h | h | h | h | h <;> subst h
  · exact ⟨rfl, rfl, h1.2⟩
  · exact ⟨by rw [h1.1]; rfl, by rw [h1.1]; rfl, h2.2⟩
  · exact ⟨by rw [h2.1]; rfl, by rw [h2.1]; rfl, h3.2⟩
  · exact ⟨by rw [h3.1]; rfl, by rw [h3.1]; rfl, h4.2⟩
  · exact ⟨by rw [h4.1]; rfl, by rw [h4.1]; rfl, h5.2⟩
  · exact ⟨by rw [h5.1]; rfl, by rw [h5.1]; rfl, h6.2⟩
  · exact ⟨by rw [h6.1]; rfl, by rw [h6.1]; rfl, h7.2⟩
  · exact ⟨by rw [h7.1]; rfl, by rw [h7.1]; rfl, h8.2⟩

/-- Witness of C25: the scan reads 20 ahead and 30 to the right (no wall on the right) on
every tick. -/
theorem stabilizing_lasts_eight_witness :
    (afterTicks (fun _ => sampleWorld 20 30 .left) (fun _ => 0) (followingIn 3 0) 7).maneuverState
      = 3 ∧
    (afterTicks (fun _ => sampleWorld 20 30 .left) (fun _ => 0) (followingIn 3 0) 8).maneuverState
      = 0 :=
  (stabilizing_lasts_eight (fun _ => sampleWorld 20 30 .left) (fun _ => 0) (followingIn 3 0)
    (by decide) rfl rfl
    (fun _ _ => (by decide! : (sampleWorld 20 30 .left).Unexplored ∧
      7 ≤ (sampleWorld 20 30 .left).distances 180))).2

/-! ## Theorems: mode re-assertion and the corner invariant -/

/-- C26. Re-asserting the current mode is a no-op: in MANUAL mode `setByArucoId(0)`, and in
WALL_FOLLOW mode `setByArucoId(1)`, return the manager they were given (no member changes)
and write nothing. Consequently, for every state and every id, a second `setByArucoId(id)`
in a row changes nothing and writes nothing: twice equals once. -/
theorem setByArucoId_same_mode (bm : BehaviorManager) (arucoId : Int) :
    (bm.currentBehavior = .MANUAL → bm.setByArucoId 0 = ⟨bm, 0, 0, []⟩) ∧
    (bm.currentBehavior = .WALL_FOLLOW → bm.setByArucoId 1 = ⟨bm, 0, 0, []⟩) ∧
    (bm.setByArucoId arucoId).bm.setByArucoId arucoId
      = ⟨(bm.setByArucoId arucoId).bm, 0, 0, []⟩ := by
  refine ⟨fun h => ?_, fun h => ?_, ?_⟩
  · simp [BehaviorManager.setByArucoId, BehaviorManager.behaviorOfId, h]
  · simp [BehaviorManager.setByArucoId, BehaviorManager.behaviorOfId, h]
  · by_cases h0 : arucoId = 0
    · subst h0
      cases hb : bm.currentBehavior <;>
        simp [BehaviorManager.setByArucoId, BehaviorManager.behaviorOfId,
          BehaviorManager.reset, hb]
    · by_cases h1 : arucoId = 1
      · subst h1
        cases hb : bm.currentBehavior <;>
          simp [BehaviorManager.setByArucoId, BehaviorManager.behaviorOfId,
            BehaviorManager.reset, hb]
      · simp [BehaviorManager.setByArucoId, BehaviorManager.behaviorOfId, h0, h1]

/-- An instance of C26: a manager that follows a wall in the Stabilizing phase sees the
tag 1 again, and a manager in MANUAL mode sees the tag 1 twice. -/
theorem setByArucoId_same_mode_witness :
    (followingIn 3 4).setByArucoId 1 = ⟨followingIn 3 4, 0, 0, []⟩ ∧
    ((⟨.MANUAL, true, 3, 4, false⟩ : BehaviorManager).setByArucoId 1).bm
      = ⟨.WALL_FOLLOW, false, 0, 0, false⟩ ∧
    (((⟨.MANUAL, true, 3, 4, false⟩ : BehaviorManager).setByArucoId 1).bm.setByArucoId 1).bm
      = ⟨.WALL_FOLLOW, false, 0, 0, false⟩ :=
  ⟨(setByArucoId_same_mode (followingIn 3 4) 1).2.1 rfl, by decide,
    by rw [(setByArucoId_same_mode ⟨.MANUAL, true, 3, 4, false⟩ 1).2.2]; decide⟩

theorem setByArucoId_invariant (bm : BehaviorManager) (arucoId : Int)
    (h : bm.CornerInvariant) : (bm.setByArucoId arucoId).bm.CornerInvariant := by
  unfold BehaviorManager.setByArucoId
  cases BehaviorManager.behaviorOfId arucoId with
  | none => exact h
  | some b =>
      simp only
      split_ifs
      · exact Or.inl ⟨rfl, Or.inl rfl⟩
      · exact h

theorem executeWallFollow_invariant (bm : BehaviorManager) (w : World)
    (h : bm.CornerInvariant) : (bm.executeWallFollow w).bm.CornerInvariant := by
  obtain ⟨mode, wall, ms, sc, done⟩ := bm
  unfold BehaviorManager.CornerInvariant at h ⊢
  simp only at h
  unfold BehaviorManager.executeWallFollow
  simp only
  split_ifs <;> first | exact h | (simp only []; omega) | (simp; done) | (simp; omega)

theorem Call.run_invariant (bm : BehaviorManager) (c : Call) (h : bm.CornerInvariant) :
    (c.run bm).bm.CornerInvariant := by
  cases c with
  | setByArucoId arucoId => exact setByArucoId_invariant bm arucoId h
  | execute w key =>
      simp only [Call.run, BehaviorManager.execute]
      cases hb : bm.currentBehavior with
      | MANUAL =>
          simp only
          rw [(executeManual_completed bm w key).1]
          exact h
      | WALL_FOLLOW => exact executeWallFollow_invariant bm w h
      | IDLE => exact h

theorem runCalls_invariant (calls : List Call) : ∀ bm : BehaviorManager,
    bm.CornerInvariant → (runCalls bm calls).CornerInvariant := by
  induction calls with
  | nil => intro bm h; exact h
  | cons c rest ih =>
      intro bm h
      exact ih _ (Call.run_invariant bm c h)

/-- C28. Corner-machine invariant: in every state reached from the constructed manager by
any sequence of `setByArucoId` and `execute` calls, with any scans, grids and keys,
`maneuverState` is 0, 1, 2 or 3, and `stepCounter` is 0 or 8 when `maneuverState` is 0,
from 0 to 4 when it is 1, exactly 5 when it is 2, and from 0 to 7 when it is 3. -/
theorem corner_invariant (calls : List Call) :
    ((runCalls .init calls).maneuverState = 0 ∨ (runCalls .init calls).maneuverState = 1 ∨
      (runCalls .init calls).maneuverState = 2 ∨ (runCalls .init calls).maneuverState = 3) ∧
    ((runCalls .init calls).maneuverState = 0 →
      (runCalls .init calls).stepCounter = 0 ∨ (runCalls .init calls).stepCounter = 8) ∧
    ((runCalls .init calls).maneuverState = 1 →
      0 ≤ (runCalls .init calls).stepCounter ∧ (runCalls .init calls).stepCounter ≤ 4) ∧
    ((runCalls .init calls).maneuverState = 2 → (runCalls .init calls).stepCounter = 5) ∧
    ((runCalls .init calls).maneuverState = 3 →
      0 ≤ (runCalls .init calls).stepCounter ∧ (runCalls .init calls).stepCounter ≤ 7) := by
  have h := runCalls_invariant calls .init (Or.inl ⟨rfl, Or.inl rfl⟩)
  unfold BehaviorManager.CornerInvariant at h
  generalize runCalls .init calls = b at h
  refine ⟨by omega, fun _ => by omega, fun _ => by omega, fun _ => by omega, fun _ => by omega⟩

/-- An instance of C28 that reaches the Turning phase with its counter of 5: the manager
is put in WALL_FOLLOW mode, finds a wall 8 ahead, loses it on its right, and clears the
corner for 5 ticks. -/
theorem corner_invariant_witness :
    runCalls .init
      [.setByArucoId 1, .execute (sampleWorld 8 20 .right) 0,
        .execute (sampleWorld 20 20 .right) 0, .execute (sampleWorld 20 20 .right) 0,
        .execute (sampleWorld 20 20 .right) 0, .execute (sampleWorld 20 20 .right) 0,
        .execute (sampleWorld 20 20 .right) 0, .execute (sampleWorld 20 20 .right) 0]
      = followingIn 2 5 ∧
    (runCalls .init
      [.setByArucoId 1, .execute (sampleWorld 8 20 .right) 0,
        .execute (sampleWorld 20 20 .right) 0, .execute (sampleWorld 20 20 .right) 0,
        .execute (sampleWorld 20 20 .right) 0, .execute (sampleWorld 20 20 .right) 0,
        .execute (sampleWorld 20 20 .right) 0, .execute (sampleWorld 20 20 .right) 0]).stepCounter
      = 5 :=
  ⟨by decide!,
    (corner_invariant
      [.setByArucoId 1, .execute (sampleWorld 8 20 .right) 0,
        .execute (sampleWorld 20 20 .right) 0, .execute (sampleWorld 20 20 .right) 0,
        .execute (sampleWorld 20 20 .right) 0, .execute (sampleWorld 20 20 .right) 0,
        .execute (sampleWorld 20 20 .right) 0, .execute (sampleWorld 20 20 .right) 0]).2.2.2.1
      (by decide!)⟩

/-! ## Theorems: the loop of the range sensor ends -/

namespace Lidar

/-- A state that fails the guard of the loop is returned as it is, whatever the fuel. -/
theorem ddaLoop_of_not_running (m : Map) (d : RayDir) (fuel : Nat) (s : Ray)
    (h : ¬Running s) : ddaLoop m d fuel s = some s := by
  have hguard : ¬((!s.hit && decide (s.distance < max_range)) = true) := by
    intro hg
    simp only [Bool.and_eq_true, Bool.not_eq_true', decide_eq_true_eq] at hg
    exact h hg
  unfold ddaLoop
  rw [if_neg hguard]

/-- One iteration moves the cell by one step on exactly one axis. -/
theorem iteration_cell (m : Map) (d : RayDir) (s : Ray) :
    ((iteration m d s).mapX = s.mapX + d.stepX ∧ (iteration m d s).mapY = s.mapY) ∨
    ((iteration m d s).mapX = s.mapX ∧ (iteration m d s).mapY = s.mapY + d.stepY) := by
  unfold iteration
  rw [checkCell_mapX, checkCell_mapY]
  unfold advance
  split_ifs
  · exact Or.inl ⟨rfl, rfl⟩
  · exact Or.inr ⟨rfl, rfl⟩

/-- The guard of the loop fails after at most `n + 1` iterations when at most `n` cells are
left between the current cell and the edges of the map the ray moves toward. -/
theorem exists_stop (m : Map) (d : RayDir) (hx : d.stepX = 1 ∨ d.stepX = -1)
    (hy : d.stepY = 1 ∨ d.stepY = -1) : ∀ (n : Nat) (s : Ray), cellsToEdge m d s ≤ n →
    ∃ k, k ≤ n + 1 ∧ (∀ j, j < k → Running ((iteration m d)^[j] s)) ∧
      ¬Running ((iteration m d)^[k] s) := by
  have hstep : ∀ s : Ray, ¬Running (iteration m d s) ∨
      cellsToEdge m d (iteration m d s) + 1 = cellsToEdge m d s := by
    intro s
    by_cases hin : (advance d s).mapX ≥ 0 ∧ (advance d s).mapX < m.width ∧
        (advance d s).mapY ≥ 0 ∧ (advance d s).mapY < m.height
    · right
      unfold iteration
      rw [cellsToEdge_checkCell]
      exact cellsToEdge_advance m d s hx hy hin
    · left
      intro hrun
      have hhit := checkCell_hit_of_outside m (advance d s) hin
      have hfalse : (checkCell m (advance d s)).hit = false := hrun.1
      rw [hhit] at hfalse
      exact Bool.noConfusion hfalse
  have hone : ∀ s : Ray, Running s → ¬Running (iteration m d s) →
      ∃ k, k ≤ 1 ∧ (∀ j, j < k → Running ((iteration m d)^[j] s)) ∧
        ¬Running ((iteration m d)^[k] s) := by
    intro s hrun hstop
    refine ⟨1, le_refl _, ?_, hstop⟩
    intro j hj
    have hj0 : j = 0 := by omega
    subst hj0
    exact hrun
  intro n
  induction n with
  | zero =>
      intro s hs
      by_cases hrun : Running s
      · rcases hstep s with hstop | hless
        · exact hone s hrun hstop
        · omega
      · exact ⟨0, by omega, fun j hj => absurd hj (Nat.not_lt_zero j), hrun⟩
  | succ n ih =>
      intro s hs
      by_cases hrun : Running s
      · rcases hstep s with hstop | hless
        · obtain ⟨k, hk, h1, h2⟩ := hone s hrun hstop
          exact ⟨k, by omega, h1, h2⟩
        · obtain ⟨k, hk, h1, h2⟩ := ih (iteration m d s) (by omega)
          refine ⟨k + 1, by omega, ?_, ?_⟩
          · intro j hj
            cases j with
            | zero => exact hrun
            | succ i =>
                rw [Function.iterate_succ_apply]
                exact h1 i (by omega)
          · rw [Function.iterate_succ_apply]
            exact h2
      · exact ⟨0, by omega, fun j hj => absurd hj (Nat.not_lt_zero j), hrun⟩

end Lidar

/-- C29. The loop of `Lidar::read` ends for every map, every start position and every ray
direction. A zero component of the direction gives the increment `1e30` without a division
by zero. Each iteration moves the current cell by one step of `+1` or `-1`, fixed for the
ray, on exactly one axis. So there is a number `k` of iterations, at most one more than the
number of cells between the start and the edges of the map the ray moves toward, such that
the guard holds before each of the first `k` iterations and fails after them (the cell hit
an obstacle or left the map, or the distance reached `max_range`); with any fuel of `k` or
more the loop returns that state and `read` returns a distance. -/
theorem Lidar.read_terminates (m : Map) (robotPos : Point) (rayDirX rayDirY : ℚ) :
    Lidar.deltaDist 0 = 10 ^ 30 ∧
    ((Lidar.rayDir rayDirX rayDirY).stepX = 1 ∨ (Lidar.rayDir rayDirX rayDirY).stepX = -1) ∧
    ((Lidar.rayDir rayDirX rayDirY).stepY = 1 ∨ (Lidar.rayDir rayDirX rayDirY).stepY = -1) ∧
    (∀ s : Lidar.Ray,
      ((Lidar.iteration m (Lidar.rayDir rayDirX rayDirY) s).mapX
          = s.mapX + (Lidar.rayDir rayDirX rayDirY).stepX ∧
        (Lidar.iteration m (Lidar.rayDir rayDirX rayDirY) s).mapY = s.mapY) ∨
      ((Lidar.iteration m (Lidar.rayDir rayDirX rayDirY) s).mapX = s.mapX ∧
        (Lidar.iteration m (Lidar.rayDir rayDirX rayDirY) s).mapY
          = s.mapY + (Lidar.rayDir rayDirX rayDirY).stepY)) ∧
    ∃ k : Nat,
      k ≤ Lidar.cellsToEdge m (Lidar.rayDir rayDirX rayDirY)
          (Lidar.rayStart robotPos rayDirX rayDirY) + 1 ∧
      (∀ j, j < k → Lidar.Running ((Lidar.iteration m (Lidar.rayDir rayDirX rayDirY))^[j]
        (Lidar.rayStart robotPos rayDirX rayDirY))) ∧
      ¬Lidar.Running ((Lidar.iteration m (Lidar.rayDir rayDirX rayDirY))^[k]
        (Lidar.rayStart robotPos rayDirX rayDirY)) ∧
      ∀ fuel, k ≤ fuel →
        Lidar.ddaLoop m (Lidar.rayDir rayDirX rayDirY) fuel
            (Lidar.rayStart robotPos rayDirX rayDirY)
          = some ((Lidar.iteration m (Lidar.rayDir rayDirX rayDirY))^[k]
              (Lidar.rayStart robotPos rayDirX rayDirY)) ∧
        ∃ dist, Lidar.read m robotPos rayDirX rayDirY fuel = some dist := by
  refine ⟨by simp [Lidar.deltaDist], Lidar.rayDir_stepX rayDirX rayDirY,
    Lidar.rayDir_stepY rayDirX rayDirY, Lidar.iteration_cell m _, ?_⟩
  obtain ⟨k, hk, hrun, hstop⟩ := Lidar.exists_stop m (Lidar.rayDir rayDirX rayDirY)
    (Lidar.rayDir_stepX rayDirX rayDirY) (Lidar.rayDir_stepY rayDirX rayDirY) _
    (Lidar.rayStart robotPos rayDirX rayDirY) (le_refl _)
  refine ⟨k, hk, hrun, hstop, ?_⟩
  intro fuel hfuel
  have hloop : Lidar.ddaLoop m (Lidar.rayDir rayDirX rayDirY) fuel
      (Lidar.rayStart robotPos rayDirX rayDirY)
      = some ((Lidar.iteration m (Lidar.rayDir rayDirX rayDirY))^[k]
          (Lidar.rayStart robotPos rayDirX rayDirY)) := by
    have hsplit : fuel = (fuel - k) + k := by omega
    rw [hsplit, Lidar.ddaLoop_iterate m _ k (fuel - k) _ hrun]
    exact Lidar.ddaLoop_of_not_running m _ _ _ hstop
  refine ⟨hloop, ?_⟩
  unfold Lidar.read
  rw [hloop]
  exact ⟨_, rfl⟩

/-- Witness of C29 with a zero component: on the white map of 300x300 pixels the ray cast
from (50, 50) along the x axis stops by its distance and the ray cast from (250, 50) leaves
the map; both return `max_range`. -/
theorem Lidar.read_terminates_witness :
    Lidar.read Lidar.whiteMap ⟨50, 50⟩ 1 0 101 = some 100 ∧
    Lidar.read Lidar.whiteMap ⟨250, 50⟩ 1 0 101 = some 100 ∧
    Lidar.deltaDist 0 = 10 ^ 30 :=
  ⟨by decide!, by decide!, (Lidar.read_terminates Lidar.whiteMap ⟨50, 50⟩ 1 0).1⟩

/-! ## Theorems: a reading of the maximal range -/

/-- Truncation drops less than one unit: the square of a value is below the square of the
size of its truncation plus one. -/
theorem truncInt_sq (v : ℚ) :
    v * v < (((truncInt v).natAbs : Int) + 1 : ℚ) * (((truncInt v).natAbs : Int) + 1 : ℚ) := by
  unfold truncInt
  split_ifs with h
  · have h1 := Int.lt_floor_add_one v
    have h0 : (0 : Int) ≤ ⌊v⌋ := Int.floor_nonneg.mpr h
    have habs : ((⌊v⌋.natAbs : Int) : ℚ) = (⌊v⌋ : ℚ) := by
      rw [Int.natAbs_of_nonneg h0]
    rw [habs]
    nlinarith
  · have h1 := Int.ceil_lt_add_one v
    have hneg : v < 0 := not_le.mp h
    have h0 : ⌈v⌉ ≤ (0 : Int) := Int.ceil_le.mpr (by simpa using le_of_lt hneg)
    have habs : ((⌈v⌉.natAbs : Int) : ℚ) = -(⌈v⌉ : ℚ) := by
      rw [Int.ofNat_natAbs_of_nonpos h0]; push_cast; ring
    rw [habs]
    nlinarith

theorem far_of_unit (a b : Int) (ha : 0 ≤ a) (hb : 0 ≤ b)
    (h : 9900 < (a + 1) * (a + 1) + (b + 1) * (b + 1)) : 9604 ≤ a * a + b * b := by
  by_contra hlt
  have hsum : a + b ≤ 138 := by
    by_contra hbig
    nlinarith [sq_nonneg (a - b)]
  nlinarith

theorem Lidar.hitPoint_far (pos : Point) (rayDirX rayDirY : ℚ)
    (hdir : 99 / 100 ≤ rayDirX * rayDirX + rayDirY * rayDirY) :
    9604 ≤ ((Lidar.hitPoint pos Lidar.max_range rayDirX rayDirY).sub pos).normSq := by
  have hx := truncInt_sq (Lidar.max_range * rayDirX)
  have hy := truncInt_sq (Lidar.max_range * rayDirY)
  unfold Lidar.hitPoint Point.sub Point.normSq
  simp only
  generalize truncInt (Lidar.max_range * rayDirX) = tx at hx
  generalize truncInt (Lidar.max_range * rayDirY) = ty at hy
  unfold Lidar.max_range at hx hy
  have hq : (9900 : ℚ) < ((tx.natAbs : Int) + 1 : ℚ) * ((tx.natAbs : Int) + 1 : ℚ)
      + ((ty.natAbs : Int) + 1 : ℚ) * ((ty.natAbs : Int) + 1 : ℚ) := by nlinarith
  have hz : (9900 : Int) < ((tx.natAbs : Int) + 1) * ((tx.natAbs : Int) + 1)
      + ((ty.natAbs : Int) + 1) * ((ty.natAbs : Int) + 1) := by exact_mod_cast hq
  have hfar := far_of_unit tx.natAbs ty.natAbs (Int.natCast_nonneg _) (Int.natCast_nonneg _) hz
  have e1 : pos.x + tx - pos.x = tx := by ring
  have e2 : pos.y + ty - pos.y = ty := by ring
  rw [e1, e2]
  have a1 : (tx.natAbs : Int) * tx.natAbs = tx * tx := Int.natAbs_mul_self
  have a2 : (ty.natAbs : Int) * ty.natAbs = ty * ty := Int.natAbs_mul_self
  rw [a1, a2] at hfar
  exact hfar


namespace OccupancyGrid

theorem getD_of_set_zero (l : List Nat) (i j v d : Nat) (hv : v ≠ 0)
    (h : (l.set j v).getD i d = 0) : l.getD i d = 0 := by
  by_cases hji : j = i
  · subst hji
    by_cases hlen : j < l.length
    · simp [List.getD_eq_getElem?_getD, List.getElem?_set, hlen] at h
      exact absurd h hv
    · rw [List.set_eq_of_length_le (Nat.le_of_not_lt hlen)] at h; exact h
  · simpa [List.getD_eq_getElem?_getD, List.getElem?_set, hji] using h

/-- No cell becomes Occupied by a step of a ray whose hit is at 98 or more. -/
theorem markCell_far (g : OccupancyGrid) (point robotPos : Point) (count i : Nat)
    (cell : Point) (hfar : 9604 ≤ (point.sub robotPos).normSq) (x y : Nat)
    (h : (markCell g point robotPos count i cell).at_ x y = OCCUPIED) :
    g.at_ x y = OCCUPIED := by
  unfold markCell at h
  rw [if_neg (not_lt.mpr hfar)] at h
  split_ifs at h
  · exact h
  · exact h
  · unfold at_ setAt at h
    exact getD_of_set_zero _ _ _ FREE _ (by decide) h
  · exact h

theorem traceRay_far (point robotPos : Point) (count : Nat)
    (hfar : 9604 ≤ (point.sub robotPos).normSq) (x y : Nat) (cells : List Point) :
    ∀ (g : OccupancyGrid) (i : Nat),
      (traceRay point robotPos count g i cells).at_ x y = OCCUPIED → g.at_ x y = OCCUPIED := by
  induction cells with
  | nil => intro g i h; exact h
  | cons cell rest ih =>
      intro g i h
      exact markCell_far g point robotPos count i cell hfar x y (ih _ _ h)

theorem integratePoint_far (lineIt : Nat → Nat → Point → Point → List Point)
    (g : OccupancyGrid) (point robotPos : Point)
    (hfar : 9604 ≤ (point.sub robotPos).normSq) (x y : Nat)
    (h : (integratePoint lineIt robotPos g point).at_ x y = OCCUPIED) :
    g.at_ x y = OCCUPIED := by
  unfold integratePoint at h
  simp only at h
  split_ifs at h
  · exact h
  · exact traceRay_far point robotPos _ hfar x y _ g 0 h

end OccupancyGrid

/-- C22. A max-range reading is never recorded as a wall. Let `rayDirX` and `rayDirY` be
the values of the cosine and the sine of the bearing of a ray, a unit vector up to rounding
(the sum of their squares is at least 0.99). The hit point that `getHitPoints` builds for a
reading of `max_range` at the robot position `pos` is `pos` plus the truncations toward zero
of `100 * rayDirX` and `100 * rayDirY`; its squared distance to `pos` is at least 9604, so
its distance is at least 98, and `update` with this point turns no cell of the grid into an
Occupied one, whatever positions the line iterator yields. -/
theorem Lidar.max_range_never_wall (lineIt : Nat → Nat → Point → Point → List Point)
    (g : OccupancyGrid) (pos : Point) (rayDirX rayDirY : ℚ)
    (hdir : 99 / 100 ≤ rayDirX * rayDirX + rayDirY * rayDirY) :
    Lidar.hitPoint pos Lidar.max_range rayDirX rayDirY
      = ⟨pos.x + truncInt (100 * rayDirX), pos.y + truncInt (100 * rayDirY)⟩ ∧
    9604 ≤ ((Lidar.hitPoint pos Lidar.max_range rayDirX rayDirY).sub pos).normSq ∧
    ∀ x y : Nat,
      (g.update lineIt [Lidar.hitPoint pos Lidar.max_range rayDirX rayDirY] pos).at_ x y
        = OCCUPIED → g.at_ x y = OCCUPIED := by
  refine ⟨rfl, Lidar.hitPoint_far pos rayDirX rayDirY hdir, ?_⟩
  intro x y h
  exact OccupancyGrid.integratePoint_far lineIt g _ pos
    (Lidar.hitPoint_far pos rayDirX rayDirY hdir) x y h

/-- Witness of C22: the ray at 45 degrees of a robot at (50, 50) with a reading of
`max_range` gives the hit point (120, 120), at the squared distance 9800 from the robot. -/
theorem Lidar.max_range_never_wall_witness :
    Lidar.hitPoint ⟨50, 50⟩ Lidar.max_range Lidar.cos45 Lidar.sin45 = ⟨120, 120⟩ ∧
    (9604 : Int) ≤ ((Lidar.hitPoint ⟨50, 50⟩ Lidar.max_range Lidar.cos45 Lidar.sin45).sub
      ⟨50, 50⟩).normSq :=
  ⟨by decide!,
    (Lidar.max_range_never_wall noClippedLine (OccupancyGrid.init 200 200 1) ⟨50, 50⟩
      Lidar.cos45 Lidar.sin45 (by decide!)).2.1⟩

/-! ## Theorems: a hit in the cell of the robot -/

/-- The remainder of the C++ division by a positive number is strictly between minus the
divisor and the divisor. -/
theorem tmod_bounds (a c : Int) (hc : 0 < c) : -c < a.tmod c ∧ a.tmod c < c := by
  refine ⟨?_, Int.tmod_lt_of_pos a hc⟩
  rcases Int.lt_or_le a 0 with hneg | hpos
  · have h1 : (-a).tmod c < c := Int.tmod_lt_of_pos (-a) hc
    rw [Int.tmod_def, Int.neg_tdiv] at h1
    rw [Int.tmod_def]
    have e : c * -a.tdiv c = -(c * a.tdiv c) := by ring
    rw [e] at h1
    omega
  · have := Int.tmod_nonneg c hpos
    omega

/-- Two coordinates with the same quotient by a cell size from 1 to 35 differ by at most
68. -/
theorem same_cell_close (a b c : Int) (h1 : 1 ≤ c) (h35 : c ≤ 35)
    (h : a.tdiv c = b.tdiv c) : (a - b) * (a - b) ≤ 4624 := by
  have ha := Int.tmod_add_tdiv a c
  have hb := Int.tmod_add_tdiv b c
  have ba := tmod_bounds a c (by omega)
  have bb := tmod_bounds b c (by omega)
  rw [h] at ha
  have hd : a - b = a.tmod c - b.tmod c := by linarith
  have hlo : -68 ≤ a - b := by omega
  have hhi : a - b ≤ 68 := by omega
  nlinarith

theorem LineIterator.cvLine_self (a : Point) : LineIterator.cvLine a a = [a] := by
  obtain ⟨before, h, _, hlen⟩ := LineIterator.cvLine_eq_append a a
  have h0 : before.length = 0 := by rw [hlen]; simp
  rw [List.length_eq_zero] at h0
  rw [h, h0]; rfl

/-- The update by one hit point whose cell is the cell of the robot, a cell of the grid:
the cell is written as the last one of its line. -/
theorem OccupancyGrid.update_same_cell (clipped : Nat → Nat → Point → Point → List Point)
    (g : OccupancyGrid) (robotPos point : Point)
    (hrobot : g.outside (robotPos.div g.cellSize) = false)
    (hsame : point.div g.cellSize = robotPos.div g.cellSize) :
    g.update (lineIterator clipped) [point] robotPos
      = if (point.sub robotPos).normSq < 9604 then
          g.setAt (robotPos.div g.cellSize).x.toNat (robotPos.div g.cellSize).y.toNat OCCUPIED
        else g := by
  have hline := OccupancyGrid.lineIterator_inside clipped g _ _ hrobot hrobot
  simp only [OccupancyGrid.update, List.foldl_cons, List.foldl_nil,
    OccupancyGrid.integratePoint, hsame, hrobot, Bool.false_eq_true, if_false, hline,
    LineIterator.cvLine_self, List.length_singleton, OccupancyGrid.traceRay,
    OccupancyGrid.markCell, zero_add, if_true]


/-- C30 (counterexample). A grid of 2x2 cells of size 100, all Unknown, is well formed. The
robot at (100, 100) and the hit point (199, 100) are both in the cell (1, 1), and the hit is
at distance 99, which is not below 98: after `update` the cell of the robot is still
Unknown, not Occupied. -/
theorem own_cell_hit_not_occupied :
    (OccupancyGrid.init 200 200 100).WellFormed ∧
    (OccupancyGrid.init 200 200 100).outside (Point.div ⟨100, 100⟩ 100) = false ∧
    Point.div ⟨199, 100⟩ 100 = Point.div ⟨100, 100⟩ 100 ∧
    Point.div ⟨100, 100⟩ 100 = ⟨1, 1⟩ ∧
    ((OccupancyGrid.init 200 200 100).update (lineIterator noClippedLine) [⟨199, 100⟩]
      ⟨100, 100⟩).at_ 1 1 = UNKNOWN ∧
    UNKNOWN ≠ OCCUPIED := by
  decide

/-- C30, amended. Take a well-formed grid, a robot position whose cell is inside the grid
and one hit point whose cell is the cell of the robot. The traced line is that single cell,
and it is treated as the final cell: after `update` the cell of the robot is Occupied when
the squared distance between the hit point and the robot position is below 9604 (their
distance is below 98), and the grid is unchanged otherwise, so the cell is never set Free by
this hit. The distance is below 98 whenever the cell size is from 1 to 35. -/
theorem own_cell_hit (clipped : Nat → Nat → Point → Point → List Point)
    (g : OccupancyGrid) (robotPos point : Point) (hwf : g.WellFormed)
    (hrobot : g.outside (robotPos.div g.cellSize) = false)
    (hsame : point.div g.cellSize = robotPos.div g.cellSize) :
    lineIterator clipped g.gridW g.gridH (robotPos.div g.cellSize) (point.div g.cellSize)
      = [robotPos.div g.cellSize] ∧
    ((point.sub robotPos).normSq < 9604 →
      (g.update (lineIterator clipped) [point] robotPos).at_
        (robotPos.div g.cellSize).x.toNat (robotPos.div g.cellSize).y.toNat = OCCUPIED) ∧
    (9604 ≤ (point.sub robotPos).normSq →
      g.update (lineIterator clipped) [point] robotPos = g) ∧
    (1 ≤ g.cellSize → g.cellSize ≤ 35 → (point.sub robotPos).normSq < 9604) := by
  have hupd := OccupancyGrid.update_same_cell clipped g robotPos point hrobot hsame
  obtain ⟨r1, r2, r3, r4⟩ := (OccupancyGrid.outside_eq_false_iff g _).mp hrobot
  refine ⟨?_, ?_, ?_, ?_⟩
  · rw [hsame, OccupancyGrid.lineIterator_inside clipped g _ _ hrobot hrobot,
      LineIterator.cvLine_self]
  · intro hnear
    rw [hupd, if_pos hnear]
    exact OccupancyGrid.at_setAt_self g _ _ _ (by omega) (by omega) hwf
  · intro hfar
    rw [hupd, if_neg (not_lt.mpr hfar)]
  · intro h1 h35
    have hx := same_cell_close point.x robotPos.x g.cellSize h1 h35
      (congrArg Point.x hsame)
    have hy := same_cell_close point.y robotPos.y g.cellSize h1 h35
      (congrArg Point.y hsame)
    unfold Point.sub Point.normSq
    simp only
    omega

/-- Witness of C30, amended: on a grid of 10x10 cells of size 10 the robot at (55, 55) gets
the hit point (58, 51), of its own cell (5, 5), which becomes Occupied. -/
theorem own_cell_hit_witness :
    ((OccupancyGrid.init 100 100 10).update (lineIterator noClippedLine) [⟨58, 51⟩]
      ⟨55, 55⟩).at_ 5 5 = OCCUPIED :=
  (own_cell_hit noClippedLine (OccupancyGrid.init 100 100 10) ⟨55, 55⟩ ⟨58, 51⟩ (by decide)
    (by decide) (by decide)).2.1 (by decide)

/-! ## Theorems: the free cells of a ray -/

namespace LineIterator

/-- Every position of an iterator is the start moved by `i` steps along the longer extent
and `m` steps along the shorter one, with `i` up to `dx` and `m` up to `dy`. -/
theorem positions_box (dx dy : Int) (stepMajor stepMinor pt1 : Point)
    (lox hix loy hiy : Int) (h0 : 0 ≤ dy) (h1 : dy ≤ dx)
    (hbox : ∀ i m : Int, 0 ≤ i → i ≤ dx → 0 ≤ m → m ≤ dy →
      lox ≤ pt1.x + i * stepMajor.x + m * stepMinor.x ∧
      pt1.x + i * stepMajor.x + m * stepMinor.x ≤ hix ∧
      loy ≤ pt1.y + i * stepMajor.y + m * stepMinor.y ∧
      pt1.y + i * stepMajor.y + m * stepMinor.y ≤ hiy) :
    ∀ c ∈ positions dx dy stepMajor stepMinor pt1,
      lox ≤ c.x ∧ c.x ≤ hix ∧ loy ≤ c.y ∧ c.y ≤ hiy := by
  intro c hc
  unfold positions at hc
  obtain ⟨i, hi1, hq⟩ := List.mem_map.mp hc
  have hi2 : i < (dx + 1).toNat := List.mem_range.mp hi1
  obtain ⟨m, hp, he, hlo, hhi, hm0, hmi⟩ := iterate_next dx dy stepMajor stepMinor pt1 h0 h1 i
  rw [hp] at hq
  have hidx : (i : Int) ≤ dx := by omega
  have hmdy : m ≤ dy := by
    rw [he] at hhi
    rcases Int.lt_or_le 0 dx with hpos | hzero
    · by_contra hgt
      have h2 : dx * 1 ≤ dx * (m - dy) := mul_le_mul_of_nonneg_left (by omega) (le_of_lt hpos)
      have h3 : dy * (i : Int) ≤ dy * dx := mul_le_mul_of_nonneg_left hidx h0
      nlinarith
    · omega
  have hb := hbox i m (Int.natCast_nonneg i) hidx hm0 hmdy
  rw [← hq]
  exact hb

/-- The positions of an unclipped line are in the rectangle spanned by its end points. -/
theorem cvLine_box (pt1 pt2 : Point) : ∀ c ∈ cvLine pt1 pt2,
    min pt1.x pt2.x ≤ c.x ∧ c.x ≤ max pt1.x pt2.x ∧
    min pt1.y pt2.y ≤ c.y ∧ c.y ≤ max pt1.y pt2.y := by
  unfold cvLine
  simp only
  by_cases hx : pt2.x - pt1.x < 0 <;> by_cases hy : pt2.y - pt1.y < 0 <;>
    simp only [hx, hy, if_true, if_false] <;>
    split_ifs with hvert <;>
    apply positions_box <;>
    first
    | omega
    | (intro i m hi0 hi1 hm0 hm1
       simp only [mul_zero, mul_one, mul_neg, add_zero]
       omega)

/-- An unclipped line starts at `pt1`. -/
theorem cvLine_head (pt1 pt2 : Point) : (cvLine pt1 pt2).head? = some pt1 := by
  have hpos : ∀ (dx dy : Int) (stepMajor stepMinor : Point), 0 ≤ dx →
      (positions dx dy stepMajor stepMinor pt1).head? = some pt1 := by
    intro dx dy stepMajor stepMinor hdx
    unfold positions
    have hcount : (dx + 1).toNat = dx.toNat + 1 := by omega
    rw [hcount, List.range_succ_eq_map]
    rfl
  unfold cvLine
  simp only
  split_ifs <;> apply hpos <;> omega

end LineIterator

namespace OccupancyGrid

/-- The positions of an unclipped line between two cells of the grid are cells of the
grid. -/
theorem cvLine_inside (g : OccupancyGrid) (a b : Point) (ha : g.outside a = false)
    (hb : g.outside b = false) : ∀ c ∈ LineIterator.cvLine a b, g.outside c = false := by
  intro c hc
  obtain ⟨a1, a2, a3, a4⟩ := (outside_eq_false_iff g a).mp ha
  obtain ⟨b1, b2, b3, b4⟩ := (outside_eq_false_iff g b).mp hb
  obtain ⟨c1, c2, c3, c4⟩ := LineIterator.cvLine_box a b c hc
  rw [outside_eq_false_iff]
  omega

/-- A cell of the grid that is not the last of its line becomes Free unless it is
Occupied. -/
theorem markCell_self (g : OccupancyGrid) (point robotPos : Point) (count i : Nat)
    (cell : Point) (hwf : g.WellFormed) (hc : g.outside cell = false) (hi : i + 1 ≠ count) :
    (markCell g point robotPos count i cell).at_ cell.x.toNat cell.y.toNat
      = if g.at_ cell.x.toNat cell.y.toNat = OCCUPIED then OCCUPIED else FREE := by
  obtain ⟨c1, c2, c3, c4⟩ := (outside_eq_false_iff g cell).mp hc
  unfold markCell
  rw [if_neg (by simp [hc]), if_neg hi]
  by_cases h0 : g.at_ cell.x.toNat cell.y.toNat = 0
  · have h1 : g.at_ cell.x.toNat cell.y.toNat = OCCUPIED := h0
    rw [if_neg (by simp [h0]), if_pos h1]; exact h0
  · have h1 : ¬g.at_ cell.x.toNat cell.y.toNat = OCCUPIED := h0
    rw [if_pos h0, if_neg h1]
    exact at_setAt_self g _ _ _ (by omega) (by omega) hwf

/-- The cells of a ray before its last one: a cell of the grid among them is Occupied
afterwards if it was Occupied, and Free otherwise; any other cell of the grid is as it
was. -/
theorem traceRay_free (point robotPos : Point) (count : Nat) (target : Point)
    (cells : List Point) :
    ∀ (g : OccupancyGrid) (i : Nat), g.WellFormed → g.outside target = false →
      i + cells.length < count →
      (traceRay point robotPos count g i cells).at_ target.x.toNat target.y.toNat
        = if target ∈ cells then
            (if g.at_ target.x.toNat target.y.toNat = OCCUPIED then OCCUPIED else FREE)
          else g.at_ target.x.toNat target.y.toNat := by
  induction cells with
  | nil => intro g i _ _ _; simp [traceRay]
  | cons cell rest ih =>
      intro g i hwf ht hlen
      have hsize := markCell_size g point robotPos count i cell
      have hwf2 : (markCell g point robotPos count i cell).WellFormed := by
        unfold WellFormed at hwf ⊢
        rw [hsize.2.2, hsize.1, hsize.2.1]; exact hwf
      have ht2 : (markCell g point robotPos count i cell).outside target = false := by
        rw [outside_eq_false_iff, hsize.1, hsize.2.1]
        exact (outside_eq_false_iff g target).mp ht
      have hlen2 : i + 1 + rest.length < count := by
        simp only [List.length_cons] at hlen; omega
      have hrec := ih (markCell g point robotPos count i cell) (i + 1) hwf2 ht2 hlen2
      simp only [traceRay]
      rw [hrec]
      by_cases hct : cell = target
      · subst hct
        rw [markCell_self g point robotPos count i cell hwf ht (by omega)]
        simp only [List.mem_cons, true_or, if_true]
        by_cases h0 : g.at_ cell.x.toNat cell.y.toNat = OCCUPIED
        · simp [h0]
        · have hne : FREE ≠ OCCUPIED := by decide
          simp [h0, hne]
      · rw [markCell_other g point robotPos count i cell target hct ht]
        have hmem : target ∈ cell :: rest ↔ target ∈ rest := by
          simp only [List.mem_cons]
          constructor
          · rintro (h | h)
            · exact absurd h.symm hct
            · exact h
          · exact Or.inr
        simp only [hmem]

end OccupancyGrid

/-- C21. Free-space rule: take a well-formed grid, a robot position whose cell is inside
the grid and one hit point whose cell is inside the grid. The line iterator then yields the
unclipped line from the cell of the robot to the cell of the hit, all of whose positions are
cells of the grid. After `update` with that point, every cell of the line other than the
cell of the hit is Occupied if it was Occupied before and Free (255) otherwise, and every
cell of the grid that is not on the line is unchanged. -/
theorem free_space_rule (clipped : Nat → Nat → Point → Point → List Point)
    (g : OccupancyGrid) (robotPos point : Point) (hwf : g.WellFormed)
    (hrobot : g.outside (robotPos.div g.cellSize) = false)
    (hhit : g.outside (point.div g.cellSize) = false) :
    lineIterator clipped g.gridW g.gridH (robotPos.div g.cellSize) (point.div g.cellSize)
      = LineIterator.cvLine (robotPos.div g.cellSize) (point.div g.cellSize) ∧
    (LineIterator.cvLine (robotPos.div g.cellSize) (point.div g.cellSize)).head?
      = some (robotPos.div g.cellSize) ∧
    (LineIterator.cvLine (robotPos.div g.cellSize) (point.div g.cellSize)).getLast?
      = some (point.div g.cellSize) ∧
    (∀ c ∈ LineIterator.cvLine (robotPos.div g.cellSize) (point.div g.cellSize),
      g.outside c = false) ∧
    (∀ c ∈ LineIterator.cvLine (robotPos.div g.cellSize) (point.div g.cellSize),
      c ≠ point.div g.cellSize →
      (g.update (lineIterator clipped) [point] robotPos).at_ c.x.toNat c.y.toNat
        = if g.at_ c.x.toNat c.y.toNat = OCCUPIED then OCCUPIED else FREE) ∧
    (∀ c : Point, g.outside c = false →
      c ∉ LineIterator.cvLine (robotPos.div g.cellSize) (point.div g.cellSize) →
      (g.update (lineIterator clipped) [point] robotPos).at_ c.x.toNat c.y.toNat
        = g.at_ c.x.toNat c.y.toNat) := by
  have hline := OccupancyGrid.lineIterator_inside clipped g _ _ hrobot hhit
  have hinside := OccupancyGrid.cvLine_inside g _ _ hrobot hhit
  obtain ⟨before, hcells, hnot, _⟩ :=
    LineIterator.cvLine_eq_append (robotPos.div g.cellSize) (point.div g.cellSize)
  have hupd : g.update (lineIterator clipped) [point] robotPos
      = OccupancyGrid.traceRay point robotPos (before ++ [point.div g.cellSize]).length g 0
          (before ++ [point.div g.cellSize]) := by
    simp only [OccupancyGrid.update, List.foldl_cons, List.foldl_nil,
      OccupancyGrid.integratePoint, hhit, Bool.false_eq_true, if_false, hline, hcells]
  refine ⟨hline, LineIterator.cvLine_head _ _, by rw [hcells]; simp, hinside, ?_, ?_⟩
  · intro c hc hne
    have hcin := hinside c hc
    rw [hcells] at hc
    have hcb : c ∈ before := by
      rcases List.mem_append.mp hc with h | h
      · exact h
      · exact absurd (List.mem_singleton.mp h) hne
    rw [hupd, OccupancyGrid.traceRay_append]
    have hsize := OccupancyGrid.traceRay_size point robotPos
      (before ++ [point.div g.cellSize]).length before g 0
    have hfree := OccupancyGrid.traceRay_free point robotPos
      (before ++ [point.div g.cellSize]).length c before g 0 hwf hcin (by simp)
    rw [if_pos hcb] at hfree
    generalize OccupancyGrid.traceRay point robotPos (before ++ [point.div g.cellSize]).length
      g 0 before = g1 at hsize hfree
    have hc1 : g1.outside c = false := by
      rw [OccupancyGrid.outside_eq_false_iff, hsize.1, hsize.2.1]
      exact (OccupancyGrid.outside_eq_false_iff g c).mp hcin
    simp only [OccupancyGrid.traceRay]
    rw [OccupancyGrid.markCell_other g1 point robotPos _ _ _ c (Ne.symm hne) hc1]
    exact hfree
  · intro c hcin hc
    rw [hupd]
    rw [hcells] at hc
    exact OccupancyGrid.traceRay_other point robotPos _ c _ hc g 0 hcin

/-- Witness of C21: on a grid of 10x10 cells of size 1 whose cell (4, 4) is Occupied, the
robot at (2, 3) gets the hit point (7, 5). The line goes through (3, 3), (4, 4), (5, 4) and
(6, 5): the cell (3, 3) becomes Free, the cell (4, 4) stays Occupied, and the cell (3, 4),
which is not on the line, stays Unknown. -/
theorem free_space_rule_witness :
    LineIterator.cvLine ⟨2, 3⟩ ⟨7, 5⟩ = [⟨2, 3⟩, ⟨3, 3⟩, ⟨4, 4⟩, ⟨5, 4⟩, ⟨6, 5⟩, ⟨7, 5⟩] ∧
    ((((OccupancyGrid.init 10 10 1).setAt 4 4 OCCUPIED).update (lineIterator noClippedLine)
      [⟨7, 5⟩] ⟨2, 3⟩).at_ 3 3 = FREE ∧
    ((((OccupancyGrid.init 10 10 1).setAt 4 4 OCCUPIED).update (lineIterator noClippedLine)
      [⟨7, 5⟩] ⟨2, 3⟩).at_ 4 4 = OCCUPIED) ∧
    ((((OccupancyGrid.init 10 10 1).setAt 4 4 OCCUPIED).update (lineIterator noClippedLine)
      [⟨7, 5⟩] ⟨2, 3⟩).at_ 3 4 = UNKNOWN)) :=
  ⟨by decide,
    (free_space_rule noClippedLine ((OccupancyGrid.init 10 10 1).setAt 4 4 OCCUPIED) ⟨2, 3⟩
      ⟨7, 5⟩ (by decide) (by decide) (by decide)).2.2.2.2.1 ⟨3, 3⟩ (by decide) (by decide),
    (free_space_rule noClippedLine ((OccupancyGrid.init 10 10 1).setAt 4 4 OCCUPIED) ⟨2, 3⟩
      ⟨7, 5⟩ (by decide) (by decide) (by decide)).2.2.2.2.1 ⟨4, 4⟩ (by decide) (by decide),
    (free_space_rule noClippedLine ((OccupancyGrid.init 10 10 1).setAt 4 4 OCCUPIED) ⟨2, 3⟩
      ⟨7, 5⟩ (by decide) (by decide) (by decide)).2.2.2.2.2 ⟨3, 4⟩ (by decide) (by decide)⟩

/-! ## Theorems: the order of the observations -/

namespace OccupancyGrid

theorem applyLevel_applyLevel (a b v : Nat) :
    applyLevel b (applyLevel a v) = applyLevel (max a b) v := by
  unfold applyLevel FREE OCCUPIED
  split_ifs <;> first | rfl | omega

theorem map_applyLevel_zero (o : Option Nat) : o.map (applyLevel 0) = o := by
  cases o <;> simp [applyLevel]

theorem markCell_cellSize (g : OccupancyGrid) (point robotPos : Point) (count i : Nat)
    (cell : Point) : (markCell g point robotPos count i cell).cellSize = g.cellSize := by
  unfold markCell
  split_ifs <;> rfl

/-- One step of a ray applies its level to every pixel. -/
theorem markCell_get (g : OccupancyGrid) (point robotPos : Point) (count i : Nat)
    (cell : Point) (k : Nat) :
    (markCell g point robotPos count i cell).grid[k]?
      = (g.grid[k]?).map (applyLevel (cellLevel g.gridW g.gridH
          (decide ((point.sub robotPos).normSq < 9604)) count i cell k)) := by
  unfold markCell cellLevel outside
  by_cases hout : (decide (cell.x < 0) || decide (cell.x ≥ (g.gridW : Int)) ||
      decide (cell.y < 0) || decide (cell.y ≥ (g.gridH : Int))) = true
  · rw [if_pos hout, if_pos hout, map_applyLevel_zero]
  · rw [if_neg hout, if_neg hout]
    by_cases hk : cell.y.toNat * g.gridW + cell.x.toNat = k
    · rw [if_pos hk]
      by_cases hend : i + 1 = count
      · rw [if_pos hend, if_pos hend]
        by_cases hnear : (point.sub robotPos).normSq < 9604
        · rw [if_pos hnear]
          simp only [hnear, decide_True, if_true, setAt, List.getElem?_set, hk]
          by_cases hlen : k < g.grid.length
          · simp [applyLevel, hlen, OCCUPIED, List.getElem?_eq_getElem hlen]
          · simp [hlen, List.getElem?_eq_none (Nat.le_of_not_lt hlen)]
        · rw [if_neg hnear]
          simp only [hnear, decide_False, Bool.false_eq_true, if_false, map_applyLevel_zero]
      · rw [if_neg hend, if_neg hend]
        unfold at_
        rw [hk]
        by_cases hlen : k < g.grid.length
        · have hget : g.grid.getD k UNKNOWN = g.grid[k] := by
            simp [List.getD_eq_getElem?_getD, List.getElem?_eq_getElem hlen]
          rw [hget]
          by_cases hv : g.grid[k] = 0
          · simp [hv, applyLevel, List.getElem?_eq_getElem hlen]
          · simp [hv, applyLevel, setAt, hk, List.getElem?_set, hlen,
              List.getElem?_eq_getElem hlen]
        · have hnone : g.grid[k]? = none := List.getElem?_eq_none (Nat.le_of_not_lt hlen)
          split_ifs <;> simp [setAt, hk, List.getElem?_set, hlen, hnone]
    · rw [if_neg hk, map_applyLevel_zero]
      have hid : ∀ v, (g.setAt cell.x.toNat cell.y.toNat v).grid[k]? = g.grid[k]? := by
        intro v
        simp [setAt, List.getElem?_set, hk]
      split_ifs <;> first | rfl | exact hid _

theorem traceRay_cellSize (point robotPos : Point) (count : Nat) (cells : List Point) :
    ∀ (g : OccupancyGrid) (i : Nat),
      (traceRay point robotPos count g i cells).cellSize = g.cellSize := by
  induction cells with
  | nil => intro g i; rfl
  | cons cell rest ih =>
      intro g i
      exact (ih _ _).trans (markCell_cellSize g point robotPos count i cell)

/-- A ray applies its level to every pixel. -/
theorem traceRay_get (point robotPos : Point) (count : Nat) (k : Nat) (cells : List Point) :
    ∀ (g : OccupancyGrid) (i : Nat),
      (traceRay point robotPos count g i cells).grid[k]?
        = (g.grid[k]?).map (applyLevel (rayLevel g.gridW g.gridH
            (decide ((point.sub robotPos).normSq < 9604)) count i cells k)) := by
  induction cells with
  | nil => intro g i; simp only [traceRay, rayLevel, map_applyLevel_zero]
  | cons cell rest ih =>
      intro g i
      have hsize := markCell_size g point robotPos count i cell
      simp only [traceRay, rayLevel]
      rw [ih, markCell_get, hsize.1, hsize.2.1, Option.map_map]
      congr 1
      funext v
      exact applyLevel_applyLevel _ _ v

theorem integratePoint_size (lineIt : Nat → Nat → Point → Point → List Point)
    (robotPos : Point) (g : OccupancyGrid) (point : Point) :
    (integratePoint lineIt robotPos g point).cellSize = g.cellSize ∧
    (integratePoint lineIt robotPos g point).gridW = g.gridW ∧
    (integratePoint lineIt robotPos g point).gridH = g.gridH := by
  unfold integratePoint
  simp only
  split_ifs
  · exact ⟨rfl, rfl, rfl⟩
  · exact ⟨traceRay_cellSize _ _ _ _ _ _, (traceRay_size _ _ _ _ _ _).1,
      (traceRay_size _ _ _ _ _ _).2.1⟩

/-- One scan point applies its level to every pixel. -/
theorem integratePoint_get (lineIt : Nat → Nat → Point → Point → List Point)
    (robotPos : Point) (g : OccupancyGrid) (point : Point) (k : Nat) :
    (integratePoint lineIt robotPos g point).grid[k]?
      = (g.grid[k]?).map
          (applyLevel (pointLevel lineIt robotPos point g.cellSize g.gridW g.gridH k)) := by
  unfold integratePoint pointLevel outside
  simp only
  split_ifs
  · rw [map_applyLevel_zero]
  · exact traceRay_get _ _ _ _ _ _ _

/-- Two scan points, each with the robot position it was taken from, can be integrated in
either order. -/
theorem integratePoint_comm (lineIt : Nat → Nat → Point → Point → List Point)
    (g : OccupancyGrid) (posA posB a b : Point) :
    integratePoint lineIt posB (integratePoint lineIt posA g a) b
      = integratePoint lineIt posA (integratePoint lineIt posB g b) a := by
  have sA := integratePoint_size lineIt posA g a
  have sB := integratePoint_size lineIt posB g b
  have sAB := integratePoint_size lineIt posB (integratePoint lineIt posA g a) b
  have sBA := integratePoint_size lineIt posA (integratePoint lineIt posB g b) a
  have hgrid : (integratePoint lineIt posB (integratePoint lineIt posA g a) b).grid
      = (integratePoint lineIt posA (integratePoint lineIt posB g b) a).grid := by
    apply List.ext_getElem?
    intro k
    rw [integratePoint_get, integratePoint_get, integratePoint_get, integratePoint_get,
      sA.1, sA.2.1, sA.2.2, sB.1, sB.2.1, sB.2.2, Option.map_map, Option.map_map]
    congr 1
    funext v
    simp only [Function.comp_apply]
    rw [applyLevel_applyLevel, applyLevel_applyLevel, max_comm]
  have hc := sAB.1.trans (sA.1.trans (sBA.1.trans sB.1).symm)
  have hw := sAB.2.1.trans (sA.2.1.trans (sBA.2.1.trans sB.2.1).symm)
  have hh := sAB.2.2.trans (sA.2.2.trans (sBA.2.2.trans sB.2.2).symm)
  generalize integratePoint lineIt posB (integratePoint lineIt posA g a) b = g1
    at hgrid hc hw hh
  generalize integratePoint lineIt posA (integratePoint lineIt posB g b) a = g2
    at hgrid hc hw hh
  cases g1; cases g2
  simp only at hgrid hc hw hh
  simp only [OccupancyGrid.mk.injEq]
  exact ⟨hc, hw, hh, hgrid⟩

/-- The points of one call of `update` can be taken in any order. -/
theorem update_perm (lineIt : Nat → Nat → Point → Point → List Point) (g : OccupancyGrid)
    (robotPos : Point) (pts pts2 : List Point) (h : pts.Perm pts2) :
    g.update lineIt pts robotPos = g.update lineIt pts2 robotPos := by
  unfold update
  exact List.Perm.foldl_eq' h
    (fun x _ y _ z => integratePoint_comm lineIt z robotPos robotPos x y) g

/-- Two calls of `update`, each from its own robot position, can be made in either
order. -/
theorem update_comm (lineIt : Nat → Nat → Point → Point → List Point) (posA posB : Point)
    (ptsB : List Point) : ∀ (ptsA : List Point) (g : OccupancyGrid),
    (g.update lineIt ptsA posA).update lineIt ptsB posB
      = (g.update lineIt ptsB posB).update lineIt ptsA posA := by
  have hone : ∀ (pts : List Point) (g : OccupancyGrid) (a : Point),
      (integratePoint lineIt posA g a).update lineIt pts posB
        = integratePoint lineIt posA (g.update lineIt pts posB) a := by
    intro pts
    induction pts with
    | nil => intro g a; rfl
    | cons b rest ih =>
        intro g a
        simp only [update, List.foldl_cons]
        rw [integratePoint_comm lineIt g posA posB a b]
        exact ih _ a
  intro ptsA
  induction ptsA with
  | nil => intro g; rfl
  | cons a rest ih =>
      intro g
      have h1 : g.update lineIt (a :: rest) posA
          = (integratePoint lineIt posA g a).update lineIt rest posA := rfl
      have h2 : (g.update lineIt ptsB posB).update lineIt (a :: rest) posA
          = (integratePoint lineIt posA (g.update lineIt ptsB posB) a).update lineIt rest
              posA := rfl
      rw [h1, h2, ih, hone]

end OccupancyGrid

/-- C27 (counterexample). No grid, robot position and observations exist for which the
order of two calls of `update` matters, nor for which the order of the hit points inside one
call matters: the claim of an order-dependent result is false for every line iterator. -/
theorem no_order_dependence :
    (¬∃ (lineIt : Nat → Nat → Point → Point → List Point) (g : OccupancyGrid)
        (robotPos : Point) (ptsA ptsB : List Point),
        (g.update lineIt ptsA robotPos).update lineIt ptsB robotPos
          ≠ (g.update lineIt ptsB robotPos).update lineIt ptsA robotPos) ∧
    (¬∃ (lineIt : Nat → Nat → Point → Point → List Point) (g : OccupancyGrid)
        (robotPos : Point) (pts pts2 : List Point),
        pts.Perm pts2 ∧ g.update lineIt pts robotPos ≠ g.update lineIt pts2 robotPos) := by
  constructor
  · rintro ⟨lineIt, g, robotPos, ptsA, ptsB, h⟩
    exact h (OccupancyGrid.update_comm lineIt robotPos robotPos ptsB ptsA g)
  · rintro ⟨lineIt, g, robotPos, pts, pts2, hperm, h⟩
    exact h (OccupancyGrid.update_perm lineIt g robotPos pts pts2 hperm)

/-- C27, amended. Occupancy accumulation by `update` does not depend on the order of the
observations: for every grid, robot positions and observations A and B, integrating A then
B yields the same grid as integrating B then A, and the hit points of one call can be
reordered without changing the result. The order matters once `smoothGrid` comes between
the calls: on a grid of 3x1 cells with the robot in the middle cell, the hits on the left
and on the right cell followed by one smoothing fill the middle cell, whereas smoothing
between the two hits leaves it Free. -/
theorem update_order_independent (lineIt : Nat → Nat → Point → Point → List Point)
    (g : OccupancyGrid) (posA posB : Point) (ptsA ptsB : List Point) :
    (g.update lineIt ptsA posA).update lineIt ptsB posB
      = (g.update lineIt ptsB posB).update lineIt ptsA posA ∧
    (∀ pts2 : List Point, ptsA.Perm pts2 →
      g.update lineIt ptsA posA = g.update lineIt pts2 posA) ∧
    ((((OccupancyGrid.init 3 1 1).update (lineIterator noClippedLine) [⟨0, 0⟩]
        ⟨1, 0⟩).update (lineIterator noClippedLine) [⟨2, 0⟩] ⟨1, 0⟩).smoothGrid 1).grid
      = [OCCUPIED, OCCUPIED, OCCUPIED] ∧
    ((((OccupancyGrid.init 3 1 1).update (lineIterator noClippedLine) [⟨0, 0⟩]
        ⟨1, 0⟩).smoothGrid 1).update (lineIterator noClippedLine) [⟨2, 0⟩] ⟨1, 0⟩).grid
      = [OCCUPIED, FREE, OCCUPIED] := by
  refine ⟨OccupancyGrid.update_comm lineIt posA posB ptsB ptsA g,
    fun pts2 h => OccupancyGrid.update_perm lineIt g posA ptsA pts2 h, by decide, by decide⟩

/-- Witness of C27, amended: on a grid of 10x10 cells of size 1 the robot at (5, 5) gets
the hit points (8, 5) and (5, 2); both orders give the same grid, in which the cells of
the two hits are Occupied. -/
theorem update_order_independent_witness :
    ((OccupancyGrid.init 10 10 1).update (lineIterator noClippedLine) [⟨8, 5⟩]
        ⟨5, 5⟩).update (lineIterator noClippedLine) [⟨5, 2⟩] ⟨5, 5⟩
      = ((OccupancyGrid.init 10 10 1).update (lineIterator noClippedLine) [⟨5, 2⟩]
        ⟨5, 5⟩).update (lineIterator noClippedLine) [⟨8, 5⟩] ⟨5, 5⟩ ∧
    (((OccupancyGrid.init 10 10 1).update (lineIterator noClippedLine) [⟨8, 5⟩]
        ⟨5, 5⟩).update (lineIterator noClippedLine) [⟨5, 2⟩] ⟨5, 5⟩).at_ 8 5 = OCCUPIED ∧
    (((OccupancyGrid.init 10 10 1).update (lineIterator noClippedLine) [⟨8, 5⟩]
        ⟨5, 5⟩).update (lineIterator noClippedLine) [⟨5, 2⟩] ⟨5, 5⟩).at_ 5 2 = OCCUPIED :=
  ⟨(update_order_independent (lineIterator noClippedLine) (OccupancyGrid.init 10 10 1)
      ⟨5, 5⟩ ⟨5, 5⟩ [⟨8, 5⟩] [⟨5, 2⟩]).1, by decide, by decide⟩

end RobotLidar
